import Mathlib

/-!
# confloader: default-value resolution (`loader.go`)

A shallow embedding of `procValue` and `LoadDefaultIntoStruct` from
`src/loader.go`, together with the parts of Go's `reflect` and `strconv`
packages that these functions call.  The two packages belong to the Go
standard library, not to the repository; they are written down here from
their documented behaviour (`strconv.ParseUint` and `ParseInt` with their
digit loop, cutoff and range checks, `reflect.Value` with its addressable
and read-only flags and the panics of `Type`, `Set`, `Addr` and `Interface`,
`reflect.MakeSlice` with the range check of `runtime.newarray`).

Mutation through `reflect.Value` is rendered as explicit state passing: a
function returns the new contents of the slot it was given.  A Go run-time
panic is the `Except.error` result, carrying the panic message.

Modelling conventions.
* `int` and `uint` are 64 bits wide (`intSize`), as on every 64-bit Go
  platform.  On a 32-bit platform a field of type `int` behaves in
  `procValue` as one of kind `Int32`.
* Machine arithmetic is on `Int` and `Nat` with explicit wrap-around
  (`wrapInt`, `wrapUint`).
* A `float64` is carried as its IEEE-754 bit pattern; `strconv.ParseFloat`
  is a parameter `pf` of the functions that call it.
* `reflect.MakeSlice` panics as `runtime.newarray` does: when more than one
  element is asked for and the elements take more than `maxAlloc` bytes
  (`1 << 48`, 64-bit platform with 48 address bits); sizes of types are
  those of the gc compiler on such a platform (`typeSize`).  An allocation
  within that range is taken to succeed.
* A `GoType` is a finite type tree, so a record shape that contains itself
  through a slice or a pointer is outside the model.
* Values are compared by content; sharing between slices is not modelled.
-/

namespace ConfLoader

/-! ## Types, tags and values -/

/-- The signed integer kinds of `reflect.Kind`. -/
inductive IntKind
  | Int | Int8 | Int16 | Int32 | Int64
  deriving DecidableEq, Repr

/-- The unsigned integer kinds of `reflect.Kind` handled by `procValue`. -/
inductive UintKind
  | Uint | Uint8 | Uint16 | Uint32 | Uint64
  deriving DecidableEq, Repr

/-- Width of the platform `int` and `uint` (`strconv.IntSize`). -/
def intSize : Nat := 64

/-- Size in bits of a signed integer kind (`v.typ.size * 8`). -/
def IntKind.bits : IntKind → Nat
  | .Int => intSize
  | .Int8 => 8
  | .Int16 => 16
  | .Int32 => 32
  | .Int64 => 64

/-- Size in bits of an unsigned integer kind (`v.typ.size * 8`). -/
def UintKind.bits : UintKind → Nat
  | .Uint => intSize
  | .Uint8 => 8
  | .Uint16 => 16
  | .Uint32 => 32
  | .Uint64 => 64

/-- A struct tag in parsed form: the `key:"value"` pairs in the order written. -/
abbrev StructTag := List (String × String)

/-- Go `reflect.StructTag.Lookup`: the value of the first pair with the key. -/
def StructTag.Lookup (tag : StructTag) (key : String) : Option String :=
  match tag with
  | [] => none
  | (k, v) :: rest => if k = key then some v else StructTag.Lookup rest key

/-- Go `reflect.StructTag.Get`: as `Lookup`, with `""` when the key is absent. -/
def StructTag.Get (tag : StructTag) (key : String) : String :=
  match StructTag.Lookup tag key with
  | some v => v
  | none => ""

/-- The part of `reflect.StructField` the loader reads, the field type apart:
the name, whether the field is exported (`PkgPath == ""`), and the tag. -/
structure StructField where
  Name : String
  Exported : Bool
  Tag : StructTag
  deriving DecidableEq, Repr

mutual
/-- A Go type as seen through `reflect.Type`: its kind and what the kind
carries.  `Other` stands for every remaining kind (map, chan, func,
interface, array, complex, uintptr, unsafe pointer), with the size and the
alignment of the type in bytes (`reflect.Type.Size`, `reflect.Type.Align`). -/
inductive GoType
  | String
  | Bool
  | Int (k : IntKind)
  | Uint (k : UintKind)
  | Float32
  | Float64
  | Slice (elem : GoType)
  | Struct (fields : Fields)
  | Ptr (elem : GoType)
  | Other (size align : Nat)
/-- The declared fields of a struct type, in declaration order. -/
inductive Fields
  | nil
  | cons (f : StructField) (typ : GoType) (rest : Fields)
end

/-- A Go value.  `nil` is the nil slice and the nil pointer; `other` is a
value of a kind the loader never looks into, told apart by a number. -/
inductive Value
  | str (s : String)
  | bool (b : Bool)
  | int (n : Int)
  | uint (n : Nat)
  | float (bits : Nat)
  | nil
  | slice (elems : List Value)
  | struct (fields : List Value)
  | ptr (target : Value)
  | other (id : Nat)

mutual
/-- The zero value of a type (`reflect.Zero`, and what `reflect.MakeSlice`
fills a fresh slice with). -/
def zeroValue : GoType → Value
  | .String => .str ""
  | .Bool => .bool false
  | .Int _ => .int 0
  | .Uint _ => .uint 0
  | .Float32 => .float 0
  | .Float64 => .float 0
  | .Slice _ => .nil
  | .Struct fs => .struct (zeroFields fs)
  | .Ptr _ => .nil
  | .Other _ _ => .other 0
/-- The zero values of the fields of a struct type. -/
def zeroFields : Fields → List Value
  | .nil => []
  | .cons _ t rest => zeroValue t :: zeroFields rest
end

/-! ## Sizes of types (`reflect.Type.Size`), on a 64-bit platform -/

/-- Go `types.RoundUp(o, r)`: `o` rounded up to a multiple of the alignment
`r` (in Go a power of two, at least one). -/
def RoundUp (o r : Nat) : Nat :=
  (o + r - 1) / r * r

mutual
/-- The alignment of a type in bytes (`reflect.Type.Align`): that of a
struct is the largest alignment of its fields. -/
def typeAlign : GoType → Nat
  | .String => 8
  | .Bool => 1
  | .Int k => k.bits / 8
  | .Uint k => k.bits / 8
  | .Float32 => 4
  | .Float64 => 8
  | .Slice _ => 8
  | .Struct fs => fieldsAlign fs
  | .Ptr _ => 8
  | .Other _ align => align
/-- The largest alignment among the fields of a struct type, at least one. -/
def fieldsAlign : Fields → Nat
  | .nil => 1
  | .cons _ t rest => max (typeAlign t) (fieldsAlign rest)
end

mutual
/-- The size of a type in bytes (`reflect.Type.Size`, the field `Size_` of
the runtime type).  A struct is laid out as the compiler does it
(`types.CalcStructSize`): each field at the next multiple of its alignment,
one byte of padding after a zero-sized last field of a struct that is not
empty, and the whole rounded up to the alignment of the struct. -/
def typeSize : GoType → Nat
  | .String => 16
  | .Bool => 1
  | .Int k => k.bits / 8
  | .Uint k => k.bits / 8
  | .Float32 => 4
  | .Float64 => 8
  | .Slice _ => 24
  | .Struct fs =>
    let size := calcStructOffset fs 0
    let size := if 0 < size ∧ lastFieldEmpty fs = true then size + 1 else size
    RoundUp size (fieldsAlign fs)
  | .Ptr _ => 8
  | .Other size _ => size
/-- Go `types.calcStructOffset`: the offset after the fields, laid out from
the given offset on. -/
def calcStructOffset : Fields → Nat → Nat
  | .nil, offset => offset
  | .cons _ t rest, offset =>
    calcStructOffset rest (RoundUp offset (typeAlign t) + typeSize t)
/-- Whether the last field of a struct type has size zero. -/
def lastFieldEmpty : Fields → Bool
  | .nil => false
  | .cons _ t .nil => typeSize t == 0
  | .cons _ _ rest => lastFieldEmpty rest
end

/-! ## `strconv` (Go standard library), at the arguments the loader passes -/

/-- The two errors of `strconv.NumError` (`ErrSyntax`, `ErrRange`). -/
inductive NumError
  | ErrSyntax
  | ErrRange
  deriving DecidableEq, Repr

/-- Conversion to a signed `w`-bit integer (`int8(x)`, ..., `int64(x)`):
the value congruent to `x` modulo `2^w` in `[-2^(w-1), 2^(w-1))`. -/
def wrapInt (w : Nat) (x : Int) : Int :=
  (x + 2 ^ (w - 1)) % 2 ^ w - 2 ^ (w - 1)

/-- Conversion to an unsigned `w`-bit integer (`uint8(x)`, ..., `uint64(x)`). -/
def wrapUint (w : Nat) (x : Nat) : Nat :=
  x % 2 ^ w

/-- The digit loop of `strconv.ParseUint(s, 10, 64)`, with `n` the value
accumulated so far in a `uint64`.  `cutoff = maxUint64/10 + 1` and
`maxVal = 1<<64 - 1`.  A byte that is not a decimal digit is a syntax error
(a letter is a digit `>= 10`, which Go rejects as `d >= byte(base)`; the
underscore is only accepted for base 0).  Bytes of a multi-byte character
are not digits, so the loop is written over characters. -/
def ParseUint.loop : List Char → Nat → Nat × Option NumError
  | [], n => (n, none)
  | c :: cs, n =>
    if 48 ≤ c.toNat ∧ c.toNat ≤ 57 then
      let d := c.toNat - 48
      if n ≥ (2 ^ 64 - 1) / 10 + 1 then
        (2 ^ 64 - 1, some .ErrRange)
      else
        let n10 := wrapUint 64 (n * 10)
        let n1 := wrapUint 64 (n10 + d)
        if n1 < n10 ∨ n1 > 2 ^ 64 - 1 then
          (2 ^ 64 - 1, some .ErrRange)
        else
          ParseUint.loop cs n1
    else
      (0, some .ErrSyntax)

/-- Go `strconv.ParseUint(s, 10, 64)`: the value and the error (`none` is a
nil error). -/
def ParseUint (s : String) : Nat × Option NumError :=
  if s = "" then (0, some .ErrSyntax)
  else ParseUint.loop s.data 0

/-- Go `strconv.ParseInt(s, 10, 64)`: picks off a leading sign, converts the
rest with `ParseUint`, and checks the range against `1 << 63`. -/
def ParseInt (s : String) : Int × Option NumError :=
  match s.data with
  | [] => (0, some .ErrSyntax)
  | c :: cs =>
    let neg := decide (c = '-')
    let s1 := if c = '+' ∨ c = '-' then String.mk cs else s
    match ParseUint s1 with
    | (_, some .ErrSyntax) => (0, some .ErrSyntax)
    | (un, _) =>
      let cutoff : Nat := 2 ^ 63
      if !neg ∧ un ≥ cutoff then ((cutoff : Int) - 1, some .ErrRange)
      else if neg ∧ un > cutoff then (-(cutoff : Int), some .ErrRange)
      else
        let n := wrapInt 64 (un : Int)
        (if neg then wrapInt 64 (-n) else n, none)

/-- Go `strconv.ParseBool`. -/
def ParseBool (str : String) : Bool × Option NumError :=
  if str = "1" ∨ str = "t" ∨ str = "T" ∨ str = "TRUE" ∨ str = "true" ∨ str = "True" then
    (true, none)
  else if str = "0" ∨ str = "f" ∨ str = "F" ∨ str = "FALSE" ∨ str = "false"
      ∨ str = "False" then
    (false, none)
  else
    (false, some .ErrSyntax)

/-- The signature of `strconv.ParseFloat(s, 64)`: the bit pattern of the
parsed `float64`, or `none` when Go returns a non-nil error. -/
abbrev FloatParser := String → Option Nat

/-! ## `reflect.Value` -/

/-- A valid `reflect.Value`: the type, the contents of the slot it refers
to, and the two flags that decide settability. -/
structure RValue where
  typ : GoType
  val : Value
  flagAddr : Bool
  flagRO : Bool

/-- Go `reflect.Value.CanSet`: addressable and not reached through an
unexported field. -/
def RValue.CanSet (v : RValue) : Bool :=
  v.flagAddr && !v.flagRO

/-- Go `reflect.Value.OverflowInt` for a kind of `bits` bits:
`trunc := (x << (64 - bitSize)) >> (64 - bitSize); return x != trunc`,
with `<<` on `int64` and `>>` the arithmetic shift (a division that is
exact here, the shifted value being a multiple of the divisor). -/
def OverflowInt (bits : Nat) (x : Int) : Bool :=
  let trunc := wrapInt 64 (x * 2 ^ (64 - bits)) / 2 ^ (64 - bits)
  decide (x ≠ trunc)

/-- Go `reflect.Value.OverflowUint` for a kind of `bits` bits, with `<<` and
`>>` on `uint64`. -/
def OverflowUint (bits : Nat) (x : Nat) : Bool :=
  let trunc := wrapUint 64 (x * 2 ^ (64 - bits)) / 2 ^ (64 - bits)
  decide (x ≠ trunc)

/-- Go `reflect.Value.OverflowFloat` on a value of kind `Float64`:
`case Float64: return false`. -/
def OverflowFloat64 (_x : Nat) : Bool :=
  false

/-! ## `procValue` (loader.go, lines 165-209) -/

/-- Go `procValue(v, val)`.  The argument `none` is the zero `reflect.Value`
(`!v.IsValid()`).  The result is `v` with the new contents of its slot. -/
def procValue (pf : FloatParser) (v : Option RValue) (val : String) : Option RValue :=
  match v with
  | none => none
  | some r =>
    if !r.CanSet then some r
    else
      match r.typ with
      | .String => some { r with val := .str val }
      | .Int k =>
        match ParseInt val with
        | (convInt, none) =>
          if !OverflowInt k.bits convInt then
            some { r with val := .int (wrapInt k.bits convInt) }
          else some r
        | (_, some _) => some r
      | .Uint k =>
        match ParseUint val with
        | (convUint, none) =>
          if !OverflowUint k.bits convUint then
            some { r with val := .uint (wrapUint k.bits convUint) }
          else some r
        | (_, some _) => some r
      | .Float32 => some r
      | .Float64 =>
        match pf val with
        | some convFloat =>
          if !OverflowFloat64 convFloat then some { r with val := .float convFloat }
          else some r
        | none => some r
      | .Bool =>
        match ParseBool val with
        | (convBool, none) => some { r with val := .bool convBool }
        | (_, some _) => some r
      | _ => some r

/-! ## `LoadDefaultIntoStruct` (loader.go, lines 105-163) -/

/-- Lines 125-130: the declared length of a slice field, `0` unless the
`length` tag is non-empty and parses as a base-10 `int64`; `int(convInt)`
is the conversion to the platform `int`. -/
def minLen (f : StructField) : Int :=
  let defLen := StructTag.Get f.Tag "length"
  if defLen ≠ "" then
    match ParseInt defLen with
    | (convInt, none) => wrapInt intSize convInt
    | (_, some _) => 0
  else 0

/-- The contents of the slot of `v` after `procValue(v, val)`. -/
def procSlot (pf : FloatParser) (v : RValue) (val : String) : Value :=
  match procValue pf (some v) val with
  | some r => r.val
  | none => v.val

/-- Lines 146-148 and 158-160, `if tagExists { procValue(v, val) }`, with
`tag` the result of `f.Tag.Lookup("default")`: the contents of the slot of
`v` afterwards. -/
def procTagged (pf : FloatParser) (v : RValue) (tag : Option String) : Value :=
  match tag with
  | some val => procSlot pf v val
  | none => v.val

/-- The panic of `item.Type()` on the zero `reflect.Value`. -/
def panicTypeOnZero : String :=
  "reflect: call of reflect.Value.Type on zero Value"

/-- The panic of `v.Set` on a value reached through an unexported field. -/
def panicSetRO : String :=
  "reflect: reflect.Value.Set using value obtained using unexported field"

/-- The panic of `v.Set` on a value that is not addressable. -/
def panicSetUnaddr : String :=
  "reflect: reflect.Value.Set using unaddressable value"

/-- The panic of `v.Addr()` on a value that is not addressable. -/
def panicAddr : String :=
  "reflect.Value.Addr of unaddressable value"

/-- The panic of `v.Addr().Interface()` on an unexported field. -/
def panicInterfaceRO : String :=
  "reflect.Value.Interface: cannot return value obtained from unexported field or method"

/-- The panic of `reflect.MakeSlice` on a negative length. -/
def panicNegativeLen : String :=
  "reflect.MakeSlice: negative len"

/-- The panic of `runtime.newarray` on a size it does not allocate. -/
def panicAllocRange : String :=
  "runtime: allocation size out of range"

/-- Go `runtime.maxAlloc` on a 64-bit platform with 48 address bits
(linux/amd64): `1 << 48`. -/
def maxAlloc : Nat := 2 ^ 48

/-- Whether `runtime.newarray(typ, n)` panics, for a type of the given size:
`if n == 1 { return mallocgc(...) }`, then `mem, overflow :=
math.MulUintptr(typ.Size_, uintptr(n))` and `if overflow || mem > maxAlloc ||
n < 0 { panic(...) }`, with `uintptr` of 64 bits. -/
def newarray.outOfRange (size : Nat) (n : Int) : Bool :=
  if n = 1 then false
  else
    let un := (n % 2 ^ 64).toNat
    let overflow := decide (2 ^ 64 ≤ size * un)
    let mem := size * un % 2 ^ 64
    overflow || decide (maxAlloc < mem) || decide (n < 0)

/-- Go `reflect.MakeSlice(typ, n, n)` for the type of slices with elements
`et`, as far as it can panic: on a negative length, and in
`unsafe_NewArray`, which is `runtime.newarray`.  An allocation that is in
range is taken to succeed with `n` zero elements (when the memory is not
there the runtime ends the process; that is no panic and no result). -/
def MakeSlice (et : GoType) (n : Int) : Except String Unit :=
  if n < 0 then throw panicNegativeLen
  else if newarray.outOfRange (typeSize et) n then throw panicAllocRange
  else pure ()

/-- Whether `reflect.MakeSlice(typ, n, n)` returns. -/
def MakeSlice.returns (et : GoType) (n : Int) : Bool :=
  match MakeSlice et n with
  | .ok _ => true
  | .error _ => false

mutual
/-- The body of `LoadDefaultIntoStruct` from the head of the loop
`for t.Kind() == reflect.Ptr` on, for the `reflect.Value` `t` of type `typ`,
contents `v` and addressability `addr` (`t` never carries the read-only
flag: it comes from `reflect.ValueOf` and `Elem`).  The result is the new
contents behind `t`, or the panic.  The recursive calls of the source pass
`x.Addr().Interface()`, a fresh pointer to the slot `x`; they enter here
after the one `Elem` step that leads back to `x`, now addressable. -/
def LoadDefaultIntoStruct.run (pf : FloatParser) :
    GoType → Bool → Value → Except String Value
  | .Ptr e, _, .ptr x => do
    let x1 ← LoadDefaultIntoStruct.run pf e true x
    pure (.ptr x1)
  | .Struct fs, addr, .struct vs => do
    let vs1 ← LoadDefaultIntoStruct.loop pf fs addr vs
    pure (.struct vs1)
  | _, _, v => pure v
/-- The loop `for idx := 0; idx < fieldLen; idx++` (lines 118-162) from the
field at the head of the field list on; the list of values holds the
contents of that field and of the fields after it.  The `return` of line
132 ends the loop with the remaining fields as they are; `reflect.MakeSlice`
on line 137 comes before the template is looked at. -/
def LoadDefaultIntoStruct.loop (pf : FloatParser) :
    Fields → Bool → List Value → Except String (List Value)
  | .nil, _, vs => pure vs
  | .cons _ _ _, _, [] => pure []
  | .cons f ft rest, addr, v :: vs =>
    let tag := StructTag.Lookup f.Tag "default"
    match ft with
    | .Slice et =>
      if minLen f < 1 then pure (v :: vs)
      else do
        MakeSlice et (minLen f)
        let item ←
          match et with
          | .Ptr _ => throw panicTypeOnZero
          | .Slice _ => pure (zeroValue et)
          | .Struct efs =>
            LoadDefaultIntoStruct.run pf (.Struct efs) true (zeroValue (.Struct efs))
          | _ => pure (procTagged pf ⟨et, zeroValue et, true, false⟩ tag)
        if !f.Exported then throw panicSetRO
        else if !addr then throw panicSetUnaddr
        else do
          let vs1 ← LoadDefaultIntoStruct.loop pf rest addr vs
          pure (.slice (List.replicate (minLen f).toNat item) :: vs1)
    | .Struct sfs =>
      if !addr then throw panicAddr
      else if !f.Exported then throw panicInterfaceRO
      else do
        let v1 ← LoadDefaultIntoStruct.run pf (.Struct sfs) true v
        let vs1 ← LoadDefaultIntoStruct.loop pf rest addr vs
        pure (v1 :: vs1)
    | _ =>
      let v1 := procTagged pf ⟨ft, v, addr, !f.Exported⟩ tag
      do
        let vs1 ← LoadDefaultIntoStruct.loop pf rest addr vs
        pure (v1 :: vs1)
end

/-- A Go `interface{}` argument: `none` is the nil interface, otherwise the
dynamic type and the value. -/
abbrev Interface := Option (GoType × Value)

/-- Go `LoadDefaultIntoStruct(i)`: `reflect.ValueOf(i)` is not addressable;
for the nil interface it is the zero `reflect.Value`, of kind `Invalid`.
The result is `i` with what it points to after the call. -/
def LoadDefaultIntoStruct (pf : FloatParser) (i : Interface) : Except String Interface :=
  match i with
  | none => pure none
  | some (t, v) => do
    let v1 ← LoadDefaultIntoStruct.run pf t false v
    pure (some (t, v1))

/-- The fields of a struct type as a list of declarations. -/
def Fields.toList : Fields → List (StructField × GoType)
  | .nil => []
  | .cons f t rest => (f, t) :: Fields.toList rest

/-- The scalar shapes of the specification: string, signed and unsigned
integer, floating point, boolean. -/
def isScalar : GoType → Bool
  | .String => true
  | .Bool => true
  | .Int _ => true
  | .Uint _ => true
  | .Float32 => true
  | .Float64 => true
  | _ => false

/-! ## The specification's reading of a default literal -/

namespace Spec

/-- A decimal digit. -/
def isDigit (c : Char) : Bool :=
  decide (48 ≤ c.toNat ∧ c.toNat ≤ 57)

/-- The number denoted by the digits `cs` written after a prefix of value
`acc`, as an unbounded natural number. -/
def digitsValue (acc : Nat) (cs : List Char) : Nat :=
  cs.foldl (fun n c => 10 * n + (c.toNat - 48)) acc

/-- A base-10 literal of decimal digits and the number it denotes: `none`
unless the string is a non-empty run of decimal digits. -/
def decimalNat (cs : List Char) : Option Nat :=
  if cs ≠ [] ∧ cs.all isDigit = true then some (digitsValue 0 cs) else none

/-- A base-10 integer literal (optional sign, decimal digits) and the
integer it denotes. -/
def decimalInt (s : String) : Option Int :=
  match s.data with
  | [] => none
  | c :: cs =>
    if c = '+' then Option.map (fun m : Nat => (m : Int)) (decimalNat cs)
    else if c = '-' then Option.map (fun m : Nat => -(m : Int)) (decimalNat cs)
    else Option.map (fun m : Nat => (m : Int)) (decimalNat (c :: cs))

/-- The declared length of a field is below one, in the words of the
specification: the `length` tag is absent, is not a base-10 integer, or
denotes zero or a negative number. -/
def lengthBelowOne (f : StructField) : Bool :=
  match StructTag.Lookup f.Tag "length" with
  | none => true
  | some s =>
    match decimalInt s with
    | none => true
    | some n => decide (n < 1)

end Spec

/-! ## Records used as concrete inputs -/

/-- A float parser that rejects every string; the records below have no
floating-point field. -/
def noFloat : FloatParser :=
  fun _ => none

/-- An exported field with the given name and tag. -/
def exported (name : String) (tag : StructTag) : StructField :=
  ⟨name, true, tag⟩

/-- An unexported field with the given name and tag. -/
def unexported (name : String) (tag : StructTag) : StructField :=
  ⟨name, false, tag⟩

/-- Go `struct { A []int; F string `default:"x"` }`: a slice field without
a `length` tag, then a string field with a default. -/
def recSliceThenString : GoType :=
  .Struct (.cons (exported "A" []) (.Slice (.Int .Int))
    (.cons (exported "F" [("default", "x")]) .String .nil))

/-- Go `struct { F string `default:"x"`; A []int }`: the same two fields in
the other order. -/
def recStringThenSlice : GoType :=
  .Struct (.cons (exported "F" [("default", "x")]) .String
    (.cons (exported "A" []) (.Slice (.Int .Int)) .nil))

/-- Go `struct { F float32 `default:"1.5"` }`. -/
def recFloat32 : GoType :=
  .Struct (.cons (exported "F" [("default", "1.5")]) .Float32 .nil)

/-- Go `struct { F float64 `default:"1.5"` }`. -/
def recFloat64 : GoType :=
  .Struct (.cons (exported "F" [("default", "1.5")]) .Float64 .nil)

/-- The fields of Go `struct { M [][]int `length:"2"` }`. -/
def recNestedSlice.fields : Fields :=
  .cons (exported "M" [("length", "2")]) (.Slice (.Slice (.Int .Int))) .nil

/-- Go `struct { M [][]int `length:"2"` }`: a slice of slices. -/
def recNestedSlice : GoType :=
  .Struct recNestedSlice.fields

/-- Go `struct { M [][]int `length:"9223372036854775807"` }`: a slice of
slices with the largest declared length an `int` holds. -/
def recHugeNestedSlice : GoType :=
  .Struct (.cons (exported "M" [("length", "9223372036854775807")])
    (.Slice (.Slice (.Int .Int))) .nil)

/-- Go `SubStruct` of `Test_loadDefaultIntoStruct`. -/
def SubStruct : GoType :=
  .Struct (.cons (exported "S" [("default", "sss")]) .String .nil)

/-- The fields of Go `ArrStruct` of `Test_loadDefaultIntoStruct`. -/
def ArrStruct.fields : Fields :=
  .cons (exported "S" [("default", "inslice")]) .String .nil

/-- Go `ArrStruct` of `Test_loadDefaultIntoStruct`. -/
def ArrStruct : GoType :=
  .Struct ArrStruct.fields

/-- The fields of Go `struct { SL2 []ArrStruct
`length:"9223372036854775807"` }`. -/
def recHugeRecordSlice.fields : Fields :=
  .cons (exported "SL2" [("length", "9223372036854775807")]) (.Slice ArrStruct) .nil

/-- Go `struct { SL2 []ArrStruct `length:"9223372036854775807"` }`: a slice
of records with the largest declared length an `int` holds. -/
def recHugeRecordSlice : GoType :=
  .Struct recHugeRecordSlice.fields

/-- The fields of Go `SS` of `Test_loadDefaultIntoStruct`. -/
def SS.fields : Fields :=
  .cons (exported "S" [("default", "str")]) .String
    (.cons (exported "I" [("default", "123")]) (.Int .Int)
    (.cons (exported "B" [("default", "true")]) .Bool
    (.cons (exported "SS" []) SubStruct
    (.cons (exported "SL" [("default", "z"), ("length", "1")]) (.Slice .String)
    (.cons (exported "SL2" [("length", "1")]) (.Slice ArrStruct)
    (.cons (exported "SL3" [("default", "100"), ("length", "3")]) (.Slice (.Int .Int))
    .nil))))))

/-- Go `SS` of `Test_loadDefaultIntoStruct`. -/
def SS : GoType :=
  .Struct SS.fields

/-- The value `expected` of `Test_loadDefaultIntoStruct`. -/
def SS.expected : Value :=
  .struct [.str "str", .int 123, .bool true, .struct [.str "sss"], .slice [.str "z"],
    .slice [.struct [.str "inslice"]], .slice [.int 100, .int 100, .int 100]]

/-- Go `struct { I int8 `default:"300"`; B bool `default:"yes"`; U uint16
`default:"-1"`; N int `default:"12x"` }`: defaults that are out of range or
malformed. -/
def recBadDefaults : GoType :=
  .Struct
    (.cons (exported "I" [("default", "300")]) (.Int .Int8)
    (.cons (exported "B" [("default", "yes")]) .Bool
    (.cons (exported "U" [("default", "-1")]) (.Uint .Uint16)
    (.cons (exported "N" [("default", "12x")]) (.Int .Int) .nil))))

/-- Go `struct { sl []int `length:"1"` }`: an unexported slice field. -/
def recUnexportedSlice : GoType :=
  .Struct (.cons (unexported "sl" [("length", "1")]) (.Slice (.Int .Int)) .nil)

/-- Go `struct { in SubStruct }`: an unexported nested record. -/
def recUnexportedStruct : GoType :=
  .Struct (.cons (unexported "in" []) SubStruct .nil)

/-- Go `struct { P []*int `length:"1"` }`: a slice of pointers. -/
def recPtrSlice : GoType :=
  .Struct (.cons (exported "P" [("length", "1")]) (.Slice (.Ptr (.Int .Int))) .nil)

/-- Go `struct { n int `default:"5"` }`: an unexported scalar field. -/
def recUnexportedInt : GoType :=
  .Struct (.cons (unexported "n" [("default", "5")]) (.Int .Int) .nil)

/-- Go `struct { S string `default:"s"`; A []string `default:"a" length:"-3"` }`:
a slice field with a default and a negative declared length. -/
def shortSliceFields : Fields :=
  .cons (exported "S" [("default", "s")]) .String
    (.cons (exported "A" [("default", "a"), ("length", "-3")]) (.Slice .String) .nil)

/-- Go `struct { F []float32 `default:"1.5" length:"2"` }`. -/
def recFloat32Slice : GoType :=
  .Struct (.cons (exported "F" [("default", "1.5"), ("length", "2")]) (.Slice .Float32) .nil)

/-- Go `struct { F []float64 `default:"1.5" length:"2"` }`. -/
def recFloat64Slice : GoType :=
  .Struct (.cons (exported "F" [("default", "1.5"), ("length", "2")]) (.Slice .Float64) .nil)

/-! ## Predicates used in the statements -/

/-- The field list from field `k` on. -/
def Fields.drop : Nat → Fields → Fields
  | 0, fs => fs
  | _ + 1, .nil => .nil
  | k + 1, .cons _ _ rest => Fields.drop k rest

/-- The loop comes to field `k`: no slice field before it has a declared
length below one (the `return` of line 132 is not taken before field `k`). -/
def reaches : Fields → Nat → Bool
  | _, 0 => true
  | .nil, _ + 1 => true
  | .cons f (.Slice _) rest, k + 1 => decide (1 ≤ minLen f) && reaches rest k
  | .cons _ _ rest, k + 1 => reaches rest k

/-- Neither a slice nor a struct: the third branch of the loop body. -/
def isPlain : GoType → Bool
  | .Slice _ => false
  | .Struct _ => false
  | _ => true


/-- Idempotence of the walker on a type, for every addressability. -/
def RunIdem (pf : FloatParser) (t : GoType) : Prop :=
  ∀ (addr : Bool) (v v1 : Value),
    LoadDefaultIntoStruct.run pf t addr v = .ok v1 →
    LoadDefaultIntoStruct.run pf t addr v1 = .ok v1

/-- Idempotence of the field loop on a field list. -/
def LoopIdem (pf : FloatParser) (fs : Fields) : Prop :=
  ∀ (addr : Bool) (vs vs1 : List Value),
    LoadDefaultIntoStruct.loop pf fs addr vs = .ok vs1 →
    LoadDefaultIntoStruct.loop pf fs addr vs1 = .ok vs1


/-! ## `Load` (loader.go, lines 16-103) -/

/-- Go `ConfigFileType`, an `int`. -/
abbrev ConfigFileType := Int

/-- Go `ConfigFileTypeJSON` (`iota`, 0). -/
def ConfigFileTypeJSON : ConfigFileType := 0

/-- Go `ConfigFileTypeYAML` (1). -/
def ConfigFileTypeYAML : ConfigFileType := 1

/-- Go `ConfigFileTypeTOML` (2). -/
def ConfigFileTypeTOML : ConfigFileType := 2

/-- Go `ConfigFile`; the field `Type` of the source is `Typ` here. -/
structure ConfigFile where
  Typ : ConfigFileType
  Path : String

/-- Go `LoadOptions`; `ConfigFile` is a pointer, `none` when nil. -/
structure LoadOptions where
  ConfigFile : Option ConfigFile
  FromEnv : Bool

/-- The contents of a file. -/
abbrev Bytes := List UInt8

/-- A Go `error` value as `Load` returns it: made by `errors.New` with the
given message, or received from a callee (`ioutil.ReadFile`, one of the
decoders) and returned as it is. -/
inductive GoError
  | New (msg : String)
  | fromCallee (e : String)
  deriving DecidableEq, Repr

/-- The collaborators of `Load` outside the repository: `utils.ParsePath`,
`utils.CheckExists(path, false)`, `ioutil.ReadFile`, the three decoders
`json.Unmarshal`, `toml.Unmarshal`, `yaml.Unmarshal` and `envconfig.Parse`.
A decoder and the binder work in place on what their argument points to:
they give back the target as they leave it and the error they return
(`none` for nil). -/
structure World where
  ParsePath : String → String
  CheckExists : String → Bool
  ReadFile : String → Except String Bytes
  jsonUnmarshal : Bytes → Interface → Interface × Option String
  tomlUnmarshal : Bytes → Interface → Interface × Option String
  yamlUnmarshal : Bytes → Interface → Interface × Option String
  envconfigParse : Interface → Interface × Option String

/-- A call that `Load` makes, recorded in the order made. -/
inductive Call
  | LoadDefaultIntoStruct
  | ParsePath (path : String)
  | CheckExists (path : String)
  | ReadFile (path : String)
  | jsonUnmarshal (data : Bytes)
  | tomlUnmarshal (data : Bytes)
  | yamlUnmarshal (data : Bytes)
  | envconfigParse
  deriving DecidableEq, Repr

/-- What a call of `Load` that returns leaves behind: the error returned
(`none` for nil), what the argument `i` refers to afterwards, and the calls
made. -/
structure LoadResult where
  err : Option GoError
  target : Interface
  calls : List Call

/-- Go `t.Kind() == reflect.Ptr`. -/
def isPtr : GoType → Bool
  | .Ptr _ => true
  | _ => false

/-- Go `t.Kind() == reflect.Struct`. -/
def isStruct : GoType → Bool
  | .Struct _ => true
  | _ => false

/-- The loop `for t.Kind() == reflect.Ptr { t = t.Elem() }` on a type. -/
def derefType : GoType → GoType
  | .Ptr e => derefType e
  | t => t

/-- The panic of a method call on a nil interface value. -/
def panicNilDeref : String :=
  "runtime error: invalid memory address or nil pointer dereference"

/-- Lines 57-94 of `Load`, the block under `if opts.ConfigFile != nil`: the
error it returns with, if any, the target afterwards, and the calls made.
The assignment to `opts.ConfigFile.Path` on line 62 changes the caller's
options, which are not part of the result. -/
def Load.configFile (w : World) (i : Interface) (cf : ConfigFile) :
    Option GoError × Interface × List Call :=
  if cf.Path = "" then (some (.New "config file path empty"), i, [])
  else
    let path := w.ParsePath cf.Path
    if !w.CheckExists path then
      (some (.New "config file not found"), i, [.ParsePath cf.Path, .CheckExists path])
    else
      match w.ReadFile path with
      | .error e =>
        (some (.fromCallee e), i, [.ParsePath cf.Path, .CheckExists path, .ReadFile path])
      | .ok filebyte =>
        if cf.Typ = ConfigFileTypeJSON then
          match w.jsonUnmarshal filebyte i with
          | (i1, some e) =>
            (some (.fromCallee e), i1,
              [.ParsePath cf.Path, .CheckExists path, .ReadFile path, .jsonUnmarshal filebyte])
          | (i1, none) =>
            (none, i1,
              [.ParsePath cf.Path, .CheckExists path, .ReadFile path, .jsonUnmarshal filebyte])
        else if cf.Typ = ConfigFileTypeTOML then
          match w.tomlUnmarshal filebyte i with
          | (i1, some e) =>
            (some (.fromCallee e), i1,
              [.ParsePath cf.Path, .CheckExists path, .ReadFile path, .tomlUnmarshal filebyte])
          | (i1, none) =>
            (none, i1,
              [.ParsePath cf.Path, .CheckExists path, .ReadFile path, .tomlUnmarshal filebyte])
        else if cf.Typ = ConfigFileTypeYAML then
          match w.yamlUnmarshal filebyte i with
          | (i1, some e) =>
            (some (.fromCallee e), i1,
              [.ParsePath cf.Path, .CheckExists path, .ReadFile path, .yamlUnmarshal filebyte])
          | (i1, none) =>
            (none, i1,
              [.ParsePath cf.Path, .CheckExists path, .ReadFile path, .yamlUnmarshal filebyte])
        else
          (some (.New "file type not impl"), i,
            [.ParsePath cf.Path, .CheckExists path, .ReadFile path])

/-- Lines 50-102 of `Load`, after the defaults have been loaded into the
target `i1`. -/
def Load.overlays (w : World) (i1 : Interface) (opts : Option LoadOptions) : LoadResult :=
  match opts with
  | none => ⟨none, i1, [.LoadDefaultIntoStruct]⟩
  | some o =>
    match (match o.ConfigFile with
      | none => ((none : Option GoError), i1, ([] : List Call))
      | some cf => Load.configFile w i1 cf) with
    | (some e, i2, calls) => ⟨some e, i2, .LoadDefaultIntoStruct :: calls⟩
    | (none, i2, calls) =>
      if o.FromEnv then
        ⟨none, (w.envconfigParse i2).1, .LoadDefaultIntoStruct :: (calls ++ [.envconfigParse])⟩
      else ⟨none, i2, .LoadDefaultIntoStruct :: calls⟩

/-- Go `Load(i, opts)`.  `reflect.TypeOf(i)` of the nil interface is the nil
`reflect.Type`, on which `t.Kind()` panics.  The result is the panic, or
what the call leaves behind when it returns. -/
def Load (w : World) (pf : FloatParser) (i : Interface) (opts : Option LoadOptions) :
    Except String LoadResult :=
  match i with
  | none => throw panicNilDeref
  | some (t, _) =>
    if !isPtr t then pure ⟨some (.New "input arg not ptr"), i, []⟩
    else if !isStruct (derefType t) then pure ⟨some (.New "input not a struct"), i, []⟩
    else do
      let i1 ← LoadDefaultIntoStruct pf i
      pure (Load.overlays w i1 opts)

/-- A call of one of the three decoders. -/
def Call.isDecoder : Call → Bool
  | .jsonUnmarshal _ => true
  | .tomlUnmarshal _ => true
  | .yamlUnmarshal _ => true
  | _ => false

/-- Field `k` of the record behind a pointer. -/
def fieldOf (i : Interface) (k : Nat) : Option Value :=
  match i with
  | some (.Ptr _, .ptr (.struct vs)) => vs[k]?
  | _ => none

/-- The record behind a pointer with field `k` set to `x`. -/
def setField (k : Nat) (x : Value) (i : Interface) : Interface :=
  match i with
  | some (.Ptr t, .ptr (.struct vs)) => some (.Ptr t, .ptr (.struct (vs.set k x)))
  | _ => i

namespace Spec

/-- The file overlay of the specification, when a file source is
configured: the decoder of the declared format applied to the bytes of the
file at the resolved path; nothing changes without a file source. -/
def decodeIfConfigured (w : World) (cf : Option ConfigFile) (x : Interface) : Interface :=
  match cf with
  | none => x
  | some cf =>
    match w.ReadFile (w.ParsePath cf.Path) with
    | .error _ => x
    | .ok data =>
      if cf.Typ = ConfigFileTypeJSON then (w.jsonUnmarshal data x).1
      else if cf.Typ = ConfigFileTypeYAML then (w.yamlUnmarshal data x).1
      else if cf.Typ = ConfigFileTypeTOML then (w.tomlUnmarshal data x).1
      else x

/-- The environment overlay of the specification, when enabled. -/
def envOverlayIfEnabled (w : World) (enabled : Bool) (x : Interface) : Interface :=
  if enabled then (w.envconfigParse x).1 else x

end Spec

/-- The fields of the record of the specification's scenario: `struct {
StrKey string `default:"def value"`; IntKey int; StrArr []string
`default:"arr1" length:"1"` }`. -/
def recConfig.fields : Fields :=
  .cons (exported "StrKey" [("default", "def value")]) .String
    (.cons (exported "IntKey" []) (.Int .Int)
    (.cons (exported "StrArr" [("default", "arr1"), ("length", "1")]) (.Slice .String) .nil))

/-- The record of the specification's scenario. -/
def recConfig : GoType :=
  .Struct recConfig.fields

/-- The collaborators of the specification's scenario.  The file
`./test/config.json` exists and is read; its JSON sets `IntKey` to 1000; the
environment sets `IntKey` to 2000 and the binder returns an error all the
same.  `./locked` exists and cannot be read; no other path exists.  The TOML
decoder fails and leaves the target as it is. -/
def scenarioWorld : World where
  ParsePath := fun p => p
  CheckExists := fun p => decide (p = "./test/config.json" ∨ p = "./locked")
  ReadFile := fun p =>
    if p = "./test/config.json" then .ok [123, 125] else .error "read: permission denied"
  jsonUnmarshal := fun _ x => (setField 1 (.int 1000) x, none)
  tomlUnmarshal := fun _ x => (x, some "toml: parse error")
  yamlUnmarshal := fun _ x => (x, none)
  envconfigParse := fun x => (setField 1 (.int 2000) x, some "envconfig: parse failure")

/-- The options of the scenario: the JSON file, with or without the
environment overlay. -/
def scenarioOptions (fromEnv : Bool) : LoadOptions :=
  ⟨some ⟨ConfigFileTypeJSON, "./test/config.json"⟩, fromEnv⟩

/-- The target of the scenario before the call: a pointer to a zero record. -/
def scenarioInput : Interface :=
  some (.Ptr recConfig, .ptr (zeroValue recConfig))

/-- The target of the scenario with the given `IntKey`, the other fields at
their defaults. -/
def scenarioTarget (intKey : Int) : Interface :=
  some (.Ptr recConfig, .ptr (.struct [.str "def value", .int intKey, .slice [.str "arr1"]]))

namespace Spec

/-- The strings the specification reads as true. -/
def truthy : List String :=
  ["1", "t", "T", "TRUE", "true", "True"]

/-- The strings the specification reads as false. -/
def falsy : List String :=
  ["0", "f", "F", "FALSE", "false", "False"]

end Spec

/-- The fields of Go `struct { N int; P *int `default:"5"`; S string
`default:"s"` }`: a scalar without a default, a pointer with one, a scalar
with one. -/
def recFrame.fields : Fields :=
  .cons (exported "N" []) (.Int .Int)
    (.cons (exported "P" [("default", "5")]) (.Ptr (.Int .Int))
    (.cons (exported "S" [("default", "s")]) .String .nil))

/-! ## The walker with its invocations counted -/

/-- The outcome of a part of the walk together with the number of calls of
`LoadDefaultIntoStruct` made from within it (lines 144 and 156, and the
calls those calls make) and the deepest nesting of these calls. -/
structure Counted (α : Type) where
  out : Except String α
  calls : Nat
  depth : Nat

mutual
/-- The function `LoadDefaultIntoStruct.run` with the calls made from within
counted. -/
def LoadDefaultIntoStruct.runCounted (pf : FloatParser) :
    GoType → Bool → Value → Counted Value
  | .Ptr e, _, .ptr x =>
    let r := LoadDefaultIntoStruct.runCounted pf e true x
    ⟨r.out.map .ptr, r.calls, r.depth⟩
  | .Struct fs, addr, .struct vs =>
    let r := LoadDefaultIntoStruct.loopCounted pf fs addr vs
    ⟨r.out.map .struct, r.calls, r.depth⟩
  | _, _, v => ⟨pure v, 0, 0⟩
/-- The function `LoadDefaultIntoStruct.loop` with the calls made from
within counted: each call on line 144 or 156 counts as one call, one level
deep, plus what it makes itself. -/
def LoadDefaultIntoStruct.loopCounted (pf : FloatParser) :
    Fields → Bool → List Value → Counted (List Value)
  | .nil, _, vs => ⟨pure vs, 0, 0⟩
  | .cons _ _ _, _, [] => ⟨pure [], 0, 0⟩
  | .cons f ft rest, addr, v :: vs =>
    let tag := StructTag.Lookup f.Tag "default"
    match ft with
    | .Slice et =>
      if minLen f < 1 then ⟨pure (v :: vs), 0, 0⟩
      else
        match MakeSlice et (minLen f) with
        | .error p => ⟨.error p, 0, 0⟩
        | .ok _ =>
          let item : Counted Value :=
            match et with
            | .Ptr _ => ⟨throw panicTypeOnZero, 0, 0⟩
            | .Slice _ => ⟨pure (zeroValue et), 0, 0⟩
            | .Struct efs =>
              let r := LoadDefaultIntoStruct.runCounted pf (.Struct efs) true
                (zeroValue (.Struct efs))
              ⟨r.out, 1 + r.calls, 1 + r.depth⟩
            | _ => ⟨pure (procTagged pf ⟨et, zeroValue et, true, false⟩ tag), 0, 0⟩
          match item.out with
          | .error p => ⟨.error p, item.calls, item.depth⟩
          | .ok x =>
            if !f.Exported then ⟨throw panicSetRO, item.calls, item.depth⟩
            else if !addr then ⟨throw panicSetUnaddr, item.calls, item.depth⟩
            else
              let r2 := LoadDefaultIntoStruct.loopCounted pf rest addr vs
              ⟨r2.out.map (fun vs1 => .slice (List.replicate (minLen f).toNat x) :: vs1),
                item.calls + r2.calls, max item.depth r2.depth⟩
    | .Struct sfs =>
      if !addr then ⟨throw panicAddr, 0, 0⟩
      else if !f.Exported then ⟨throw panicInterfaceRO, 0, 0⟩
      else
        let r := LoadDefaultIntoStruct.runCounted pf (.Struct sfs) true v
        match r.out with
        | .error p => ⟨.error p, 1 + r.calls, 1 + r.depth⟩
        | .ok v1 =>
          let r2 := LoadDefaultIntoStruct.loopCounted pf rest addr vs
          ⟨r2.out.map (fun vs1 => v1 :: vs1), 1 + r.calls + r2.calls,
            max (1 + r.depth) r2.depth⟩
    | _ =>
      let v1 := procTagged pf ⟨ft, v, addr, !f.Exported⟩ tag
      let r2 := LoadDefaultIntoStruct.loopCounted pf rest addr vs
      ⟨r2.out.map (fun vs1 => v1 :: vs1), r2.calls, r2.depth⟩
end

mutual
/-- The number of record-shaped nodes of the shape tree of a type: the type
itself when a struct, and the records among its fields, slice elements and
pointer targets. -/
def recordNodes : GoType → Nat
  | .Struct fs => 1 + recordNodesOfFields fs
  | .Slice e => recordNodes e
  | .Ptr e => recordNodes e
  | _ => 0
/-- The number of record-shaped nodes below the fields of a struct. -/
def recordNodesOfFields : Fields → Nat
  | .nil => 0
  | .cons _ t rest => recordNodes t + recordNodesOfFields rest
end

mutual
/-- The nesting depth of records in the shape tree of a type. -/
def shapeDepth : GoType → Nat
  | .Struct fs => 1 + shapeDepthOfFields fs
  | .Slice e => shapeDepth e
  | .Ptr e => shapeDepth e
  | _ => 0
/-- The deepest nesting of records below the fields of a struct. -/
def shapeDepthOfFields : Fields → Nat
  | .nil => 0
  | .cons _ t rest => max (shapeDepth t) (shapeDepthOfFields rest)
end

/-- Every record of the shape is walked: each field is a scalar, an exported
nested record of this kind, or an exported slice of declared length at least
one, for which `reflect.MakeSlice` returns, whose elements are scalars or
records of this kind. -/
def walkedInFull : Fields → Bool
  | .nil => true
  | .cons f (.Struct sfs) rest => f.Exported && walkedInFull sfs && walkedInFull rest
  | .cons f (.Slice (.Struct efs)) rest =>
    f.Exported && decide (1 ≤ minLen f) && MakeSlice.returns (.Struct efs) (minLen f) &&
      walkedInFull efs && walkedInFull rest
  | .cons f (.Slice et) rest =>
    f.Exported && decide (1 ≤ minLen f) && MakeSlice.returns et (minLen f) &&
      isScalar et && walkedInFull rest
  | .cons _ ft rest => isScalar ft && walkedInFull rest

/-- The values have the shape of the fields as far as the walker looks: one
value per field, and a record value for every nested record, recursively. -/
def conforms : Fields → List Value → Bool
  | .nil, [] => true
  | .cons _ (.Struct sfs) rest, .struct ws :: vs => conforms sfs ws && conforms rest vs
  | .cons _ (.Struct _) _, _ => false
  | .cons _ _ rest, _ :: vs => conforms rest vs
  | _, _ => false

/-- Go `Sub`, a record with one string field without a default. -/
def recSub : GoType :=
  .Struct (.cons (exported "S" []) .String .nil)

/-- Go `struct { A []Sub }`: a slice of records without a `length` tag. -/
def recShortRecordSlice : GoType :=
  .Struct (.cons (exported "A" []) (.Slice recSub) .nil)

/-- Go `struct { A []Sub `length:"3"`; B Sub }`: a slice of three records
and a nested record. -/
def recThreeRecords : GoType :=
  .Struct (.cons (exported "A" [("length", "3")]) (.Slice recSub)
    (.cons (exported "B" []) recSub .nil))

/-- The number of calls of `LoadDefaultIntoStruct` in one call from outside,
that call included. -/
def LoadDefaultIntoStruct.invocations (pf : FloatParser) (i : Interface) : Nat :=
  match i with
  | none => 1
  | some (t, v) => 1 + (LoadDefaultIntoStruct.runCounted pf t false v).calls

/-- The deepest nesting of calls of `LoadDefaultIntoStruct` in one call from
outside, that call included. -/
def LoadDefaultIntoStruct.nesting (pf : FloatParser) (i : Interface) : Nat :=
  match i with
  | none => 1
  | some (t, v) => 1 + (LoadDefaultIntoStruct.runCounted pf t false v).depth

/-! ## Paths into nested records -/

/-- A record built only from scalar fields and exported nested records built
the same way. -/
def plainRecord : Fields → Bool
  | .nil => true
  | .cons f (.Struct sfs) rest => f.Exported && plainRecord sfs && plainRecord rest
  | .cons _ ft rest => isScalar ft && plainRecord rest

/-- The field at the end of a path of field indices, one index per record
level: the path `[3, 0]` in `SS` leads to `SS.SS.S`. -/
def fieldAt : Fields → List Nat → Option (StructField × GoType)
  | _, [] => none
  | fs, k :: p =>
    match (Fields.toList fs)[k]?, p with
    | some (f, ft), [] => some (f, ft)
    | some (_, .Struct sfs), _ :: _ => fieldAt sfs p
    | _, _ => none

/-- The value at the end of a path of field indices in the fields of a
record value. -/
def valueAt : List Value → List Nat → Option Value
  | _, [] => none
  | vs, k :: p =>
    match vs[k]?, p with
    | some v, [] => some v
    | some (.struct ws), _ :: _ => valueAt ws p
    | _, _ => none

/-- Go `struct { SS struct { S string `default:"sss"`; F float32
`default:"1.5"` } }`: a nested record with a string and a `float32`. -/
def recNestedFloat32 : GoType :=
  .Struct (.cons (exported "SS" [])
    (.Struct (.cons (exported "S" [("default", "sss")]) .String
      (.cons (exported "F" [("default", "1.5")]) .Float32 .nil))) .nil)

/-! ## `strconv` against the specification's literals -/

theorem digitsValue_ge (cs : List Char) (n : Nat) : n ≤ Spec.digitsValue n cs := by
  induction cs generalizing n with
  | nil => simp [Spec.digitsValue]
  | cons c cs ih =>
    have := ih (10 * n + (c.toNat - 48))
    simp only [Spec.digitsValue, List.foldl_cons] at this ⊢
    omega

/-- The value of a digit string, one digit at a time. -/
theorem digitsValue_cons (n : Nat) (c : Char) (cs : List Char) :
    Spec.digitsValue n (c :: cs) = Spec.digitsValue (10 * n + (c.toNat - 48)) cs := rfl

/-- A byte that is not a decimal digit ends the loop with a syntax error. -/
theorem ParseUint_loop_nondigit (c : Char) (cs : List Char) (n : Nat)
    (hc : ¬ (48 ≤ c.toNat ∧ c.toNat ≤ 57)) :
    ParseUint.loop (c :: cs) n = (0, some .ErrSyntax) := by
  rw [ParseUint.loop, if_neg hc]

/-- A digit that takes the accumulator to `2^64` or beyond ends the loop with
a range error: either `n >= cutoff`, or the addition wraps around. -/
theorem ParseUint_loop_range (c : Char) (cs : List Char) (n : Nat)
    (hc : 48 ≤ c.toNat ∧ c.toNat ≤ 57) (hn : n < 2 ^ 64)
    (hov : 2 ^ 64 ≤ 10 * n + (c.toNat - 48)) :
    ParseUint.loop (c :: cs) n = (2 ^ 64 - 1, some .ErrRange) := by
  rw [ParseUint.loop, if_pos hc]
  by_cases hcut : n ≥ (2 ^ 64 - 1) / 10 + 1
  · simp only [if_pos hcut]
  · simp only [if_neg hcut]
    rw [if_pos]
    left
    simp only [wrapUint]
    norm_num at hn hov hcut ⊢
    omega

/-- A digit that keeps the accumulator below `2^64` is absorbed without
wrap-around. -/
theorem ParseUint_loop_step (c : Char) (cs : List Char) (n : Nat)
    (hc : 48 ≤ c.toNat ∧ c.toNat ≤ 57)
    (hov : 10 * n + (c.toNat - 48) < 2 ^ 64) :
    ParseUint.loop (c :: cs) n = ParseUint.loop cs (10 * n + (c.toNat - 48)) := by
  have h10 : wrapUint 64 (n * 10) = n * 10 := by
    simp only [wrapUint]
    norm_num at hov ⊢
    omega
  have h1 : wrapUint 64 (n * 10 + (c.toNat - 48)) = 10 * n + (c.toNat - 48) := by
    simp only [wrapUint]
    norm_num at hov ⊢
    omega
  have hcut : ¬ n ≥ (2 ^ 64 - 1) / 10 + 1 := by
    norm_num at hov ⊢
    omega
  rw [ParseUint.loop, if_pos hc]
  simp only [if_neg hcut, h10, h1]
  rw [if_neg]
  norm_num at hov ⊢
  omega

/-- On a run of digits whose value stays below `2^64` the loop returns that
value and no error. -/
theorem ParseUint_loop_ok (cs : List Char) (n : Nat)
    (hd : cs.all Spec.isDigit = true) (hlt : Spec.digitsValue n cs < 2 ^ 64) :
    ParseUint.loop cs n = (Spec.digitsValue n cs, none) := by
  induction cs generalizing n with
  | nil => rfl
  | cons c cs ih =>
    rw [List.all_cons, Bool.and_eq_true] at hd
    have hc : 48 ≤ c.toNat ∧ c.toNat ≤ 57 := by simpa [Spec.isDigit] using hd.1
    rw [digitsValue_cons] at hlt ⊢
    have hge := digitsValue_ge cs (10 * n + (c.toNat - 48))
    rw [ParseUint_loop_step c cs n hc (lt_of_le_of_lt hge hlt)]
    exact ih _ hd.2 hlt

/-- On every other input the loop returns one of the two errors. -/
theorem ParseUint_loop_err (cs : List Char) (n : Nat) (hn : n < 2 ^ 64)
    (h : ¬ (cs.all Spec.isDigit = true ∧ Spec.digitsValue n cs < 2 ^ 64)) :
    ParseUint.loop cs n = (0, some .ErrSyntax) ∨
      ParseUint.loop cs n = (2 ^ 64 - 1, some .ErrRange) := by
  induction cs generalizing n with
  | nil => exact absurd ⟨rfl, hn⟩ h
  | cons c cs ih =>
    by_cases hc : 48 ≤ c.toNat ∧ c.toNat ≤ 57
    · by_cases hov : 10 * n + (c.toNat - 48) < 2 ^ 64
      · rw [ParseUint_loop_step c cs n hc hov]
        apply ih _ hov
        intro hcs
        apply h
        refine ⟨?_, ?_⟩
        · rw [List.all_cons, Bool.and_eq_true]
          exact ⟨by simpa [Spec.isDigit] using hc, hcs.1⟩
        · rw [digitsValue_cons]
          exact hcs.2
      · right
        exact ParseUint_loop_range c cs n hc hn (not_lt.mp hov)
    · left
      exact ParseUint_loop_nondigit c cs n hc

/-- `ParseUint` returns the number a digit literal denotes when it is below
`2^64`. -/
theorem ParseUint_ok (s : String) (n : Nat)
    (h : Spec.decimalNat s.data = some n) (hlt : n < 2 ^ 64) :
    ParseUint s = (n, none) := by
  unfold Spec.decimalNat at h
  split at h
  · rename_i hs
    have hn : Spec.digitsValue 0 s.data = n := by simpa using h
    have hne : s ≠ "" := by
      intro he
      apply hs.1
      rw [he]
    rw [ParseUint, if_neg hne, ParseUint_loop_ok s.data 0 hs.2 (by rw [hn]; exact hlt), hn]
  · cases h

/-- `ParseUint` returns an error on every string that is not a digit literal
below `2^64`. -/
theorem ParseUint_err (s : String)
    (h : ¬ ∃ n, Spec.decimalNat s.data = some n ∧ n < 2 ^ 64) :
    ParseUint s = (0, some .ErrSyntax) ∨ ParseUint s = (2 ^ 64 - 1, some .ErrRange) := by
  by_cases hs : s = ""
  · left
    rw [ParseUint, if_pos hs]
  · rw [ParseUint, if_neg hs]
    apply ParseUint_loop_err s.data 0 (by norm_num)
    intro hcs
    apply h
    refine ⟨Spec.digitsValue 0 s.data, ?_, hcs.2⟩
    have hne : s.data ≠ [] := by
      intro he
      apply hs
      cases s
      simp_all
    simp [Spec.decimalNat, hne, hcs.1]

/-- `ParseInt` in terms of the result of `ParseUint` on the unsigned part. -/
theorem ParseInt_cons (c : Char) (cs : List Char) :
    ParseInt (String.mk (c :: cs)) =
      match ParseUint (if c = '+' ∨ c = '-' then String.mk cs else String.mk (c :: cs)) with
      | (_, some .ErrSyntax) => (0, some .ErrSyntax)
      | (un, _) =>
        if !(decide (c = '-')) ∧ un ≥ 2 ^ 63 then (((2 ^ 63 : Nat) : Int) - 1, some .ErrRange)
        else if (decide (c = '-')) ∧ un > 2 ^ 63 then (-((2 ^ 63 : Nat) : Int), some .ErrRange)
        else (if (decide (c = '-')) then wrapInt 64 (-(wrapInt 64 (un : Int)))
              else wrapInt 64 (un : Int), none) := rfl

/-- Conversion to a signed width is the identity on the range of the width. -/
theorem wrapInt_eq_self (w : Nat) (hw : 0 < w) (x : Int)
    (hlo : -2 ^ (w - 1) ≤ x) (hhi : x < 2 ^ (w - 1)) : wrapInt w x = x := by
  have hpow : (2 : Int) ^ w = 2 * 2 ^ (w - 1) := by
    obtain ⟨k, rfl⟩ : ∃ k, w = k + 1 := ⟨w - 1, by omega⟩
    simp [pow_succ]
    ring
  unfold wrapInt
  rw [hpow, Int.emod_eq_of_lt (by omega) (by omega)]
  omega

/-- The tail of `ParseInt` once `ParseUint` has returned a value below `2^64`
without error, against the number the literal denotes. -/
theorem ParseInt_tail (neg : Bool) (m : Nat)
    (hlo : -2 ^ 63 ≤ (if neg then -(m : Int) else (m : Int)))
    (hhi : (if neg then -(m : Int) else (m : Int)) ≤ 2 ^ 63 - 1) :
    (if !neg ∧ m ≥ 2 ^ 63 then (((2 ^ 63 : Nat) : Int) - 1, some NumError.ErrRange)
      else if neg ∧ m > 2 ^ 63 then (-((2 ^ 63 : Nat) : Int), some NumError.ErrRange)
      else (if neg then wrapInt 64 (-(wrapInt 64 (m : Int))) else wrapInt 64 (m : Int), none)) =
      ((if neg then -(m : Int) else (m : Int)), none) := by
  cases neg with
  | false =>
    simp only [Bool.false_eq_true, if_false] at hlo hhi
    have h1 : ¬ (m ≥ 2 ^ 63) := by
      norm_num at hhi ⊢
      omega
    have h2 : wrapInt 64 (m : Int) = m := by
      apply wrapInt_eq_self 64 (by norm_num)
      · norm_num; omega
      · norm_num at hhi ⊢; omega
    simp only [Bool.not_false, true_and, h1, if_false, Bool.false_eq_true, false_and, h2]
  | true =>
    simp only [if_true] at hlo hhi
    have h1 : ¬ (m > 2 ^ 63) := by
      norm_num at hlo ⊢
      omega
    have h2 : wrapInt 64 (-(wrapInt 64 (m : Int))) = -(m : Int) := by
      unfold wrapInt
      norm_num at hlo ⊢
      omega
    simp only [Bool.not_true, Bool.false_eq_true, false_and, if_false, true_and, h1, h2, if_true]

/-- The tail of `ParseInt` when the unsigned part is out of the `int64` range
for its sign. -/
theorem ParseInt_tail_range (neg : Bool) (m : Nat)
    (h : ¬ (-2 ^ 63 ≤ (if neg then -(m : Int) else (m : Int)) ∧
      (if neg then -(m : Int) else (m : Int)) ≤ 2 ^ 63 - 1)) :
    ∃ u, (if !neg ∧ m ≥ 2 ^ 63 then (((2 ^ 63 : Nat) : Int) - 1, some NumError.ErrRange)
      else if neg ∧ m > 2 ^ 63 then (-((2 ^ 63 : Nat) : Int), some NumError.ErrRange)
      else (if neg then wrapInt 64 (-(wrapInt 64 (m : Int))) else wrapInt 64 (m : Int), none)) =
      (u, some NumError.ErrRange) := by
  cases neg with
  | false =>
    simp only [Bool.false_eq_true, if_false] at h
    have h1 : m ≥ 2 ^ 63 := by
      norm_num at h ⊢
      omega
    exact ⟨_, if_pos ⟨rfl, h1⟩⟩
  | true =>
    simp only [if_true] at h
    have h1 : m > 2 ^ 63 := by
      norm_num at h ⊢
      omega
    refine ⟨-((2 ^ 63 : Nat) : Int), ?_⟩
    rw [if_neg (by simp), if_pos ⟨rfl, h1⟩]

/-- Spec-side reading of a signed literal as a sign and an unsigned part. -/
theorem decimalInt_cons (c : Char) (cs : List Char) :
    Spec.decimalInt (String.mk (c :: cs)) =
      Option.map (fun m : Nat => if decide (c = '-') then -(m : Int) else (m : Int))
        (Spec.decimalNat (if c = '+' ∨ c = '-' then String.mk cs else String.mk (c :: cs)).data) := by
  simp only [Spec.decimalInt]
  by_cases hp : c = '+'
  · subst hp
    simp
  · by_cases hm : c = '-'
    · subst hm
      simp
    · simp [hp, hm]

/-- `ParseInt` returns the integer a literal denotes when it is in the `int64`
range. -/
theorem ParseInt_ok (s : String) (n : Int) (h : Spec.decimalInt s = some n)
    (hlo : -2 ^ 63 ≤ n) (hhi : n ≤ 2 ^ 63 - 1) : ParseInt s = (n, none) := by
  obtain ⟨data⟩ := s
  cases data with
  | nil => simp [Spec.decimalInt] at h
  | cons c cs =>
    rw [decimalInt_cons, Option.map_eq_some'] at h
    obtain ⟨m, hm, rfl⟩ := h
    have hm64 : m < 2 ^ 64 := by
      by_cases hneg : c = '-'
      · simp only [hneg, decide_True, if_true] at hlo
        norm_num at hlo ⊢
        omega
      · simp only [hneg, decide_False, Bool.false_eq_true, if_false] at hhi
        norm_num at hhi ⊢
        omega
    rw [ParseInt_cons, ParseUint_ok _ m hm hm64]
    exact ParseInt_tail (decide (c = '-')) m hlo hhi

/-- `ParseInt` returns an error on every string that is not an integer literal
in the `int64` range. -/
theorem ParseInt_err (s : String)
    (h : ¬ ∃ n, Spec.decimalInt s = some n ∧ -2 ^ 63 ≤ n ∧ n ≤ 2 ^ 63 - 1) :
    ∃ u e, ParseInt s = (u, some e) := by
  obtain ⟨data⟩ := s
  cases data with
  | nil => exact ⟨_, _, rfl⟩
  | cons c cs =>
    rw [ParseInt_cons]
    by_cases hu : ∃ m, Spec.decimalNat (if c = '+' ∨ c = '-' then String.mk cs
        else String.mk (c :: cs)).data = some m ∧ m < 2 ^ 64
    · obtain ⟨m, hm, hm64⟩ := hu
      rw [ParseUint_ok _ m hm hm64]
      have hr : ¬ (-2 ^ 63 ≤ (if decide (c = '-') then -(m : Int) else (m : Int)) ∧
          (if decide (c = '-') then -(m : Int) else (m : Int)) ≤ 2 ^ 63 - 1) := by
        intro hr
        apply h
        refine ⟨_, ?_, hr⟩
        rw [decimalInt_cons, hm]
        rfl
      obtain ⟨u, hu⟩ := ParseInt_tail_range (decide (c = '-')) m hr
      exact ⟨u, _, hu⟩
    · rcases ParseUint_err _ hu with he | he
      · rw [he]
        exact ⟨_, _, rfl⟩
      · rw [he]
        have hr : ¬ (-2 ^ 63 ≤ (if decide (c = '-') then -((2 ^ 64 - 1 : Nat) : Int)
              else ((2 ^ 64 - 1 : Nat) : Int)) ∧
            (if decide (c = '-') then -((2 ^ 64 - 1 : Nat) : Int)
              else ((2 ^ 64 - 1 : Nat) : Int)) ≤ 2 ^ 63 - 1) := by
          by_cases hneg : c = '-'
          · simp only [hneg, decide_True, if_true]
            norm_num
          · simp only [hneg, decide_False, Bool.false_eq_true, if_false]
            norm_num
        obtain ⟨u, hu⟩ := ParseInt_tail_range (decide (c = '-')) (2 ^ 64 - 1) hr
        exact ⟨u, _, hu⟩

/-- The declared length the code computes is below one exactly when the
`length` tag is absent, is not a base-10 integer, denotes a number below
one, or denotes a number beyond the `int64` range. -/
theorem minLen_lt_one_iff (f : StructField) :
    minLen f < 1 ↔
      match StructTag.Lookup f.Tag "length" with
      | none => True
      | some s =>
        match Spec.decimalInt s with
        | none => True
        | some n => n < 1 ∨ 2 ^ 63 ≤ n := by
  unfold minLen StructTag.Get
  cases hl : StructTag.Lookup f.Tag "length" with
  | none => simp
  | some s =>
    simp only []
    by_cases hs : s = ""
    · subst hs
      have hd : Spec.decimalInt "" = none := rfl
      simp [hd]
    · rw [if_pos hs]
      by_cases hp : ∃ n, Spec.decimalInt s = some n ∧ -2 ^ 63 ≤ n ∧ n ≤ 2 ^ 63 - 1
      · obtain ⟨n, hn, hlo, hhi⟩ := hp
        rw [ParseInt_ok s n hn hlo hhi, hn]
        have hw : wrapInt intSize n = n :=
          wrapInt_eq_self 64 (by norm_num) n hlo (by norm_num at hhi ⊢; omega)
        simp only [hw]
        constructor
        · intro h
          exact Or.inl h
        · rintro (h | h)
          · exact h
          · norm_num at hhi h
            omega
      · obtain ⟨u, e, he⟩ := ParseInt_err s hp
        rw [he]
        simp only []
        cases hd : Spec.decimalInt s with
        | none => simp
        | some n =>
          simp only [true_iff, Int.lt_add_one_iff, zero_add]
          by_contra hcon
          apply hp
          refine ⟨n, hd, ?_, ?_⟩
          · norm_num at hcon ⊢
            omega
          · norm_num at hcon ⊢
            omega

/-- A declared length that is below one in the words of the specification
is below one as the code computes it. -/
theorem minLen_lt_one_of_spec (f : StructField) (h : Spec.lengthBelowOne f = true) :
    minLen f < 1 := by
  rw [minLen_lt_one_iff]
  unfold Spec.lengthBelowOne at h
  cases hl : StructTag.Lookup f.Tag "length" with
  | none => trivial
  | some s =>
    rw [hl] at h
    simp only [] at h ⊢
    cases hd : Spec.decimalInt s with
    | none => trivial
    | some n =>
      rw [hd] at h
      exact Or.inl (of_decide_eq_true h)

/-- `OverflowInt` is false exactly on the range of the kind. -/
theorem OverflowInt_eq_false_iff (k : IntKind) (x : Int)
    (hlo : -2 ^ 63 ≤ x) (hhi : x ≤ 2 ^ 63 - 1) :
    OverflowInt k.bits x = false ↔ (-2 ^ (k.bits - 1) ≤ x ∧ x ≤ 2 ^ (k.bits - 1) - 1) := by
  cases k <;>
    simp only [OverflowInt, IntKind.bits, intSize, wrapInt, decide_eq_false_iff_not, not_not] <;>
    norm_num at hlo hhi ⊢ <;> omega

/-- `OverflowUint` is false exactly on the range of the kind. -/
theorem OverflowUint_eq_false_iff (k : UintKind) (x : Nat) (hx : x < 2 ^ 64) :
    OverflowUint k.bits x = false ↔ x ≤ 2 ^ k.bits - 1 := by
  cases k <;>
    simp only [OverflowUint, UintKind.bits, intSize, wrapUint, decide_eq_false_iff_not, not_not] <;>
    norm_num at hx ⊢ <;> omega

/-- `SetInt` stores a value in the range of the kind unchanged. -/
theorem wrapInt_bits_eq_self (k : IntKind) (x : Int)
    (hlo : -2 ^ (k.bits - 1) ≤ x) (hhi : x ≤ 2 ^ (k.bits - 1) - 1) :
    wrapInt k.bits x = x := by
  apply wrapInt_eq_self
  · cases k <;> simp [IntKind.bits, intSize]
  · exact hlo
  · omega

/-- No signed kind is wider than 64 bits. -/
theorem bits_le_64 (k : IntKind) : (2 : Int) ^ (k.bits - 1) ≤ 2 ^ 63 := by
  cases k <;> simp [IntKind.bits, intSize]

/-- No unsigned kind is wider than 64 bits. -/
theorem ubits_le_64 (k : UintKind) : 2 ^ k.bits ≤ 2 ^ 64 := by
  cases k <;> simp [UintKind.bits, intSize]

/-! ## The walker, one field at a time -/

theorem loop_nil (pf : FloatParser) (addr : Bool) (vs : List Value) :
    LoadDefaultIntoStruct.loop pf .nil addr vs = .ok vs := rfl

/-- The loop over no values. -/
theorem loop_no_values (pf : FloatParser) (f : StructField) (ft : GoType) (rest : Fields)
    (addr : Bool) :
    LoadDefaultIntoStruct.loop pf (.cons f ft rest) addr [] = .ok [] := by
  cases ft <;> rfl

/-- The slice branch of the loop body (lines 124-154), as written. -/
theorem loop_slice_def (pf : FloatParser) (f : StructField) (et : GoType) (rest : Fields)
    (addr : Bool) (v : Value) (vs : List Value) :
    LoadDefaultIntoStruct.loop pf (.cons f (.Slice et) rest) addr (v :: vs) =
      (if minLen f < 1 then pure (v :: vs)
      else do
        MakeSlice et (minLen f)
        let item ←
          (match et with
          | .Ptr _ => throw panicTypeOnZero
          | .Slice _ => pure (zeroValue et)
          | .Struct efs =>
            LoadDefaultIntoStruct.run pf (.Struct efs) true (zeroValue (.Struct efs))
          | _ => pure (procTagged pf ⟨et, zeroValue et, true, false⟩
              (StructTag.Lookup f.Tag "default")) : Except String Value)
        if !f.Exported then throw panicSetRO
        else if !addr then throw panicSetUnaddr
        else do
          let vs1 ← LoadDefaultIntoStruct.loop pf rest addr vs
          pure (.slice (List.replicate (minLen f).toNat item) :: vs1)) := by
  cases et <;> rfl

/-- For a length of at least one `reflect.MakeSlice` panics exactly when the
allocation is out of range. -/
theorem MakeSlice_eq (et : GoType) (n : Int) (hn : ¬ n < 1) :
    MakeSlice et n =
      (if newarray.outOfRange (typeSize et) n = true then throw panicAllocRange
      else pure ()) := by
  have h0 : ¬ n < 0 := by omega
  simp only [MakeSlice, if_neg h0]

/-- For a length of at least one `reflect.MakeSlice` returns exactly when the
allocation is in range. -/
theorem MakeSlice_ok_iff (et : GoType) (n : Int) (hn : ¬ n < 1) :
    MakeSlice et n = .ok () ↔ ¬ newarray.outOfRange (typeSize et) n = true := by
  rw [MakeSlice_eq et n hn]
  by_cases hr : newarray.outOfRange (typeSize et) n = true
  · rw [if_pos hr]
    constructor
    · intro h
      cases h
    · intro h
      exact absurd hr h
  · rw [if_neg hr]
    exact ⟨fun _ => hr, fun _ => rfl⟩

/-- `MakeSlice.returns` says that `reflect.MakeSlice` returns. -/
theorem MakeSlice_returns_iff (et : GoType) (n : Int) :
    MakeSlice.returns et n = true ↔ MakeSlice et n = .ok () := by
  unfold MakeSlice.returns
  cases h : MakeSlice et n with
  | error p => simp
  | ok u => simp

/-- For a length of at least one the only panic of `reflect.MakeSlice` is
that of `runtime.newarray`. -/
theorem MakeSlice_panic (et : GoType) (n : Int) (hn : ¬ n < 1)
    (h : MakeSlice et n ≠ .ok ()) : MakeSlice et n = .error panicAllocRange := by
  have hr : newarray.outOfRange (typeSize et) n = true := by
    by_contra hr
    exact h ((MakeSlice_ok_iff et n hn).2 hr)
  rw [MakeSlice_eq et n hn, if_pos hr]
  rfl

/-- The range check of `runtime.newarray` in plain arithmetic, for a length
that is a positive `int`: it panics exactly when more than one element is
asked for and the elements take more than `maxAlloc` bytes together. -/
theorem newarray_outOfRange_iff (size : Nat) (n : Int) (h1 : 1 ≤ n) (h2 : n < 2 ^ 63) :
    newarray.outOfRange size n = true ↔ n ≠ 1 ∧ maxAlloc < size * n.toNat := by
  by_cases hn : n = 1
  · simp [newarray.outOfRange, hn]
  · have hmod : n % 2 ^ 64 = n := by
      apply Int.emod_eq_of_lt
      · omega
      · norm_num at h2 ⊢
        omega
    have hneg : ¬ n < 0 := by omega
    simp only [newarray.outOfRange, if_neg hn, hmod, maxAlloc, Bool.or_eq_true,
      decide_eq_true_eq, hneg, or_false, ne_eq, hn, not_false_eq_true, true_and]
    generalize size * n.toNat = x
    norm_num
    omega

/-- The declared length is an `int`. -/
theorem minLen_lt (f : StructField) : minLen f < 2 ^ 63 := by
  have hw : ∀ x : Int, wrapInt intSize x < 2 ^ 63 := by
    intro x
    simp only [wrapInt, intSize]
    norm_num
    omega
  simp only [minLen]
  split
  · split
    · exact hw _
    · norm_num
  · norm_num

/-- When `reflect.MakeSlice` returns for a declared length of at least one,
in plain arithmetic: the length is one, or the elements take no more than
`maxAlloc` bytes together. -/
theorem MakeSlice_ok_arith (et : GoType) (f : StructField) (hL : 1 ≤ minLen f) :
    MakeSlice et (minLen f) = .ok () ↔
      (minLen f = 1 ∨ typeSize et * (minLen f).toNat ≤ maxAlloc) := by
  rw [MakeSlice_ok_iff et (minLen f) (by omega),
    newarray_outOfRange_iff (typeSize et) (minLen f) hL (minLen_lt f)]
  constructor
  · intro h
    by_cases h1 : minLen f = 1
    · exact Or.inl h1
    · right
      by_contra hgt
      exact h ⟨h1, by omega⟩
  · rintro (h | h) ⟨h1, h2⟩
    · exact h1 h
    · omega

/-- The slice branch of the loop body (lines 124-154), unfolded. -/
theorem loop_slice_eq (pf : FloatParser) (f : StructField) (et : GoType) (rest : Fields)
    (addr : Bool) (v : Value) (vs : List Value) :
    LoadDefaultIntoStruct.loop pf (.cons f (.Slice et) rest) addr (v :: vs) =
      (if minLen f < 1 then pure (v :: vs)
      else if newarray.outOfRange (typeSize et) (minLen f) = true then throw panicAllocRange
      else do
        let item ←
          (match et with
          | .Ptr _ => throw panicTypeOnZero
          | .Slice _ => pure (zeroValue et)
          | .Struct efs =>
            LoadDefaultIntoStruct.run pf (.Struct efs) true (zeroValue (.Struct efs))
          | _ => pure (procTagged pf ⟨et, zeroValue et, true, false⟩
              (StructTag.Lookup f.Tag "default")) : Except String Value)
        if !f.Exported then throw panicSetRO
        else if !addr then throw panicSetUnaddr
        else do
          let vs1 ← LoadDefaultIntoStruct.loop pf rest addr vs
          pure (.slice (List.replicate (minLen f).toNat item) :: vs1)) := by
  rw [loop_slice_def]
  by_cases hlen : minLen f < 1
  · rw [if_pos hlen, if_pos hlen]
  · rw [if_neg hlen, if_neg hlen, MakeSlice_eq et (minLen f) hlen]
    by_cases hr : newarray.outOfRange (typeSize et) (minLen f) = true
    · rw [if_pos hr, if_pos hr]
      rfl
    · rw [if_neg hr, if_neg hr]
      rfl

/-- The panic of line 137: a declared length of at least one that
`reflect.MakeSlice` does not allocate. -/
theorem loop_slice_out_of_range (pf : FloatParser) (f : StructField) (et : GoType)
    (rest : Fields) (addr : Bool) (v : Value) (vs : List Value) (hlen : ¬ minLen f < 1)
    (hr : newarray.outOfRange (typeSize et) (minLen f) = true) :
    LoadDefaultIntoStruct.loop pf (.cons f (.Slice et) rest) addr (v :: vs) =
      .error panicAllocRange := by
  rw [loop_slice_eq, if_neg hlen, if_pos hr]
  rfl

/-- The slice branch past line 137: the declared length is at least one and
the allocation is in range. -/
theorem loop_slice_in_range (pf : FloatParser) (f : StructField) (et : GoType)
    (rest : Fields) (addr : Bool) (v : Value) (vs : List Value) (hlen : ¬ minLen f < 1)
    (hr : ¬ newarray.outOfRange (typeSize et) (minLen f) = true) :
    LoadDefaultIntoStruct.loop pf (.cons f (.Slice et) rest) addr (v :: vs) =
      (do
        let item ←
          (match et with
          | .Ptr _ => throw panicTypeOnZero
          | .Slice _ => pure (zeroValue et)
          | .Struct efs =>
            LoadDefaultIntoStruct.run pf (.Struct efs) true (zeroValue (.Struct efs))
          | _ => pure (procTagged pf ⟨et, zeroValue et, true, false⟩
              (StructTag.Lookup f.Tag "default")) : Except String Value)
        if !f.Exported then throw panicSetRO
        else if !addr then throw panicSetUnaddr
        else do
          let vs1 ← LoadDefaultIntoStruct.loop pf rest addr vs
          pure (.slice (List.replicate (minLen f).toNat item) :: vs1)) := by
  rw [loop_slice_eq, if_neg hlen, if_neg hr]
  cases et <;> rfl

/-- A completed run of the slice branch with a declared length of at least
one has passed line 137. -/
theorem loop_slice_ok_in_range (pf : FloatParser) (f : StructField) (et : GoType)
    (rest : Fields) (addr : Bool) (v : Value) (vs out : List Value) (hlen : ¬ minLen f < 1)
    (h : LoadDefaultIntoStruct.loop pf (.cons f (.Slice et) rest) addr (v :: vs) = .ok out) :
    ¬ newarray.outOfRange (typeSize et) (minLen f) = true := by
  intro hr
  rw [loop_slice_out_of_range pf f et rest addr v vs hlen hr] at h
  cases h

/-- The `return` of line 132. -/
theorem loop_short_slice (pf : FloatParser) (f : StructField) (et : GoType) (rest : Fields)
    (addr : Bool) (v : Value) (vs : List Value) (h : minLen f < 1) :
    LoadDefaultIntoStruct.loop pf (.cons f (.Slice et) rest) addr (v :: vs) = .ok (v :: vs) := by
  rw [loop_slice_eq, if_pos h]
  rfl

/-- The nested-record branch of the loop body (lines 155-156), unfolded. -/
theorem loop_struct (pf : FloatParser) (f : StructField) (sfs : Fields) (rest : Fields)
    (addr : Bool) (v : Value) (vs : List Value) :
    LoadDefaultIntoStruct.loop pf (.cons f (.Struct sfs) rest) addr (v :: vs) =
      (if !addr then throw panicAddr
      else if !f.Exported then throw panicInterfaceRO
      else do
        let v1 ← LoadDefaultIntoStruct.run pf (.Struct sfs) true v
        let vs1 ← LoadDefaultIntoStruct.loop pf rest addr vs
        pure (v1 :: vs1)) := rfl

/-- The last branch of the loop body (lines 157-161), unfolded. -/
theorem loop_plain (pf : FloatParser) (f : StructField) (ft : GoType) (rest : Fields)
    (addr : Bool) (v : Value) (vs : List Value) (h : isPlain ft = true) :
    LoadDefaultIntoStruct.loop pf (.cons f ft rest) addr (v :: vs) =
      (do
        let vs1 ← LoadDefaultIntoStruct.loop pf rest addr vs
        pure (procTagged pf ⟨ft, v, addr, !f.Exported⟩
          (StructTag.Lookup f.Tag "default") :: vs1)) := by
  cases ft <;> first | rfl | (simp [isPlain] at h)

/-- One step of the loop `for t.Kind() == reflect.Ptr`. -/
theorem run_ptr (pf : FloatParser) (e : GoType) (addr : Bool) (x : Value) :
    LoadDefaultIntoStruct.run pf (.Ptr e) addr (.ptr x) =
      (do
        let x1 ← LoadDefaultIntoStruct.run pf e true x
        pure (.ptr x1)) := rfl

/-- The walk of a struct is the field loop. -/
theorem run_struct (pf : FloatParser) (fs : Fields) (addr : Bool) (vs : List Value) :
    LoadDefaultIntoStruct.run pf (.Struct fs) addr (.struct vs) =
      (do
        let vs1 ← LoadDefaultIntoStruct.loop pf fs addr vs
        pure (.struct vs1)) := rfl


/-- A sequence of two steps completes exactly when both do. -/
theorem bind_eq_ok {ε α β : Type} (x : Except ε α) (f : α → Except ε β) (b : β) :
    (x >>= f) = .ok b ↔ ∃ a, x = .ok a ∧ f a = .ok b := by
  cases x with
  | error e => simp [bind, Except.bind]
  | ok a => simp [bind, Except.bind]

/-- The three branches of the loop body cover every field type. -/
theorem shape_cases (ft : GoType) :
    (∃ et, ft = .Slice et) ∨ (∃ sfs, ft = .Struct sfs) ∨ isPlain ft = true := by
  cases ft <;> simp [isPlain]

/-- What `procValue` does to a slot: either nothing, or it stores a value
that depends on the type and the string only. -/
theorem procSlot_cases (pf : FloatParser) (t : GoType) (a ro : Bool) (s : String) :
    (∀ v, procSlot pf ⟨t, v, a, ro⟩ s = v) ∨
      (∃ w, ∀ v, procSlot pf ⟨t, v, a, ro⟩ s = w) := by
  by_cases hset : (a && !ro) = true
  · cases t with
    | String => right; exact ⟨.str s, fun v => by simp [procSlot, procValue, RValue.CanSet, hset]⟩
    | Int k =>
      rcases hp : ParseInt s with ⟨n, _ | e⟩
      · by_cases hov : OverflowInt k.bits n = true
        · left; intro v; simp [procSlot, procValue, RValue.CanSet, hset, hp, hov]
        · right
          exact ⟨.int (wrapInt k.bits n), fun v => by
            simp [procSlot, procValue, RValue.CanSet, hset, hp, hov]⟩
      · left; intro v; simp [procSlot, procValue, RValue.CanSet, hset, hp]
    | Uint k =>
      rcases hp : ParseUint s with ⟨n, _ | e⟩
      · by_cases hov : OverflowUint k.bits n = true
        · left; intro v; simp [procSlot, procValue, RValue.CanSet, hset, hp, hov]
        · right
          exact ⟨.uint (wrapUint k.bits n), fun v => by
            simp [procSlot, procValue, RValue.CanSet, hset, hp, hov]⟩
      · left; intro v; simp [procSlot, procValue, RValue.CanSet, hset, hp]
    | Float64 =>
      cases hp : pf s with
      | none => left; intro v; simp [procSlot, procValue, RValue.CanSet, hset, hp]
      | some x =>
        right
        exact ⟨.float x, fun v => by
          simp [procSlot, procValue, RValue.CanSet, hset, hp, OverflowFloat64]⟩
    | Bool =>
      rcases hp : ParseBool s with ⟨b, _ | e⟩
      · right
        exact ⟨.bool b, fun v => by simp [procSlot, procValue, RValue.CanSet, hset, hp]⟩
      · left; intro v; simp [procSlot, procValue, RValue.CanSet, hset, hp]
    | _ => left; intro v; simp [procSlot, procValue, RValue.CanSet, hset]
  · left; intro v; simp [procSlot, procValue, RValue.CanSet, hset]

/-- Coercing the same string twice is coercing it once. -/
theorem procSlot_idem (pf : FloatParser) (t : GoType) (v : Value) (a ro : Bool) (s : String) :
    procSlot pf ⟨t, procSlot pf ⟨t, v, a, ro⟩ s, a, ro⟩ s = procSlot pf ⟨t, v, a, ro⟩ s := by
  rcases procSlot_cases pf t a ro s with h | ⟨w, h⟩
  · rw [h, h]
  · rw [h, h]

/-- Applying the same `default` tag twice is applying it once. -/
theorem procTagged_idem (pf : FloatParser) (t : GoType) (v : Value) (a ro : Bool)
    (tag : Option String) :
    procTagged pf ⟨t, procTagged pf ⟨t, v, a, ro⟩ tag, a, ro⟩ tag =
      procTagged pf ⟨t, v, a, ro⟩ tag := by
  cases tag with
  | none => rfl
  | some s => exact procSlot_idem pf t v a ro s

/-- A walk that changes nothing is idempotent. -/
theorem runIdem_of_id (pf : FloatParser) (t : GoType)
    (h : ∀ addr v, LoadDefaultIntoStruct.run pf t addr v = .ok v) : RunIdem pf t :=
  fun addr v v1 hv => by
    rw [h] at hv
    cases hv
    exact h addr v

/-- Idempotence passes from a type to the pointer to it. -/
theorem runIdem_ptr (pf : FloatParser) (e : GoType) (ih : RunIdem pf e) :
    RunIdem pf (.Ptr e) := by
  intro addr v v1 hv
  cases v with
  | ptr x =>
    rw [run_ptr, bind_eq_ok] at hv
    obtain ⟨x1, hx, hr⟩ := hv
    cases hr
    rw [run_ptr, ih true x x1 hx]
    rfl
  | _ =>
    cases hv
    rfl

/-- Idempotence passes from the field loop to the struct. -/
theorem runIdem_struct (pf : FloatParser) (fs : Fields) (ih : LoopIdem pf fs) :
    RunIdem pf (.Struct fs) := by
  intro addr v v1 hv
  cases v with
  | struct vs =>
    rw [run_struct, bind_eq_ok] at hv
    obtain ⟨vs1, hx, hr⟩ := hv
    cases hr
    rw [run_struct, ih addr vs vs1 hx]
    rfl
  | _ =>
    cases hv
    rfl

/-- Idempotence of the loop, one more field in front. -/
theorem loopIdem_cons (pf : FloatParser) (f : StructField) (ft : GoType) (rest : Fields)
    (iht : RunIdem pf ft) (ihr : LoopIdem pf rest) : LoopIdem pf (.cons f ft rest) := by
  intro addr vs vs1 h
  cases vs with
  | nil =>
    rw [loop_no_values] at h
    cases h
    exact loop_no_values pf f ft rest addr
  | cons v vs =>
    rcases shape_cases ft with ⟨et, rfl⟩ | ⟨sfs, rfl⟩ | hplain
    · rw [loop_slice_eq] at h
      by_cases hlen : minLen f < 1
      · rw [if_pos hlen] at h
        cases h
        exact loop_short_slice pf f et rest addr v vs hlen
      · rw [if_neg hlen] at h
        have hrange : ¬ newarray.outOfRange (typeSize et) (minLen f) = true := by
          intro hr
          rw [if_pos hr] at h
          cases h
        rw [if_neg hrange, bind_eq_ok] at h
        obtain ⟨item, hitem, h⟩ := h
        by_cases hexp : (!f.Exported) = true
        · rw [if_pos hexp] at h
          cases h
        · rw [if_neg hexp] at h
          by_cases haddr : (!addr) = true
          · rw [if_pos haddr] at h
            cases h
          · rw [if_neg haddr, bind_eq_ok] at h
            obtain ⟨vs2, hvs2, h⟩ := h
            cases h
            rw [loop_slice_eq, if_neg hlen, if_neg hrange, hitem]
            show (if (!f.Exported) = true then _ else _) = _
            rw [if_neg hexp, if_neg haddr, ihr addr vs vs2 hvs2]
            rfl
    · rw [loop_struct] at h
      by_cases haddr : (!addr) = true
      · rw [if_pos haddr] at h
        cases h
      · rw [if_neg haddr] at h
        by_cases hexp : (!f.Exported) = true
        · rw [if_pos hexp] at h
          cases h
        · rw [if_neg hexp, bind_eq_ok] at h
          obtain ⟨v1, hv1, h⟩ := h
          rw [bind_eq_ok] at h
          obtain ⟨vs2, hvs2, h⟩ := h
          cases h
          rw [loop_struct, if_neg haddr, if_neg hexp, iht true v v1 hv1]
          show (LoadDefaultIntoStruct.loop pf rest addr vs2 >>= _) = _
          rw [ihr addr vs vs2 hvs2]
          rfl
    · rw [loop_plain pf f ft rest addr v vs hplain, bind_eq_ok] at h
      obtain ⟨vs2, hvs2, h⟩ := h
      cases h
      rw [loop_plain pf f ft rest addr _ vs2 hplain, ihr addr vs vs2 hvs2, procTagged_idem]
      rfl

/-- The walker and the field loop are idempotent on every type and every
field list. -/
theorem run_loop_idem (pf : FloatParser) :
    (∀ t, RunIdem pf t) ∧ (∀ fs, LoopIdem pf fs) := by
  have key : ∀ t, RunIdem pf t := by
    intro t
    refine GoType.rec (motive_1 := fun t => RunIdem pf t) (motive_2 := fun fs => LoopIdem pf fs)
      ?_ ?_ ?_ ?_ ?_ ?_ ?_ ?_ ?_ ?_ ?_ ?_ t
    · exact runIdem_of_id pf _ (fun _ _ => rfl)
    · exact runIdem_of_id pf _ (fun _ _ => rfl)
    · intro k; exact runIdem_of_id pf _ (fun _ _ => rfl)
    · intro k; exact runIdem_of_id pf _ (fun _ _ => rfl)
    · exact runIdem_of_id pf _ (fun _ _ => rfl)
    · exact runIdem_of_id pf _ (fun _ _ => rfl)
    · intro e _; exact runIdem_of_id pf _ (fun _ _ => rfl)
    · intro fs ih; exact runIdem_struct pf fs ih
    · intro e ih; exact runIdem_ptr pf e ih
    · intro _ _; exact runIdem_of_id pf _ (fun _ _ => rfl)
    · intro addr vs vs1 h
      cases h
      rfl
    · intro f ft rest iht ihr
      exact loopIdem_cons pf f ft rest iht ihr
  refine ⟨key, ?_⟩
  intro fs
  refine Fields.rec (motive_1 := fun _ => True) (motive_2 := fun fs => LoopIdem pf fs)
    ?_ ?_ ?_ ?_ ?_ ?_ ?_ ?_ ?_ ?_ ?_ ?_ fs
  · trivial
  · trivial
  · intro _; trivial
  · intro _; trivial
  · trivial
  · trivial
  · intro _ _; trivial
  · intro _ _; trivial
  · intro _ _; trivial
  · intro _ _; trivial
  · intro addr vs vs1 h
    cases h
    rfl
  · intro f ft rest _ ihr
    exact loopIdem_cons pf f ft rest (key ft) ihr

/-- Induction over a field list, field by field. -/
theorem Fields.induction_on {P : Fields → Prop} (fs : Fields) (hnil : P .nil)
    (hcons : ∀ f ft rest, P rest → P (.cons f ft rest)) : P fs := by
  refine Fields.rec (motive_1 := fun _ => True) (motive_2 := P)
    ?_ ?_ ?_ ?_ ?_ ?_ ?_ ?_ ?_ ?_ ?_ ?_ fs
  · trivial
  · trivial
  · intro _; trivial
  · intro _; trivial
  · trivial
  · trivial
  · intro _ _; trivial
  · intro _ _; trivial
  · intro _ _; trivial
  · intro _ _; trivial
  · exact hnil
  · intro f ft rest _ ih
    exact hcons f ft rest ih

/-- A completed run of the loop hands back a list whose head is the
processed first field and whose tail is the outcome of the loop on the
remaining fields, unless it returned early with everything as it was. -/
theorem loop_cons_ok (pf : FloatParser) (f : StructField) (ft : GoType) (rest : Fields)
    (addr : Bool) (v : Value) (vs : List Value) (out : List Value)
    (h : LoadDefaultIntoStruct.loop pf (.cons f ft rest) addr (v :: vs) = .ok out) :
    out = v :: vs ∨
      ∃ v1 vs1, out = v1 :: vs1 ∧ LoadDefaultIntoStruct.loop pf rest addr vs = .ok vs1 := by
  rcases shape_cases ft with ⟨et, rfl⟩ | ⟨sfs, rfl⟩ | hplain
  · rw [loop_slice_eq] at h
    by_cases hlen : minLen f < 1
    · rw [if_pos hlen] at h
      cases h
      exact Or.inl rfl
    · rw [if_neg hlen] at h
      have hrange : ¬ newarray.outOfRange (typeSize et) (minLen f) = true := by
        intro hr
        rw [if_pos hr] at h
        cases h
      rw [if_neg hrange, bind_eq_ok] at h
      obtain ⟨item, _, h⟩ := h
      by_cases hexp : (!f.Exported) = true
      · rw [if_pos hexp] at h
        cases h
      · rw [if_neg hexp] at h
        by_cases haddr : (!addr) = true
        · rw [if_pos haddr] at h
          cases h
        · rw [if_neg haddr, bind_eq_ok] at h
          obtain ⟨vs2, hvs2, h⟩ := h
          cases h
          exact Or.inr ⟨_, vs2, rfl, hvs2⟩
  · rw [loop_struct] at h
    by_cases haddr : (!addr) = true
    · rw [if_pos haddr] at h
      cases h
    · rw [if_neg haddr] at h
      by_cases hexp : (!f.Exported) = true
      · rw [if_pos hexp] at h
        cases h
      · rw [if_neg hexp, bind_eq_ok] at h
        obtain ⟨v1, _, h⟩ := h
        rw [bind_eq_ok] at h
        obtain ⟨vs2, hvs2, h⟩ := h
        cases h
        exact Or.inr ⟨v1, vs2, rfl, hvs2⟩
  · rw [loop_plain pf f ft rest addr v vs hplain, bind_eq_ok] at h
    obtain ⟨vs2, hvs2, h⟩ := h
    cases h
    exact Or.inr ⟨_, vs2, rfl, hvs2⟩

/-- A completed run of the loop on a first field that does not take the
`return` of line 132: the tail of the outcome is the outcome of the loop on
the remaining fields. -/
theorem loop_cons_ok_tail (pf : FloatParser) (f : StructField) (ft : GoType) (rest : Fields)
    (addr : Bool) (v : Value) (vs : List Value) (out : List Value)
    (hr : reaches (.cons f ft rest) 1 = true)
    (h : LoadDefaultIntoStruct.loop pf (.cons f ft rest) addr (v :: vs) = .ok out) :
    ∃ v1 vs1, out = v1 :: vs1 ∧ LoadDefaultIntoStruct.loop pf rest addr vs = .ok vs1 := by
  rcases shape_cases ft with ⟨et, rfl⟩ | ⟨sfs, rfl⟩ | hplain
  · have hlen : ¬ minLen f < 1 := by
      simp only [reaches, Bool.and_true, decide_eq_true_eq] at hr
      omega
    rw [loop_slice_eq, if_neg hlen] at h
    have hrange : ¬ newarray.outOfRange (typeSize et) (minLen f) = true := by
      intro hr
      rw [if_pos hr] at h
      cases h
    rw [if_neg hrange, bind_eq_ok] at h
    obtain ⟨item, _, h⟩ := h
    by_cases hexp : (!f.Exported) = true
    · rw [if_pos hexp] at h
      cases h
    · rw [if_neg hexp] at h
      by_cases haddr : (!addr) = true
      · rw [if_pos haddr] at h
        cases h
      · rw [if_neg haddr, bind_eq_ok] at h
        obtain ⟨vs2, hvs2, h⟩ := h
        cases h
        exact ⟨_, vs2, rfl, hvs2⟩
  · rcases loop_cons_ok pf f (.Struct sfs) rest addr v vs out h with hx | hx
    · rw [loop_struct] at h
      by_cases haddr : (!addr) = true
      · rw [if_pos haddr] at h
        cases h
      · rw [if_neg haddr] at h
        by_cases hexp : (!f.Exported) = true
        · rw [if_pos hexp] at h
          cases h
        · rw [if_neg hexp, bind_eq_ok] at h
          obtain ⟨v1, _, h⟩ := h
          rw [bind_eq_ok] at h
          obtain ⟨vs2, hvs2, h⟩ := h
          cases h
          exact ⟨v1, vs2, rfl, hvs2⟩
    · exact hx
  · rw [loop_plain pf f ft rest addr v vs hplain, bind_eq_ok] at h
    obtain ⟨vs2, hvs2, h⟩ := h
    cases h
    exact ⟨_, vs2, rfl, hvs2⟩

/-- The loop over no values, for any field list. -/
theorem loop_empty (pf : FloatParser) (fs : Fields) (addr : Bool) :
    LoadDefaultIntoStruct.loop pf fs addr [] = .ok [] := by
  cases fs with
  | nil => rfl
  | cons f ft rest => exact loop_no_values pf f ft rest addr

/-- Coming to field `k + 1` is passing the first field and coming to field
`k` of the rest. -/
theorem reaches_succ (f : StructField) (ft : GoType) (rest : Fields) (k : Nat)
    (h : reaches (.cons f ft rest) (k + 1) = true) :
    reaches (.cons f ft rest) 1 = true ∧ reaches rest k = true := by
  cases ft <;> simp_all [reaches]

/-- When the loop comes to field `k` in a completed run, the outcome from
position `k` on is the outcome of the loop started at field `k` on the
values the fields from `k` on held at the start. -/
theorem loop_drop (pf : FloatParser) (fs : Fields) :
    ∀ (addr : Bool) (vs out : List Value) (k : Nat), reaches fs k = true →
      LoadDefaultIntoStruct.loop pf fs addr vs = .ok out →
      LoadDefaultIntoStruct.loop pf (Fields.drop k fs) addr (vs.drop k) = .ok (out.drop k) := by
  induction fs using Fields.induction_on with
  | hnil =>
    intro addr vs out k _ h
    cases h
    cases k <;> rfl
  | hcons f ft rest ih =>
    intro addr vs out k hr h
    cases k with
    | zero => exact h
    | succ k =>
      obtain ⟨hr1, hrk⟩ := reaches_succ f ft rest k hr
      cases vs with
      | nil =>
        rw [loop_no_values] at h
        cases h
        exact loop_empty pf _ addr
      | cons v vs =>
        obtain ⟨v1, vs1, rfl, hrest⟩ := loop_cons_ok_tail pf f ft rest addr v vs out hr1 h
        exact ih addr vs vs1 k hrk hrest

/-- The field list from field `k` on starts with field `k`. -/
theorem Fields.drop_eq_cons (fs : Fields) :
    ∀ (k : Nat) (f : StructField) (ft : GoType),
      (Fields.toList fs)[k]? = some (f, ft) →
      ∃ rest, Fields.drop k fs = .cons f ft rest := by
  induction fs using Fields.induction_on with
  | hnil =>
    intro k f ft h
    simp [Fields.toList] at h
  | hcons g gt rest ih =>
    intro k f ft h
    cases k with
    | zero =>
      simp only [Fields.toList, List.getElem?_cons_zero, Option.some.injEq,
        Prod.mk.injEq] at h
      obtain ⟨rfl, rfl⟩ := h
      exact ⟨rest, rfl⟩
    | succ k =>
      simp only [Fields.toList, List.getElem?_cons_succ] at h
      exact ih k f ft h

/-- In a completed run that comes to field `k`, what field `k` holds at the
end is the head of the outcome of the loop started at field `k`. -/
theorem loop_at (pf : FloatParser) (fs : Fields) (addr : Bool) (vs out : List Value)
    (k : Nat) (f : StructField) (ft : GoType) (v : Value)
    (hf : (Fields.toList fs)[k]? = some (f, ft)) (hv : vs[k]? = some v)
    (hr : reaches fs k = true)
    (h : LoadDefaultIntoStruct.loop pf fs addr vs = .ok out) :
    ∃ rest tl outk,
      LoadDefaultIntoStruct.loop pf (.cons f ft rest) addr (v :: tl) = .ok outk ∧
      out[k]? = outk[0]? := by
  obtain ⟨rest, hrest⟩ := Fields.drop_eq_cons fs k f ft hf
  have hd := loop_drop pf fs addr vs out k hr h
  have hk : k < vs.length := by
    rcases Nat.lt_or_ge k vs.length with hlt | hge
    · exact hlt
    · rw [List.getElem?_eq_none hge] at hv
      cases hv
  have hvs : vs.drop k = v :: vs.drop (k + 1) := by
    rw [List.getElem?_eq_getElem hk] at hv
    cases hv
    exact List.drop_eq_getElem_cons hk
  rw [hrest, hvs] at hd
  refine ⟨rest, vs.drop (k + 1), out.drop k, hd, ?_⟩
  simp

/-- A completed step of the loop on a slice-of-records field of declared
length at least one: the walk of the zero element completed with some
record `r`, the field is exported, and the field holds `minLen f` copies of
`r`. -/
theorem loop_slice_struct_inv (pf : FloatParser) (f : StructField) (efs rest : Fields)
    (addr : Bool) (v : Value) (vs outk : List Value) (hL : 1 ≤ minLen f)
    (h : LoadDefaultIntoStruct.loop pf (.cons f (.Slice (.Struct efs)) rest) addr (v :: vs) =
      .ok outk) :
    ∃ r, LoadDefaultIntoStruct.run pf (.Struct efs) true (zeroValue (.Struct efs)) = .ok r ∧
      outk[0]? = some (.slice (List.replicate (minLen f).toNat r)) := by
  rw [loop_slice_eq, if_neg (by omega)] at h
  have hrange : ¬ newarray.outOfRange (typeSize (.Struct efs)) (minLen f) = true := by
    intro hr
    rw [if_pos hr] at h
    cases h
  rw [if_neg hrange, bind_eq_ok] at h
  obtain ⟨item, hitem, h⟩ := h
  by_cases hexp : (!f.Exported) = true
  · rw [if_pos hexp] at h
    cases h
  · rw [if_neg hexp] at h
    by_cases haddr : (!addr) = true
    · rw [if_pos haddr] at h
      cases h
    · rw [if_neg haddr, bind_eq_ok] at h
      obtain ⟨vs2, _, h⟩ := h
      cases h
      exact ⟨item, hitem, by simp⟩

/-- A completed step of the loop on a slice-of-slices field of declared
length at least one: the field holds `minLen f` nil slices. -/
theorem loop_slice_slice_inv (pf : FloatParser) (f : StructField) (et : GoType)
    (rest : Fields) (addr : Bool) (v : Value) (vs outk : List Value) (hL : 1 ≤ minLen f)
    (h : LoadDefaultIntoStruct.loop pf (.cons f (.Slice (.Slice et)) rest) addr (v :: vs) =
      .ok outk) :
    outk[0]? = some (.slice (List.replicate (minLen f).toNat .nil)) := by
  rw [loop_slice_eq, if_neg (by omega)] at h
  have hrange : ¬ newarray.outOfRange (typeSize (.Slice et)) (minLen f) = true := by
    intro hr
    rw [if_pos hr] at h
    cases h
  rw [if_neg hrange, bind_eq_ok] at h
  obtain ⟨item, hitem, h⟩ := h
  cases hitem
  by_cases hexp : (!f.Exported) = true
  · rw [if_pos hexp] at h
    cases h
  · rw [if_neg hexp] at h
    by_cases haddr : (!addr) = true
    · rw [if_pos haddr] at h
      cases h
    · rw [if_neg haddr, bind_eq_ok] at h
      obtain ⟨vs2, _, h⟩ := h
      cases h
      simp [zeroValue]

/-- The top-level call on a pointer to a zero record, in terms of the walk of
the record. -/
theorem LoadDefaultIntoStruct_ptr_ok (pf : FloatParser) (t : GoType) (x r : Value)
    (h : LoadDefaultIntoStruct.run pf t true x = .ok r) :
    LoadDefaultIntoStruct pf (some (.Ptr t, .ptr x)) = .ok (some (.Ptr t, .ptr r)) := by
  simp only [LoadDefaultIntoStruct, run_ptr, h]
  rfl

/-- A slice field of declared length below one keeps its contents in every
completed run of the loop, wherever it stands in the field list. -/
theorem loop_short_slice_frame (pf : FloatParser) (fs : Fields) :
    ∀ (addr : Bool) (vs out : List Value) (k : Nat) (f : StructField) (et : GoType),
      (Fields.toList fs)[k]? = some (f, .Slice et) → minLen f < 1 →
      LoadDefaultIntoStruct.loop pf fs addr vs = .ok out → out[k]? = vs[k]? := by
  induction fs using Fields.induction_on with
  | hnil =>
    intro addr vs out k f et hf
    simp [Fields.toList] at hf
  | hcons g gt rest ih =>
    intro addr vs out k f et hf hlen h
    cases vs with
    | nil =>
      rw [loop_no_values] at h
      cases h
      rfl
    | cons v vs =>
      rcases loop_cons_ok pf g gt rest addr v vs out h with rfl | ⟨v1, vs1, rfl, hrest⟩
      · rfl
      · cases k with
        | zero =>
          simp only [Fields.toList, List.getElem?_cons_zero, Option.some.injEq,
            Prod.mk.injEq] at hf
          obtain ⟨rfl, rfl⟩ := hf
          rw [loop_short_slice pf g et rest addr v vs hlen] at h
          cases h
          rfl
        | succ k =>
          simp only [Fields.toList, List.getElem?_cons_succ] at hf
          simpa using ih addr vs vs1 k f et hf hlen hrest


/-- The slice branch for a scalar element type and a declared length of at
least one that `reflect.MakeSlice` allocates, on a settable field:
`minLen f` copies of the template that `procValue` makes of a zero element,
whatever the field held. -/
theorem loop_slice_scalar (pf : FloatParser) (f : StructField) (et : GoType) (rest : Fields)
    (v : Value) (vs : List Value) (hs : isScalar et = true) (hL : 1 ≤ minLen f)
    (hmk : MakeSlice et (minLen f) = .ok ()) (hexp : f.Exported = true) :
    LoadDefaultIntoStruct.loop pf (.cons f (.Slice et) rest) true (v :: vs) =
      (do
        let vs1 ← LoadDefaultIntoStruct.loop pf rest true vs
        pure (.slice (List.replicate (minLen f).toNat
          (procTagged pf ⟨et, zeroValue et, true, false⟩
            (StructTag.Lookup f.Tag "default"))) :: vs1)) := by
  rw [loop_slice_in_range pf f et rest true v vs (by omega)
    ((MakeSlice_ok_iff et (minLen f) (by omega)).1 hmk)]
  cases et <;> first | (simp [isScalar] at hs; done) | (simp only [hexp]; rfl)

/-- The top-level call on a pointer to a struct, in terms of the field loop. -/
theorem LoadDefaultIntoStruct_ptr_struct (pf : FloatParser) (fs : Fields) (vs : List Value) :
    LoadDefaultIntoStruct pf (some (.Ptr (.Struct fs), .ptr (.struct vs))) =
      (do
        let out ← LoadDefaultIntoStruct.loop pf fs true vs
        pure (some (.Ptr (.Struct fs), .ptr (.struct out)))) := by
  cases h : LoadDefaultIntoStruct.loop pf fs true vs with
  | error e =>
    simp only [LoadDefaultIntoStruct, run_ptr, run_struct, h]
    rfl
  | ok out =>
    simp only [LoadDefaultIntoStruct, run_ptr, run_struct, h]
    rfl

/-- The top-level call on a struct passed by value, in terms of the field
loop. -/
theorem LoadDefaultIntoStruct_struct (pf : FloatParser) (fs : Fields) (vs : List Value) :
    LoadDefaultIntoStruct pf (some (.Struct fs, .struct vs)) =
      (do
        let out ← LoadDefaultIntoStruct.loop pf fs false vs
        pure (some (.Struct fs, .struct out))) := by
  cases h : LoadDefaultIntoStruct.loop pf fs false vs with
  | error e =>
    simp only [LoadDefaultIntoStruct, run_struct, h]
    rfl
  | ok out =>
    simp only [LoadDefaultIntoStruct, run_struct, h]
    rfl

/-! ## The claims -/

/-- C1 (defect): the `return` of line 132 ends the whole walk.  In
`struct { A []int; F string `default:"x"` }` the slice `A` has no `length`
tag, so the field `F` declared after it is never visited: for every prior
contents `a` of `A` and `x` of `F` the record comes back as it was.  With
the two fields in the other order `F` is set to its default `"x"`. -/
theorem LoadDefaultIntoStruct_stops_at_short_slice (pf : FloatParser) (a : Value)
    (x : String) :
    LoadDefaultIntoStruct pf (some (.Ptr recSliceThenString, .ptr (.struct [a, .str x]))) =
      .ok (some (.Ptr recSliceThenString, .ptr (.struct [a, .str x]))) ∧
    LoadDefaultIntoStruct pf (some (.Ptr recStringThenSlice, .ptr (.struct [.str x, a]))) =
      .ok (some (.Ptr recStringThenSlice, .ptr (.struct [.str "x", a]))) :=
  ⟨rfl, rfl⟩

/-- C2: on a settable slot of a signed integer kind of `k.bits` bits,
`procValue` stores `n` when the string is a base-10 integer literal (optional
sign, decimal digits) denoting `n` with `-2^(bits-1) <= n <= 2^(bits-1) - 1`,
and leaves the slot as it was for every other string. -/
theorem procValue_signed_int (pf : FloatParser) (k : IntKind) (v : RValue) (s : String)
    (hk : v.typ = .Int k) (hset : v.CanSet = true) :
    (∀ n : Int, Spec.decimalInt s = some n →
        -2 ^ (k.bits - 1) ≤ n → n ≤ 2 ^ (k.bits - 1) - 1 →
        procValue pf (some v) s = some { v with val := .int n }) ∧
    ((¬ ∃ n : Int, Spec.decimalInt s = some n ∧
        -2 ^ (k.bits - 1) ≤ n ∧ n ≤ 2 ^ (k.bits - 1) - 1) →
        procValue pf (some v) s = some v) := by
  have hb := bits_le_64 k
  constructor
  · intro n hn hlo hhi
    have hp := ParseInt_ok s n hn (by omega) (by omega)
    have hov := (OverflowInt_eq_false_iff k n (by omega) (by omega)).2 ⟨hlo, hhi⟩
    simp only [procValue, hset, hk, hp, hov, wrapInt_bits_eq_self k n hlo hhi]
    rfl
  · intro hno
    by_cases hp : ∃ n, Spec.decimalInt s = some n ∧ -2 ^ 63 ≤ n ∧ n ≤ 2 ^ 63 - 1
    · obtain ⟨n, hn, hlo, hhi⟩ := hp
      have hp := ParseInt_ok s n hn hlo hhi
      have hov : OverflowInt k.bits n = true := by
        cases h : OverflowInt k.bits n with
        | true => rfl
        | false =>
          exact absurd ⟨n, hn, (OverflowInt_eq_false_iff k n hlo hhi).1 h⟩ hno
      simp only [procValue, hset, hk, hp, hov]
      rfl
    · obtain ⟨u, e, he⟩ := ParseInt_err s hp
      simp only [procValue, hset, hk, he]
      rfl

/-- C2, at an `int8` slot holding 7: `"-128"` is stored, `"128"` (out of
range for 8 bits) and `"99999999999999999999"` (beyond 64 bits) leave the 7. -/
theorem procValue_signed_int_witness :
    procValue noFloat (some ⟨.Int .Int8, .int 7, true, false⟩) "-128" =
      some ⟨.Int .Int8, .int (-128), true, false⟩ ∧
    procValue noFloat (some ⟨.Int .Int8, .int 7, true, false⟩) "128" =
      some ⟨.Int .Int8, .int 7, true, false⟩ ∧
    procValue noFloat (some ⟨.Int .Int8, .int 7, true, false⟩) "99999999999999999999" =
      some ⟨.Int .Int8, .int 7, true, false⟩ :=
  ⟨(procValue_signed_int noFloat .Int8 ⟨.Int .Int8, .int 7, true, false⟩ "-128" rfl rfl).1
      (-128) rfl (by decide) (by decide),
    (procValue_signed_int noFloat .Int8 ⟨.Int .Int8, .int 7, true, false⟩ "128" rfl rfl).2
      (by
        rintro ⟨n, hn, _, hhi⟩
        have h128 : Spec.decimalInt "128" = some 128 := rfl
        rw [h128] at hn
        cases hn
        exact absurd hhi (by decide)),
    (procValue_signed_int noFloat .Int8 ⟨.Int .Int8, .int 7, true, false⟩
        "99999999999999999999" rfl rfl).2
      (by
        rintro ⟨n, hn, _, hhi⟩
        have hbig : Spec.decimalInt "99999999999999999999" = some 99999999999999999999 := rfl
        rw [hbig] at hn
        cases hn
        exact absurd hhi (by decide))⟩

/-- C3: on a settable slot of an unsigned integer kind of `k.bits` bits,
`procValue` stores `n` when the string is a base-10 literal of decimal digits
denoting `n` with `n <= 2^bits - 1`, and leaves the slot as it was for every
other string (a sign, a non-digit, or a value above `2^bits - 1`). -/
theorem procValue_unsigned_int (pf : FloatParser) (k : UintKind) (v : RValue) (s : String)
    (hk : v.typ = .Uint k) (hset : v.CanSet = true) :
    (∀ n : Nat, Spec.decimalNat s.data = some n → n ≤ 2 ^ k.bits - 1 →
        procValue pf (some v) s = some { v with val := .uint n }) ∧
    ((¬ ∃ n : Nat, Spec.decimalNat s.data = some n ∧ n ≤ 2 ^ k.bits - 1) →
        procValue pf (some v) s = some v) := by
  have hb := ubits_le_64 k
  have hpos : 0 < 2 ^ k.bits := Nat.pos_of_ne_zero (by positivity)
  constructor
  · intro n hn hhi
    have hp := ParseUint_ok s n hn (by omega)
    have hov := (OverflowUint_eq_false_iff k n (by omega)).2 hhi
    have hw : wrapUint k.bits n = n := Nat.mod_eq_of_lt (by omega)
    simp only [procValue, hset, hk, hp, hov, hw]
    rfl
  · intro hno
    by_cases hp : ∃ n, Spec.decimalNat s.data = some n ∧ n < 2 ^ 64
    · obtain ⟨n, hn, hlt⟩ := hp
      have hp := ParseUint_ok s n hn hlt
      have hov : OverflowUint k.bits n = true := by
        cases h : OverflowUint k.bits n with
        | true => rfl
        | false =>
          exact absurd ⟨n, hn, (OverflowUint_eq_false_iff k n hlt).1 h⟩ hno
      simp only [procValue, hset, hk, hp, hov]
      rfl
    · rcases ParseUint_err s hp with he | he
      · simp only [procValue, hset, hk, he]
        rfl
      · simp only [procValue, hset, hk, he]
        rfl

/-- C3, at a `uint8` slot holding 7: `"255"` is stored, `"-1"` and `"256"`
leave the 7. -/
theorem procValue_unsigned_int_witness :
    procValue noFloat (some ⟨.Uint .Uint8, .uint 7, true, false⟩) "255" =
      some ⟨.Uint .Uint8, .uint 255, true, false⟩ ∧
    procValue noFloat (some ⟨.Uint .Uint8, .uint 7, true, false⟩) "-1" =
      some ⟨.Uint .Uint8, .uint 7, true, false⟩ ∧
    procValue noFloat (some ⟨.Uint .Uint8, .uint 7, true, false⟩) "256" =
      some ⟨.Uint .Uint8, .uint 7, true, false⟩ :=
  ⟨(procValue_unsigned_int noFloat .Uint8 ⟨.Uint .Uint8, .uint 7, true, false⟩ "255"
        rfl rfl).1 255 rfl (by decide),
    (procValue_unsigned_int noFloat .Uint8 ⟨.Uint .Uint8, .uint 7, true, false⟩ "-1"
        rfl rfl).2
      (by
        rintro ⟨n, hn, _⟩
        have hneg : Spec.decimalNat "-1".data = none := rfl
        rw [hneg] at hn
        cases hn),
    (procValue_unsigned_int noFloat .Uint8 ⟨.Uint .Uint8, .uint 7, true, false⟩ "256"
        rfl rfl).2
      (by
        rintro ⟨n, hn, hhi⟩
        have h256 : Spec.decimalNat "256".data = some 256 := rfl
        rw [h256] at hn
        cases hn
        exact absurd hhi (by decide))⟩

/-- C4 (defect): `case reflect.Float32:` has an empty body, so `procValue`
leaves every `float32` slot as it was, for every float parser and every
string; a settable `float64` slot receives the parsed value whenever the
parser succeeds.  Through the walker: the field of
`struct { F float32 `default:"1.5"` }` keeps its prior contents `p`, that of
`struct { F float64 `default:"1.5"` }` receives what the parser returns. -/
theorem procValue_float32_unchanged (pf : FloatParser) (p : Value) (addr ro : Bool)
    (s : String) :
    procValue pf (some ⟨.Float32, p, addr, ro⟩) s = some ⟨.Float32, p, addr, ro⟩ ∧
    procValue pf (some ⟨.Float64, p, true, false⟩) s =
      some ⟨.Float64, (match pf s with | some x => .float x | none => p), true, false⟩ ∧
    LoadDefaultIntoStruct pf (some (.Ptr recFloat32, .ptr (.struct [p]))) =
      .ok (some (.Ptr recFloat32, .ptr (.struct [p]))) ∧
    LoadDefaultIntoStruct pf (some (.Ptr recFloat64, .ptr (.struct [p]))) =
      .ok (some (.Ptr recFloat64, .ptr (.struct
        [match pf "1.5" with | some x => .float x | none => p]))) := by
  have h64 : ∀ t : String, procValue pf (some ⟨.Float64, p, true, false⟩) t =
      some ⟨.Float64, (match pf t with | some x => .float x | none => p), true, false⟩ := by
    intro t
    cases h : pf t <;> simp [procValue, RValue.CanSet, h, OverflowFloat64]
  refine ⟨?_, h64 s, ?_, ?_⟩
  · cases addr <;> cases ro <;> rfl
  · rfl
  · have h2 : procTagged pf ⟨.Float64, p, true, false⟩ (some "1.5") =
        (match pf "1.5" with | some x => .float x | none => p) := by
      simp only [procTagged, procSlot, h64 "1.5"]
    rw [← h2]
    rfl

/-- C5 (defect, the one of C4): in `struct { F []float32 `default:"1.5"
length:"2"` }` the field becomes two zero elements for every float parser,
also one that parses `"1.5"`; the template is never set because `procValue`
does nothing on a `float32`.  With `[]float64` both elements are the parsed
value whenever the parser succeeds. -/
theorem float32_slice_elements_stay_zero (pf : FloatParser) (a : Value) :
    LoadDefaultIntoStruct pf (some (.Ptr recFloat32Slice, .ptr (.struct [a]))) =
      .ok (some (.Ptr recFloat32Slice, .ptr (.struct [.slice [.float 0, .float 0]]))) ∧
    LoadDefaultIntoStruct pf (some (.Ptr recFloat64Slice, .ptr (.struct [a]))) =
      .ok (some (.Ptr recFloat64Slice, .ptr (.struct
        [.slice (List.replicate 2
          (match pf "1.5" with | some x => .float x | none => .float 0))]))) := by
  constructor
  · rfl
  · cases h : pf "1.5" with
    | none =>
      have h2 : procTagged pf ⟨.Float64, .float 0, true, false⟩ (some "1.5") = .float 0 := by
        simp [procTagged, procSlot, procValue, RValue.CanSet, h]
      show (Except.ok (some (GoType.Ptr recFloat64Slice, Value.ptr (Value.struct
        [Value.slice (List.replicate 2
          (procTagged pf ⟨.Float64, .float 0, true, false⟩ (some "1.5")))]))) :
          Except String Interface) = _
      rw [h2]
    | some x =>
      have h2 : procTagged pf ⟨.Float64, .float 0, true, false⟩ (some "1.5") = .float x := by
        simp [procTagged, procSlot, procValue, RValue.CanSet, h, OverflowFloat64]
      show (Except.ok (some (GoType.Ptr recFloat64Slice, Value.ptr (Value.struct
        [Value.slice (List.replicate 2
          (procTagged pf ⟨.Float64, .float 0, true, false⟩ (some "1.5")))]))) :
          Except String Interface) = _
      rw [h2]

/-- C6: a slice field whose declared length is below one, as the code
computes it (`minLen`, lines 125-130) or in the words of the claim (length
tag absent, not a base-10 integer, zero or negative), is left as it was,
whatever its element type and `default` tag.  When the walker comes to the
field it returns without a panic, handing back this field and all later ones
unchanged; and in every completed call of `LoadDefaultIntoStruct`, on a
pointer to a record or on a record passed by value, the field at that
position, wherever it stands, holds what it held before. -/
theorem short_slice_field_untouched (pf : FloatParser) (fs : Fields) (vs : List Value)
    (k : Nat) (f : StructField) (et : GoType)
    (hf : (Fields.toList fs)[k]? = some (f, .Slice et))
    (hlen : minLen f < 1 ∨ Spec.lengthBelowOne f = true) :
    (∀ (rest : Fields) (addr : Bool) (v : Value) (tl : List Value),
      LoadDefaultIntoStruct.loop pf (.cons f (.Slice et) rest) addr (v :: tl) =
        .ok (v :: tl)) ∧
    (∀ j : Interface,
      LoadDefaultIntoStruct pf (some (.Ptr (.Struct fs), .ptr (.struct vs))) = .ok j →
      ∃ out, j = some (.Ptr (.Struct fs), .ptr (.struct out)) ∧ out[k]? = vs[k]?) ∧
    (∀ j : Interface,
      LoadDefaultIntoStruct pf (some (.Struct fs, .struct vs)) = .ok j →
      ∃ out, j = some (.Struct fs, .struct out) ∧ out[k]? = vs[k]?) := by
  have hlt : minLen f < 1 := hlen.elim id (minLen_lt_one_of_spec f)
  refine ⟨fun rest addr v tl => loop_short_slice pf f et rest addr v tl hlt, ?_, ?_⟩
  · intro j hj
    rw [LoadDefaultIntoStruct_ptr_struct, bind_eq_ok] at hj
    obtain ⟨out, hout, hj⟩ := hj
    cases hj
    exact ⟨out, rfl, loop_short_slice_frame pf fs true vs out k f et hf hlt hout⟩
  · intro j hj
    rw [LoadDefaultIntoStruct_struct, bind_eq_ok] at hj
    obtain ⟨out, hout, hj⟩ := hj
    cases hj
    exact ⟨out, rfl, loop_short_slice_frame pf fs false vs out k f et hf hlt hout⟩

/-- C6, on `struct { S string `default:"s"`; A []string `default:"a"
length:"-3"` }` with `A` holding `["keep"]`: the declared length is below
one, the call completes, `S` receives its default and `A` still holds
`["keep"]`. -/
theorem short_slice_field_untouched_witness :
    Spec.lengthBelowOne (exported "A" [("default", "a"), ("length", "-3")]) = true ∧
    ∃ out, (some (.Ptr (.Struct shortSliceFields),
        .ptr (.struct [.str "s", .slice [.str "keep"]])) : Interface) =
        some (.Ptr (.Struct shortSliceFields), .ptr (.struct out)) ∧
      out[1]? = [Value.str "", Value.slice [.str "keep"]][1]? :=
  ⟨by decide,
    (short_slice_field_untouched noFloat shortSliceFields
      [.str "", .slice [.str "keep"]] 1
      (exported "A" [("default", "a"), ("length", "-3")]) .String rfl
      (Or.inr (by decide))).2.1 _ rfl⟩

/-- C7, as stated, fails: in `struct { M [][]int `length:"2"` }` with `M`
nil the call assigns `M` a slice of two nil inner slices, so it is not a
no-op for the field. -/
theorem nested_slice_field_is_assigned :
    LoadDefaultIntoStruct noFloat (some (.Ptr recNestedSlice, .ptr (.struct [.nil]))) =
      .ok (some (.Ptr recNestedSlice, .ptr (.struct [.slice [.nil, .nil]]))) ∧
    LoadDefaultIntoStruct noFloat (some (.Ptr recNestedSlice, .ptr (.struct [.nil]))) ≠
      .ok (some (.Ptr recNestedSlice, .ptr (.struct [.nil]))) :=
  ⟨rfl, by
    intro h
    have h2 : LoadDefaultIntoStruct noFloat
        (some (.Ptr recNestedSlice, .ptr (.struct [.nil]))) =
        .ok (some (.Ptr recNestedSlice, .ptr (.struct [.slice [.nil, .nil]]))) := rfl
    rw [h2] at h
    simp at h⟩

/-- C7, amended: for a slice field whose elements are slices, only the
computation of a template is skipped.  With a declared length of at least
one for which `reflect.MakeSlice` returns (the length is one, or 24 bytes
per inner slice stay within `maxAlloc`), a settable field is assigned a
slice of exactly that many nil inner slices, whatever its `default` tag and
prior contents, and the walk goes on with the next field; when
`reflect.MakeSlice` does not return, the call panics on line 137.  In every
completed call on a pointer to a record in which the walker comes to the
field, the field ends as that slice.  With a declared length below one the
field is left as it was. -/
theorem slice_of_slices_field (pf : FloatParser) (f : StructField) (et : GoType) :
    (1 ≤ minLen f →
      (MakeSlice (.Slice et) (minLen f) = .ok () →
        ∀ (rest : Fields) (v : Value) (vs : List Value), f.Exported = true →
          LoadDefaultIntoStruct.loop pf (.cons f (.Slice (.Slice et)) rest) true (v :: vs) =
            (do
              let vs1 ← LoadDefaultIntoStruct.loop pf rest true vs
              pure (.slice (List.replicate (minLen f).toNat .nil) :: vs1))) ∧
      (MakeSlice (.Slice et) (minLen f) ≠ .ok () →
        ∀ (rest : Fields) (addr : Bool) (v : Value) (vs : List Value),
          LoadDefaultIntoStruct.loop pf (.cons f (.Slice (.Slice et)) rest) addr (v :: vs) =
            .error panicAllocRange) ∧
      (MakeSlice (.Slice et) (minLen f) = .ok () ↔
        (minLen f = 1 ∨ 24 * (minLen f).toNat ≤ maxAlloc)) ∧
      ((List.replicate (minLen f).toNat Value.nil).length : Int) = minLen f ∧
      (∀ (fs : Fields) (vs : List Value) (k : Nat) (v : Value) (j : Interface),
        (Fields.toList fs)[k]? = some (f, .Slice (.Slice et)) → vs[k]? = some v →
        reaches fs k = true →
        LoadDefaultIntoStruct pf (some (.Ptr (.Struct fs), .ptr (.struct vs))) = .ok j →
        ∃ out, j = some (.Ptr (.Struct fs), .ptr (.struct out)) ∧
          out[k]? = some (.slice (List.replicate (minLen f).toNat .nil)))) ∧
    (minLen f < 1 →
      ∀ (rest : Fields) (addr : Bool) (v : Value) (vs : List Value),
        LoadDefaultIntoStruct.loop pf (.cons f (.Slice (.Slice et)) rest) addr (v :: vs) =
          .ok (v :: vs)) := by
  refine ⟨fun hL => ⟨?_, ?_, MakeSlice_ok_arith (.Slice et) f hL, ?_, ?_⟩,
    fun hlen rest addr v vs => loop_short_slice pf f _ rest addr v vs hlen⟩
  · intro hmk rest v vs hexp
    rw [loop_slice_in_range pf f (.Slice et) rest true v vs (by omega)
      ((MakeSlice_ok_iff (.Slice et) (minLen f) (by omega)).1 hmk)]
    simp only [hexp]
    rfl
  · intro hmk rest addr v vs
    have hr : newarray.outOfRange (typeSize (.Slice et)) (minLen f) = true := by
      by_contra hr
      exact hmk ((MakeSlice_ok_iff (.Slice et) (minLen f) (by omega)).2 hr)
    exact loop_slice_out_of_range pf f (.Slice et) rest addr v vs (by omega) hr
  · rw [List.length_replicate]
    omega
  · intro fs vs k v j hf hv hr hj
    rw [LoadDefaultIntoStruct_ptr_struct, bind_eq_ok] at hj
    obtain ⟨out, hout, hj⟩ := hj
    cases hj
    obtain ⟨rest, tl, outk, hstep, hk⟩ := loop_at pf fs true vs out k f _ v hf hv hr hout
    exact ⟨out, rfl, hk.trans (loop_slice_slice_inv pf f et rest true v tl outk hL hstep)⟩

/-- C7 amended, on `struct { M [][]int `length:"2"` }` with `M` holding one
inner slice: `reflect.MakeSlice` returns, the call completes and `M` holds
two nil inner slices; with `length:"9223372036854775807"` the call panics
in `reflect.MakeSlice`. -/
theorem slice_of_slices_field_witness :
    (∃ out, (some (.Ptr recNestedSlice, .ptr (.struct [.slice [.nil, .nil]])) : Interface) =
        some (.Ptr (.Struct recNestedSlice.fields), .ptr (.struct out)) ∧
      out[0]? = some (.slice (List.replicate
        (minLen (exported "M" [("length", "2")])).toNat .nil))) ∧
    LoadDefaultIntoStruct.loop noFloat recNestedSlice.fields true [.slice [.slice [.int 1]]] =
      .ok [.slice [.nil, .nil]] ∧
    LoadDefaultIntoStruct noFloat
        (some (.Ptr recHugeNestedSlice, .ptr (.struct [.slice [.slice [.int 1]]]))) =
      .error panicAllocRange :=
  ⟨((slice_of_slices_field noFloat (exported "M" [("length", "2")]) (.Int .Int)).1
      (by decide)).2.2.2.2 recNestedSlice.fields [.slice [.slice [.int 1]]] 0 _ _
      rfl rfl rfl rfl,
    ((slice_of_slices_field noFloat (exported "M" [("length", "2")]) (.Int .Int)).1
      (by decide)).1 rfl .nil _ [] rfl,
    rfl⟩

/-- C8, as stated, fails: in `struct { SL2 []ArrStruct
`length:"9223372036854775807"` }` the declared length is at least one, and
the call panics in `reflect.MakeSlice` on line 137, for every float parser
and every prior contents of the field: no slice is assigned. -/
theorem slice_of_records_huge_length_panics :
    1 ≤ minLen (exported "SL2" [("length", "9223372036854775807")]) ∧
    MakeSlice ArrStruct (minLen (exported "SL2" [("length", "9223372036854775807")])) =
      .error panicAllocRange ∧
    ∀ (pf : FloatParser) (v : Value),
      LoadDefaultIntoStruct pf (some (.Ptr recHugeRecordSlice, .ptr (.struct [v]))) =
        .error panicAllocRange :=
  ⟨by decide, rfl, fun _ _ => rfl⟩

/-- C8, amended: for a slice field whose elements are records `R`, with a
declared length of at least one.  When `reflect.MakeSlice` returns for that
length (the length is one, or the records take no more than `maxAlloc` bytes
together), then on a settable field, if `LoadDefaultIntoStruct` on a pointer
to a zero `R` completes with the record `r`, the field is assigned a slice
of exactly `minLen f` elements, each equal to `r`, whatever its `default`
tag and prior contents, and the walk goes on with the next field; when
`reflect.MakeSlice` does not return, the call panics on line 137 before `R`
is looked at.  In every completed call on a pointer to a record in which the
walker comes to the field, `reflect.MakeSlice` has returned,
`LoadDefaultIntoStruct` on a pointer to a zero `R` completes with some `r`
and the field ends as `minLen f` copies of `r`. -/
theorem slice_of_records_field (pf : FloatParser) (f : StructField) (efs : Fields)
    (hL : 1 ≤ minLen f) :
    (MakeSlice (.Struct efs) (minLen f) = .ok () →
      ∀ (rest : Fields) (v : Value) (vs : List Value) (r : Value), f.Exported = true →
        LoadDefaultIntoStruct pf
            (some (.Ptr (.Struct efs), .ptr (zeroValue (.Struct efs)))) =
          .ok (some (.Ptr (.Struct efs), .ptr r)) →
        LoadDefaultIntoStruct.loop pf (.cons f (.Slice (.Struct efs)) rest) true (v :: vs) =
          (do
            let vs1 ← LoadDefaultIntoStruct.loop pf rest true vs
            pure (.slice (List.replicate (minLen f).toNat r) :: vs1)) ∧
        ((List.replicate (minLen f).toNat r).length : Int) = minLen f ∧
        ∀ x ∈ List.replicate (minLen f).toNat r, x = r) ∧
    (MakeSlice (.Struct efs) (minLen f) ≠ .ok () →
      ∀ (rest : Fields) (addr : Bool) (v : Value) (vs : List Value),
        LoadDefaultIntoStruct.loop pf (.cons f (.Slice (.Struct efs)) rest) addr (v :: vs) =
          .error panicAllocRange) ∧
    (MakeSlice (.Struct efs) (minLen f) = .ok () ↔
      (minLen f = 1 ∨ typeSize (.Struct efs) * (minLen f).toNat ≤ maxAlloc)) ∧
    (∀ (fs : Fields) (vs : List Value) (k : Nat) (v : Value) (j : Interface),
      (Fields.toList fs)[k]? = some (f, .Slice (.Struct efs)) → vs[k]? = some v →
      reaches fs k = true →
      LoadDefaultIntoStruct pf (some (.Ptr (.Struct fs), .ptr (.struct vs))) = .ok j →
      ∃ out r, j = some (.Ptr (.Struct fs), .ptr (.struct out)) ∧
        MakeSlice (.Struct efs) (minLen f) = .ok () ∧
        LoadDefaultIntoStruct pf
            (some (.Ptr (.Struct efs), .ptr (zeroValue (.Struct efs)))) =
          .ok (some (.Ptr (.Struct efs), .ptr r)) ∧
        out[k]? = some (.slice (List.replicate (minLen f).toNat r))) := by
  refine ⟨?_, ?_, MakeSlice_ok_arith (.Struct efs) f hL, ?_⟩
  · intro hmk rest v vs r hexp hr
    have hrun : LoadDefaultIntoStruct.run pf (.Struct efs) true (zeroValue (.Struct efs)) =
        .ok r := by
      simp only [LoadDefaultIntoStruct, run_ptr] at hr
      rw [bind_eq_ok] at hr
      obtain ⟨p, hp, hr⟩ := hr
      rw [bind_eq_ok] at hp
      obtain ⟨x, hx, hp⟩ := hp
      cases hp
      cases hr
      exact hx
    refine ⟨?_, ?_, fun x hx => List.eq_of_mem_replicate hx⟩
    · rw [loop_slice_in_range pf f (.Struct efs) rest true v vs (by omega)
        ((MakeSlice_ok_iff (.Struct efs) (minLen f) (by omega)).1 hmk)]
      simp only [hrun, hexp]
      rfl
    · rw [List.length_replicate]
      omega
  · intro hmk rest addr v vs
    have hr : newarray.outOfRange (typeSize (.Struct efs)) (minLen f) = true := by
      by_contra hr
      exact hmk ((MakeSlice_ok_iff (.Struct efs) (minLen f) (by omega)).2 hr)
    exact loop_slice_out_of_range pf f (.Struct efs) rest addr v vs (by omega) hr
  · intro fs vs k v j hf hv hr hj
    rw [LoadDefaultIntoStruct_ptr_struct, bind_eq_ok] at hj
    obtain ⟨out, hout, hj⟩ := hj
    cases hj
    obtain ⟨rest, tl, outk, hstep, hk⟩ := loop_at pf fs true vs out k f _ v hf hv hr hout
    obtain ⟨r, hrun, hhead⟩ := loop_slice_struct_inv pf f efs rest true v tl outk hL hstep
    exact ⟨out, r, rfl,
      (MakeSlice_ok_iff (.Struct efs) (minLen f) (by omega)).2
        (loop_slice_ok_in_range pf f (.Struct efs) rest true v tl outk (by omega) hstep),
      LoadDefaultIntoStruct_ptr_ok pf _ _ r hrun, hk.trans hhead⟩

/-- C8 amended, on the record `SS` of the test, field `SL2 []ArrStruct
`length:"1"`` with `S string `default:"inslice"`` in `ArrStruct`: the call on
a zero `SS` completes with `expected`, whose `SL2` is one copy of the
defaulted `ArrStruct`; and at the field itself `reflect.MakeSlice` returns
and the step yields `[{S: "inslice"}]`. -/
theorem slice_of_records_field_witness :
    (∃ out r, (some (.Ptr SS, .ptr SS.expected) : Interface) =
        some (.Ptr (.Struct SS.fields), .ptr (.struct out)) ∧
      MakeSlice (.Struct ArrStruct.fields)
          (minLen (exported "SL2" [("length", "1")])) = .ok () ∧
      LoadDefaultIntoStruct noFloat
          (some (.Ptr (.Struct ArrStruct.fields), .ptr (zeroValue (.Struct ArrStruct.fields)))) =
        .ok (some (.Ptr (.Struct ArrStruct.fields), .ptr r)) ∧
      out[5]? = some (.slice (List.replicate
        (minLen (exported "SL2" [("length", "1")])).toNat r))) ∧
    LoadDefaultIntoStruct.loop noFloat
        (.cons (exported "SL2" [("length", "1")]) (.Slice (.Struct ArrStruct.fields)) .nil)
        true [.nil] =
      .ok [.slice [.struct [.str "inslice"]]] :=
  ⟨(slice_of_records_field noFloat (exported "SL2" [("length", "1")]) ArrStruct.fields
      (by decide)).2.2.2 SS.fields (zeroFields SS.fields) 5 _ _ rfl rfl rfl rfl,
    ((slice_of_records_field noFloat (exported "SL2" [("length", "1")]) ArrStruct.fields
      (by decide)).1 rfl .nil .nil [] (.struct [.str "inslice"]) rfl rfl).1⟩

/-- C9: idempotence.  If `LoadDefaultIntoStruct` completes on an input and
leaves it as `j`, then a second call on `j` completes and leaves `j` as it
is, for every type and every value, whatever the default strings. -/
theorem LoadDefaultIntoStruct_idempotent (pf : FloatParser) (i j : Interface)
    (h : LoadDefaultIntoStruct pf i = .ok j) : LoadDefaultIntoStruct pf j = .ok j := by
  cases i with
  | none =>
    cases h
    rfl
  | some tv =>
    obtain ⟨t, v⟩ := tv
    simp only [LoadDefaultIntoStruct] at h
    rw [bind_eq_ok] at h
    obtain ⟨v1, hv1, h⟩ := h
    cases h
    simp only [LoadDefaultIntoStruct]
    rw [(run_loop_idem pf).1 t false v v1 hv1]
    rfl

/-- C9, on the record of the test and on a record whose defaults are out of
range or malformed: the outcome of the first call is a fixed point. -/
theorem LoadDefaultIntoStruct_idempotent_witness :
    LoadDefaultIntoStruct noFloat (some (.Ptr SS, .ptr SS.expected)) =
      .ok (some (.Ptr SS, .ptr SS.expected)) ∧
    LoadDefaultIntoStruct noFloat (some (.Ptr recBadDefaults,
        .ptr (.struct [.int 0, .bool false, .uint 0, .int 0]))) =
      .ok (some (.Ptr recBadDefaults, .ptr (.struct [.int 0, .bool false, .uint 0, .int 0]))) :=
  ⟨LoadDefaultIntoStruct_idempotent noFloat (some (.Ptr SS, .ptr (zeroValue SS))) _ rfl,
    LoadDefaultIntoStruct_idempotent noFloat
      (some (.Ptr recBadDefaults, .ptr (zeroValue recBadDefaults))) _ rfl⟩

/-- C10 (defect): `LoadDefaultIntoStruct` panics where `procValue` would
have returned silently.  An unexported slice field of declared length one:
`v.Set(slice)` panics; an unexported nested record: `v.Addr().Interface()`
panics; a slice of pointers of declared length one: `item.Type()` panics on
the zero `reflect.Value`; a nested record in a struct passed by value:
`v.Addr()` panics.  The nil interface, a nil pointer and an unexported
scalar field are handled without a panic. -/
theorem LoadDefaultIntoStruct_panics :
    LoadDefaultIntoStruct noFloat (some (.Ptr recUnexportedSlice, .ptr (.struct [.nil]))) =
      .error panicSetRO ∧
    LoadDefaultIntoStruct noFloat
        (some (.Ptr recUnexportedStruct, .ptr (.struct [.struct [.str ""]]))) =
      .error panicInterfaceRO ∧
    LoadDefaultIntoStruct noFloat (some (.Ptr recPtrSlice, .ptr (.struct [.nil]))) =
      .error panicTypeOnZero ∧
    LoadDefaultIntoStruct noFloat (some (SS, zeroValue SS)) = .error panicAddr ∧
    LoadDefaultIntoStruct noFloat none = .ok none ∧
    LoadDefaultIntoStruct noFloat (some (.Ptr SS, .nil)) = .ok (some (.Ptr SS, .nil)) ∧
    LoadDefaultIntoStruct noFloat (some (.Ptr recUnexportedInt, .ptr (.struct [.int 0]))) =
      .ok (some (.Ptr recUnexportedInt, .ptr (.struct [.int 0]))) :=
  ⟨rfl, rfl, rfl, rfl, rfl, rfl, rfl⟩

/-! ## `Load` -/

/-- The precondition checks of `Load` on a non-nil input: a type that is not
a pointer is refused with `input arg not ptr`, a pointer whose chain of
dereferences does not end in a struct with `input not a struct`, in both
cases with the target as it was and no call made; on a pointer, of any
depth, to a struct neither error is returned. -/
theorem Load_precondition_checks (w : World) (pf : FloatParser) (t : GoType) (v : Value)
    (opts : Option LoadOptions) :
    (isPtr t = false →
      Load w pf (some (t, v)) opts =
        .ok ⟨some (.New "input arg not ptr"), some (t, v), []⟩) ∧
    (isPtr t = true → isStruct (derefType t) = false →
      Load w pf (some (t, v)) opts =
        .ok ⟨some (.New "input not a struct"), some (t, v), []⟩) ∧
    (isPtr t = true → isStruct (derefType t) = true →
      Load w pf (some (t, v)) opts =
        (do
          let i1 ← LoadDefaultIntoStruct pf (some (t, v))
          pure (Load.overlays w i1 opts))) := by
  refine ⟨fun h => ?_, fun h1 h2 => ?_, fun h1 h2 => ?_⟩
  · simp only [Load, h]
    rfl
  · simp only [Load, h1, h2]
    rfl
  · simp only [Load, h1, h2]
    rfl

/-- The file block never calls the environment binder, and when it ends
without an error the target is the file overlay of the specification. -/
theorem Load.configFile_facts (w : World) (i : Interface) (cf : ConfigFile) :
    Call.envconfigParse ∉ (Load.configFile w i cf).2.2 ∧
    ((Load.configFile w i cf).1 = none →
      (Load.configFile w i cf).2.1 = Spec.decodeIfConfigured w (some cf) i) := by
  have hTJ : ConfigFileTypeTOML ≠ ConfigFileTypeJSON := by decide
  have hYJ : ConfigFileTypeYAML ≠ ConfigFileTypeJSON := by decide
  have hYT : ConfigFileTypeYAML ≠ ConfigFileTypeTOML := by decide
  have hTY : ConfigFileTypeTOML ≠ ConfigFileTypeYAML := by decide
  unfold Load.configFile Spec.decodeIfConfigured
  by_cases hp : cf.Path = ""
  · simp [hp]
  · by_cases hx : w.CheckExists (w.ParsePath cf.Path) = true
    · cases hr : w.ReadFile (w.ParsePath cf.Path) with
      | error e => simp [hp, hx, hr]
      | ok data =>
        by_cases hj : cf.Typ = ConfigFileTypeJSON
        · rcases hd : w.jsonUnmarshal data i with ⟨i1, _ | e⟩ <;> simp [hp, hx, hr, hj, hd]
        · by_cases ht : cf.Typ = ConfigFileTypeTOML
          · rcases hd : w.tomlUnmarshal data i with ⟨i1, _ | e⟩ <;>
              simp [hp, hx, hr, ht, hd, hTJ, hTY]
          · by_cases hy : cf.Typ = ConfigFileTypeYAML
            · rcases hd : w.yamlUnmarshal data i with ⟨i1, _ | e⟩ <;>
                simp [hp, hx, hr, hy, hd, hYJ, hYT]
            · simp [hp, hx, hr, hj, ht, hy]
    · simp [hp, hx]

/-- A call of `Load` that returns went one of three ways: the first check
failed, the second check failed, or the defaults were loaded and the rest
of the body ran on the defaulted target. -/
theorem Load_ok_cases (w : World) (pf : FloatParser) (i : Interface)
    (opts : Option LoadOptions) (r : LoadResult) (h : Load w pf i opts = .ok r) :
    r = ⟨some (.New "input arg not ptr"), i, []⟩ ∨
    r = ⟨some (.New "input not a struct"), i, []⟩ ∨
    ∃ d, LoadDefaultIntoStruct pf i = .ok d ∧ r = Load.overlays w d opts := by
  cases i with
  | none => cases h
  | some tv =>
    obtain ⟨t, v⟩ := tv
    have hc := Load_precondition_checks w pf t v opts
    by_cases h1 : isPtr t = true
    · by_cases h2 : isStruct (derefType t) = true
      · rw [hc.2.2 h1 h2, bind_eq_ok] at h
        obtain ⟨d, hd, h⟩ := h
        cases h
        exact Or.inr (Or.inr ⟨d, hd, rfl⟩)
      · rw [hc.2.1 h1 (by simpa using h2)] at h
        cases h
        exact Or.inr (Or.inl rfl)
    · rw [hc.1 (by simpa using h1)] at h
      cases h
      exact Or.inl rfl

/-- The rest of the body after the defaults: without options nothing more
happens; with options the file block runs when a file is configured, an
error of the file block is returned at once, and otherwise the binder runs
when enabled and its error is dropped. -/
theorem Load.overlays_cases (w : World) (d : Interface) (o : LoadOptions) :
    (o.ConfigFile = none →
      Load.overlays w d (some o) =
        if o.FromEnv then
          ⟨none, (w.envconfigParse d).1, [.LoadDefaultIntoStruct, .envconfigParse]⟩
        else ⟨none, d, [.LoadDefaultIntoStruct]⟩) ∧
    (∀ cf e i2 calls, o.ConfigFile = some cf →
      Load.configFile w d cf = (some e, i2, calls) →
      Load.overlays w d (some o) = ⟨some e, i2, .LoadDefaultIntoStruct :: calls⟩) ∧
    (∀ cf i2 calls, o.ConfigFile = some cf →
      Load.configFile w d cf = (none, i2, calls) →
      Load.overlays w d (some o) =
        if o.FromEnv then
          ⟨none, (w.envconfigParse i2).1,
            .LoadDefaultIntoStruct :: (calls ++ [.envconfigParse])⟩
        else ⟨none, i2, .LoadDefaultIntoStruct :: calls⟩) := by
  refine ⟨fun h => ?_, fun cf e i2 calls h hc => ?_, fun cf i2 calls h hc => ?_⟩
  · simp only [Load.overlays, h]
    rfl
  · simp only [Load.overlays, h, hc]
  · simp only [Load.overlays, h, hc]

/-- The errors the file block can end with: the three made by `errors.New`
in the block, or an error received from `ioutil.ReadFile` or a decoder. -/
theorem Load.configFile_errors (w : World) (d : Interface) (cf : ConfigFile) (e : GoError)
    (h : (Load.configFile w d cf).1 = some e) :
    e = .New "config file path empty" ∨ e = .New "config file not found" ∨
    e = .New "file type not impl" ∨ ∃ x, e = .fromCallee x := by
  have hTJ : ConfigFileTypeTOML ≠ ConfigFileTypeJSON := by decide
  have hYJ : ConfigFileTypeYAML ≠ ConfigFileTypeJSON := by decide
  have hYT : ConfigFileTypeYAML ≠ ConfigFileTypeTOML := by decide
  unfold Load.configFile at h
  by_cases hp : cf.Path = ""
  · simp [hp] at h
    exact Or.inl h.symm
  · by_cases hx : w.CheckExists (w.ParsePath cf.Path) = true
    · cases hr : w.ReadFile (w.ParsePath cf.Path) with
      | error x =>
        simp [hp, hx, hr] at h
        exact Or.inr (Or.inr (Or.inr ⟨x, h.symm⟩))
      | ok data =>
        by_cases hj : cf.Typ = ConfigFileTypeJSON
        · rcases hd : w.jsonUnmarshal data d with ⟨i1, _ | x⟩
          · simp [hp, hx, hr, hj, hd] at h
          · simp [hp, hx, hr, hj, hd] at h
            exact Or.inr (Or.inr (Or.inr ⟨x, h.symm⟩))
        · by_cases ht : cf.Typ = ConfigFileTypeTOML
          · rcases hd : w.tomlUnmarshal data d with ⟨i1, _ | x⟩
            · simp [hp, hx, hr, ht, hd, hTJ] at h
            · simp [hp, hx, hr, ht, hd, hTJ] at h
              exact Or.inr (Or.inr (Or.inr ⟨x, h.symm⟩))
          · by_cases hy : cf.Typ = ConfigFileTypeYAML
            · rcases hd : w.yamlUnmarshal data d with ⟨i1, _ | x⟩
              · simp [hp, hx, hr, hy, hd, hYJ, hYT] at h
              · simp [hp, hx, hr, hy, hd, hYJ, hYT] at h
                exact Or.inr (Or.inr (Or.inr ⟨x, h.symm⟩))
            · simp [hp, hx, hr, hj, ht, hy] at h
              exact Or.inr (Or.inr (Or.inl h.symm))
    · simp [hp, hx] at h
      exact Or.inr (Or.inl h.symm)

/-- On a pointer, of any depth, to a struct, `Load` returns neither of the
two errors of the precondition checks. -/
theorem Load_struct_pointer_errors (w : World) (pf : FloatParser) (t : GoType) (v : Value)
    (opts : Option LoadOptions) (r : LoadResult)
    (h1 : isPtr t = true) (h2 : isStruct (derefType t) = true)
    (h : Load w pf (some (t, v)) opts = .ok r) :
    r.err ≠ some (.New "input arg not ptr") ∧ r.err ≠ some (.New "input not a struct") := by
  rw [(Load_precondition_checks w pf t v opts).2.2 h1 h2, bind_eq_ok] at h
  obtain ⟨d, _, h⟩ := h
  cases h
  have key : ∀ e, (Load.overlays w d opts).err = some e →
      e = .New "config file path empty" ∨ e = .New "config file not found" ∨
      e = .New "file type not impl" ∨ ∃ x, e = .fromCallee x := by
    intro e he
    cases opts with
    | none => cases he
    | some o =>
      cases hcf : o.ConfigFile with
      | none =>
        rw [(Load.overlays_cases w d o).1 hcf] at he
        cases hfe : o.FromEnv <;> simp [hfe] at he
      | some cf =>
        rcases hs : Load.configFile w d cf with ⟨_ | e1, j, cs⟩
        · rw [(Load.overlays_cases w d o).2.2 cf j cs hcf hs] at he
          cases hfe : o.FromEnv <;> simp [hfe] at he
        · rw [(Load.overlays_cases w d o).2.1 cf e1 j cs hcf hs] at he
          cases he
          exact Load.configFile_errors w d cf _ (by rw [hs])
  constructor
  · intro he
    rcases key _ he with h | h | h | ⟨x, h⟩ <;> simp at h
  · intro he
    rcases key _ he with h | h | h | ⟨x, h⟩ <;> simp at h

/-- C12 (defect): `Load(nil, opts)` panics.  `reflect.TypeOf(nil)` is the nil
`reflect.Type` and `t.Kind()` on line 36 dereferences it, so the untyped nil
input is not refused with `input arg not ptr`.  On inputs that are not nil
the checks work: an `int` is refused with `input arg not ptr`, a `*int`
with `input not a struct`, each without any call and with the target as it
was, and the two errors differ. -/
theorem Load_nil_input_panics (w : World) (pf : FloatParser) (opts : Option LoadOptions) :
    Load w pf none opts = .error panicNilDeref ∧
    Load w pf (some (.Int .Int, .int 5)) opts =
      .ok ⟨some (.New "input arg not ptr"), some (.Int .Int, .int 5), []⟩ ∧
    Load w pf (some (.Ptr (.Int .Int), .ptr (.int 5))) opts =
      .ok ⟨some (.New "input not a struct"), some (.Ptr (.Int .Int), .ptr (.int 5)), []⟩ ∧
    GoError.New "input arg not ptr" ≠ GoError.New "input not a struct" :=
  ⟨rfl, rfl, rfl, by decide⟩

/-- C13: layer order.  When `Load` returns nil, the defaults were loaded
into the target and the final target is the environment overlay, if
enabled, of the file overlay, if a file is configured, of the defaulted
target; with nil options it is the defaulted target.  Hence a field the
file overlay sets to `x` holds `x` unless the environment overlay changes
it, a field the environment overlay sets to `x` holds `x`, and a field
neither overlay changes keeps what the defaults gave it. -/
theorem Load_layer_order (w : World) (pf : FloatParser) (i : Interface)
    (opts : Option LoadOptions) (r : LoadResult)
    (h : Load w pf i opts = .ok r) (hnil : r.err = none) :
    ∃ d, LoadDefaultIntoStruct pf i = .ok d ∧
      (opts = none → r.target = d) ∧
      (∀ o, opts = some o →
        r.target =
          Spec.envOverlayIfEnabled w o.FromEnv (Spec.decodeIfConfigured w o.ConfigFile d) ∧
        (o.ConfigFile = none → o.FromEnv = false → r.target = d) ∧
        (∀ k x, fieldOf (Spec.decodeIfConfigured w o.ConfigFile d) k = some x →
          fieldOf (Spec.envOverlayIfEnabled w o.FromEnv
              (Spec.decodeIfConfigured w o.ConfigFile d)) k =
            fieldOf (Spec.decodeIfConfigured w o.ConfigFile d) k →
          fieldOf r.target k = some x) ∧
        (∀ k x, o.FromEnv = true →
          fieldOf (w.envconfigParse (Spec.decodeIfConfigured w o.ConfigFile d)).1 k = some x →
          fieldOf r.target k = some x) ∧
        (∀ k, fieldOf (Spec.decodeIfConfigured w o.ConfigFile d) k = fieldOf d k →
          fieldOf (Spec.envOverlayIfEnabled w o.FromEnv
              (Spec.decodeIfConfigured w o.ConfigFile d)) k =
            fieldOf (Spec.decodeIfConfigured w o.ConfigFile d) k →
          fieldOf r.target k = fieldOf d k)) := by
  rcases Load_ok_cases w pf i opts r h with rfl | rfl | ⟨d, hd, rfl⟩
  · cases hnil
  · cases hnil
  · refine ⟨d, hd, ?_, ?_⟩
    · rintro rfl
      rfl
    · rintro o rfl
      have key : (Load.overlays w d (some o)).target =
          Spec.envOverlayIfEnabled w o.FromEnv (Spec.decodeIfConfigured w o.ConfigFile d) := by
        cases hcf : o.ConfigFile with
        | none =>
          rw [((Load.overlays_cases w d o).1 hcf)]
          cases o.FromEnv <;> rfl
        | some cf =>
          rcases hstep : Load.configFile w d cf with ⟨_ | e, i2, calls⟩
          · have hi2 := (Load.configFile_facts w d cf).2
            rw [hstep] at hi2
            have hi2 : i2 = Spec.decodeIfConfigured w (some cf) d := hi2 rfl
            rw [((Load.overlays_cases w d o).2.2 cf i2 calls hcf hstep), hi2]
            cases o.FromEnv <;> rfl
          · rw [((Load.overlays_cases w d o).2.1 cf e i2 calls hcf hstep)] at hnil
            cases hnil
      refine ⟨key, ?_, ?_, ?_, ?_⟩
      · intro hcf hen
        rw [key, hcf, hen]
        rfl
      · intro k x hx hkeep
        rw [key, hkeep, hx]
      · intro k x hen hx
        rw [key, hen]
        exact hx
      · intro k hfile hkeep
        rw [key, hkeep, hfile]

/-- C13, on the scenario of the specification: with the JSON file alone the
call returns nil with `StrKey = "def value"`, `IntKey = 1000`,
`StrArr = ["arr1"]`; the defaults alone give `IntKey = 0`, and the final
target is the file overlay of the defaulted one. -/
theorem Load_layer_order_witness :
    ∃ d, LoadDefaultIntoStruct noFloat scenarioInput = .ok d ∧
      d = scenarioTarget 0 ∧
      scenarioTarget 1000 =
        Spec.envOverlayIfEnabled scenarioWorld false
          (Spec.decodeIfConfigured scenarioWorld (scenarioOptions false).ConfigFile d) := by
  obtain ⟨d, hd, _, hsome⟩ := Load_layer_order scenarioWorld noFloat scenarioInput
    (some (scenarioOptions false))
    ⟨none, scenarioTarget 1000,
      [.LoadDefaultIntoStruct, .ParsePath "./test/config.json",
        .CheckExists "./test/config.json", .ReadFile "./test/config.json",
        .jsonUnmarshal [123, 125]]⟩ rfl rfl
  have hd0 : LoadDefaultIntoStruct noFloat scenarioInput = .ok (scenarioTarget 0) := rfl
  rw [hd0] at hd
  cases hd
  exact ⟨_, rfl, rfl, (hsome _ rfl).1⟩

/-- C14: a call that passes the checks and fails in the file block before
decoding returns the error of that step and leaves the target as
`LoadDefaultIntoStruct` made it: an empty path gives `config file path
empty`, a path that does not exist `config file not found`, a failed read
the error of `ioutil.ReadFile`; no decoder and no binder is called. -/
theorem Load_file_failure_keeps_defaults (w : World) (pf : FloatParser) (t : GoType)
    (v : Value) (d : Interface) (o : LoadOptions) (cf : ConfigFile)
    (h1 : isPtr t = true) (h2 : isStruct (derefType t) = true)
    (hd : LoadDefaultIntoStruct pf (some (t, v)) = .ok d) (hcf : o.ConfigFile = some cf) :
    (cf.Path = "" →
      Load w pf (some (t, v)) (some o) =
        .ok ⟨some (.New "config file path empty"), d, [.LoadDefaultIntoStruct]⟩) ∧
    (cf.Path ≠ "" → w.CheckExists (w.ParsePath cf.Path) = false →
      Load w pf (some (t, v)) (some o) =
        .ok ⟨some (.New "config file not found"), d,
          [.LoadDefaultIntoStruct, .ParsePath cf.Path,
            .CheckExists (w.ParsePath cf.Path)]⟩) ∧
    (∀ e, cf.Path ≠ "" → w.CheckExists (w.ParsePath cf.Path) = true →
      w.ReadFile (w.ParsePath cf.Path) = .error e →
      Load w pf (some (t, v)) (some o) =
        .ok ⟨some (.fromCallee e), d,
          [.LoadDefaultIntoStruct, .ParsePath cf.Path,
            .CheckExists (w.ParsePath cf.Path), .ReadFile (w.ParsePath cf.Path)]⟩) := by
  have hload : Load w pf (some (t, v)) (some o) = .ok (Load.overlays w d (some o)) := by
    rw [(Load_precondition_checks w pf t v (some o)).2.2 h1 h2, hd]
    rfl
  refine ⟨fun hp => ?_, fun hp hx => ?_, fun e hp hx hr => ?_⟩
  · have hstep : Load.configFile w d cf =
        (some (.New "config file path empty"), d, []) := by
      simp [Load.configFile, hp]
    rw [hload, (Load.overlays_cases w d o).2.1 cf _ d [] hcf hstep]
  · have hstep : Load.configFile w d cf =
        (some (.New "config file not found"), d,
          [.ParsePath cf.Path, .CheckExists (w.ParsePath cf.Path)]) := by
      simp [Load.configFile, hp, hx]
    rw [hload, (Load.overlays_cases w d o).2.1 cf _ d _ hcf hstep]
  · have hstep : Load.configFile w d cf =
        (some (.fromCallee e), d,
          [.ParsePath cf.Path, .CheckExists (w.ParsePath cf.Path),
            .ReadFile (w.ParsePath cf.Path)]) := by
      simp [Load.configFile, hp, hx, hr]
    rw [hload, (Load.overlays_cases w d o).2.1 cf _ d _ hcf hstep]

/-- C14, in the world of the scenario with the environment overlay enabled:
the empty path, the path `./missing` and the unreadable `./locked` each
return their error with the target at its defaults (`IntKey = 0`). -/
theorem Load_file_failure_keeps_defaults_witness :
    Load scenarioWorld noFloat scenarioInput (some ⟨some ⟨ConfigFileTypeJSON, ""⟩, true⟩) =
      .ok ⟨some (.New "config file path empty"), scenarioTarget 0,
        [.LoadDefaultIntoStruct]⟩ ∧
    Load scenarioWorld noFloat scenarioInput
        (some ⟨some ⟨ConfigFileTypeJSON, "./missing"⟩, true⟩) =
      .ok ⟨some (.New "config file not found"), scenarioTarget 0,
        [.LoadDefaultIntoStruct, .ParsePath "./missing", .CheckExists "./missing"]⟩ ∧
    Load scenarioWorld noFloat scenarioInput
        (some ⟨some ⟨ConfigFileTypeJSON, "./locked"⟩, true⟩) =
      .ok ⟨some (.fromCallee "read: permission denied"), scenarioTarget 0,
        [.LoadDefaultIntoStruct, .ParsePath "./locked", .CheckExists "./locked",
          .ReadFile "./locked"]⟩ :=
  ⟨(Load_file_failure_keeps_defaults scenarioWorld noFloat (.Ptr recConfig)
      (.ptr (zeroValue recConfig)) (scenarioTarget 0)
      ⟨some ⟨ConfigFileTypeJSON, ""⟩, true⟩ ⟨ConfigFileTypeJSON, ""⟩ rfl rfl rfl rfl).1 rfl,
    (Load_file_failure_keeps_defaults scenarioWorld noFloat (.Ptr recConfig)
      (.ptr (zeroValue recConfig)) (scenarioTarget 0)
      ⟨some ⟨ConfigFileTypeJSON, "./missing"⟩, true⟩ ⟨ConfigFileTypeJSON, "./missing"⟩
      rfl rfl rfl rfl).2.1 (by decide) rfl,
    (Load_file_failure_keeps_defaults scenarioWorld noFloat (.Ptr recConfig)
      (.ptr (zeroValue recConfig)) (scenarioTarget 0)
      ⟨some ⟨ConfigFileTypeJSON, "./locked"⟩, true⟩ ⟨ConfigFileTypeJSON, "./locked"⟩
      rfl rfl rfl rfl).2.2 _ (by decide) rfl rfl⟩

/-- The result of the file block when the file has been read: the decoder of
the declared format is called once on the bytes read and its error, if any,
is the error of the block; a format that is none of the three gives `file
type not impl` without a decoder call and with the target as it was. -/
theorem Load.configFile_dispatch (w : World) (d : Interface) (cf : ConfigFile) (data : Bytes)
    (hp : cf.Path ≠ "") (hx : w.CheckExists (w.ParsePath cf.Path) = true)
    (hr : w.ReadFile (w.ParsePath cf.Path) = .ok data) :
    (cf.Typ = ConfigFileTypeJSON →
      Load.configFile w d cf =
        (Option.map GoError.fromCallee (w.jsonUnmarshal data d).2, (w.jsonUnmarshal data d).1,
          [.ParsePath cf.Path, .CheckExists (w.ParsePath cf.Path),
            .ReadFile (w.ParsePath cf.Path), .jsonUnmarshal data])) ∧
    (cf.Typ = ConfigFileTypeYAML →
      Load.configFile w d cf =
        (Option.map GoError.fromCallee (w.yamlUnmarshal data d).2, (w.yamlUnmarshal data d).1,
          [.ParsePath cf.Path, .CheckExists (w.ParsePath cf.Path),
            .ReadFile (w.ParsePath cf.Path), .yamlUnmarshal data])) ∧
    (cf.Typ = ConfigFileTypeTOML →
      Load.configFile w d cf =
        (Option.map GoError.fromCallee (w.tomlUnmarshal data d).2, (w.tomlUnmarshal data d).1,
          [.ParsePath cf.Path, .CheckExists (w.ParsePath cf.Path),
            .ReadFile (w.ParsePath cf.Path), .tomlUnmarshal data])) ∧
    (cf.Typ ≠ ConfigFileTypeJSON → cf.Typ ≠ ConfigFileTypeYAML →
      cf.Typ ≠ ConfigFileTypeTOML →
      Load.configFile w d cf =
        (some (.New "file type not impl"), d,
          [.ParsePath cf.Path, .CheckExists (w.ParsePath cf.Path),
            .ReadFile (w.ParsePath cf.Path)])) := by
  have hTJ : ConfigFileTypeTOML ≠ ConfigFileTypeJSON := by decide
  have hYJ : ConfigFileTypeYAML ≠ ConfigFileTypeJSON := by decide
  have hYT : ConfigFileTypeYAML ≠ ConfigFileTypeTOML := by decide
  refine ⟨fun hj => ?_, fun hy => ?_, fun ht => ?_, fun hj hy ht => ?_⟩
  · rcases hd : w.jsonUnmarshal data d with ⟨i1, _ | e⟩ <;>
      simp [Load.configFile, hp, hx, hr, hj, hd]
  · rcases hd : w.yamlUnmarshal data d with ⟨i1, _ | e⟩ <;>
      simp [Load.configFile, hp, hx, hr, hy, hd, hYJ, hYT]
  · rcases hd : w.tomlUnmarshal data d with ⟨i1, _ | e⟩ <;>
      simp [Load.configFile, hp, hx, hr, ht, hd, hTJ]
  · simp [Load.configFile, hp, hx, hr, hj, hy, ht]

/-- The error and the decoder calls of a call of `Load` that got to the file
block, in terms of the outcome of the block. -/
theorem Load.overlays_of_step (w : World) (d : Interface) (o : LoadOptions) (cf : ConfigFile)
    (err : Option GoError) (i2 : Interface) (calls : List Call)
    (hcf : o.ConfigFile = some cf) (hstep : Load.configFile w d cf = (err, i2, calls)) :
    (Load.overlays w d (some o)).err = err ∧
    (Load.overlays w d (some o)).calls.filter Call.isDecoder = calls.filter Call.isDecoder ∧
    (err ≠ none → (Load.overlays w d (some o)).target = i2 ∧
      (Load.overlays w d (some o)).calls = .LoadDefaultIntoStruct :: calls) := by
  cases err with
  | none =>
    rw [(Load.overlays_cases w d o).2.2 cf i2 calls hcf hstep]
    cases o.FromEnv <;> simp [Call.isDecoder, List.filter_append]
  | some e =>
    rw [(Load.overlays_cases w d o).2.1 cf e i2 calls hcf hstep]
    simp [Call.isDecoder]

/-- C15: on a pointer to a record, with a file source whose path is not
empty, exists and is read as `data`, the call returns; its error is `file
type not impl` exactly when the declared format is none of JSON, YAML and
TOML, and then no decoder is called and the target is as
`LoadDefaultIntoStruct` made it; when the format is one of the three, the
decoder calls made are the one call of the decoder of that format on `data`
and the error returned is the error of that decoder, as it is. -/
theorem Load_format_dispatch (w : World) (pf : FloatParser) (t : GoType) (v : Value)
    (d : Interface) (o : LoadOptions) (cf : ConfigFile) (data : Bytes)
    (h1 : isPtr t = true) (h2 : isStruct (derefType t) = true)
    (hd : LoadDefaultIntoStruct pf (some (t, v)) = .ok d) (hcf : o.ConfigFile = some cf)
    (hp : cf.Path ≠ "") (hx : w.CheckExists (w.ParsePath cf.Path) = true)
    (hr : w.ReadFile (w.ParsePath cf.Path) = .ok data) :
    ∃ r, Load w pf (some (t, v)) (some o) = .ok r ∧
      (r.err = some (.New "file type not impl") ↔
        (cf.Typ ≠ ConfigFileTypeJSON ∧ cf.Typ ≠ ConfigFileTypeYAML ∧
          cf.Typ ≠ ConfigFileTypeTOML)) ∧
      (cf.Typ ≠ ConfigFileTypeJSON → cf.Typ ≠ ConfigFileTypeYAML →
        cf.Typ ≠ ConfigFileTypeTOML →
        r.target = d ∧ r.calls.filter Call.isDecoder = []) ∧
      (cf.Typ = ConfigFileTypeJSON →
        r.calls.filter Call.isDecoder = [.jsonUnmarshal data] ∧
        r.err = Option.map GoError.fromCallee (w.jsonUnmarshal data d).2) ∧
      (cf.Typ = ConfigFileTypeYAML →
        r.calls.filter Call.isDecoder = [.yamlUnmarshal data] ∧
        r.err = Option.map GoError.fromCallee (w.yamlUnmarshal data d).2) ∧
      (cf.Typ = ConfigFileTypeTOML →
        r.calls.filter Call.isDecoder = [.tomlUnmarshal data] ∧
        r.err = Option.map GoError.fromCallee (w.tomlUnmarshal data d).2) := by
  have hload : Load w pf (some (t, v)) (some o) = .ok (Load.overlays w d (some o)) := by
    rw [(Load_precondition_checks w pf t v (some o)).2.2 h1 h2, hd]
    rfl
  obtain ⟨hJ, hY, hT, hN⟩ := Load.configFile_dispatch w d cf data hp hx hr
  have hne : ∀ x : Option String,
      Option.map GoError.fromCallee x ≠ some (.New "file type not impl") := by
    intro x hx
    cases x <;> simp at hx
  refine ⟨_, hload, ?_, ?_, ?_, ?_, ?_⟩
  · constructor
    · intro herr
      refine ⟨fun hj => ?_, fun hy => ?_, fun ht => ?_⟩
      · rw [(Load.overlays_of_step w d o cf _ _ _ hcf (hJ hj)).1] at herr
        exact hne _ herr
      · rw [(Load.overlays_of_step w d o cf _ _ _ hcf (hY hy)).1] at herr
        exact hne _ herr
      · rw [(Load.overlays_of_step w d o cf _ _ _ hcf (hT ht)).1] at herr
        exact hne _ herr
    · rintro ⟨hj, hy, ht⟩
      exact (Load.overlays_of_step w d o cf _ _ _ hcf (hN hj hy ht)).1
  · intro hj hy ht
    obtain ⟨_, hdec, hrest⟩ := Load.overlays_of_step w d o cf _ _ _ hcf (hN hj hy ht)
    exact ⟨(hrest (by simp)).1, by rw [hdec]; simp [Call.isDecoder]⟩
  · intro hj
    obtain ⟨herr, hdec, _⟩ := Load.overlays_of_step w d o cf _ _ _ hcf (hJ hj)
    exact ⟨by rw [hdec]; simp [Call.isDecoder], herr⟩
  · intro hy
    obtain ⟨herr, hdec, _⟩ := Load.overlays_of_step w d o cf _ _ _ hcf (hY hy)
    exact ⟨by rw [hdec]; simp [Call.isDecoder], herr⟩
  · intro ht
    obtain ⟨herr, hdec, _⟩ := Load.overlays_of_step w d o cf _ _ _ hcf (hT ht)
    exact ⟨by rw [hdec]; simp [Call.isDecoder], herr⟩

/-- C15, in the world of the scenario with the environment overlay enabled:
the format 7 gives `file type not impl`, no decoder call and the target at
its defaults; the format TOML calls the TOML decoder once on the bytes read
and returns its error. -/
theorem Load_format_dispatch_witness :
    (∃ r, Load scenarioWorld noFloat scenarioInput
        (some ⟨some ⟨7, "./test/config.json"⟩, true⟩) = .ok r ∧
      r.err = some (.New "file type not impl") ∧ r.target = scenarioTarget 0 ∧
      r.calls.filter Call.isDecoder = []) ∧
    (∃ r, Load scenarioWorld noFloat scenarioInput
        (some ⟨some ⟨ConfigFileTypeTOML, "./test/config.json"⟩, true⟩) = .ok r ∧
      r.calls.filter Call.isDecoder = [.tomlUnmarshal [123, 125]] ∧
      r.err = some (.fromCallee "toml: parse error")) := by
  constructor
  · obtain ⟨r, hr, hiff, hnone, _⟩ := Load_format_dispatch scenarioWorld noFloat
      (.Ptr recConfig) (.ptr (zeroValue recConfig)) (scenarioTarget 0)
      ⟨some ⟨7, "./test/config.json"⟩, true⟩ ⟨7, "./test/config.json"⟩ [123, 125]
      rfl rfl rfl rfl (by decide) rfl rfl
    exact ⟨r, hr, hiff.2 ⟨by decide, by decide, by decide⟩,
      (hnone (by decide) (by decide) (by decide)).1,
      (hnone (by decide) (by decide) (by decide)).2⟩
  · obtain ⟨r, hr, _, _, _, _, htoml⟩ := Load_format_dispatch scenarioWorld noFloat
      (.Ptr recConfig) (.ptr (zeroValue recConfig)) (scenarioTarget 0)
      ⟨some ⟨ConfigFileTypeTOML, "./test/config.json"⟩, true⟩
      ⟨ConfigFileTypeTOML, "./test/config.json"⟩ [123, 125]
      rfl rfl rfl rfl (by decide) rfl rfl
    exact ⟨r, hr, (htoml rfl).1, (htoml rfl).2⟩

/-- C16: an error of the file block halts `Load`.  On a pointer to a record,
when the file block ends with the error `e` (one of `config file path
empty`, `config file not found`, `file type not impl`, or the error of
`ioutil.ReadFile` or of a decoder) and leaves the target as `i2`, the call
returns `e` with the target `i2`, whether the environment overlay is enabled
or not, and the binder is not among the calls made.  More generally no call
of `Load` that returns an error has called the binder. -/
theorem Load_file_error_halts (w : World) (pf : FloatParser) (t : GoType) (v : Value)
    (d : Interface) (o : LoadOptions) (cf : ConfigFile) (e : GoError) (i2 : Interface)
    (calls : List Call)
    (h1 : isPtr t = true) (h2 : isStruct (derefType t) = true)
    (hd : LoadDefaultIntoStruct pf (some (t, v)) = .ok d) (hcf : o.ConfigFile = some cf)
    (hstep : Load.configFile w d cf = (some e, i2, calls)) :
    Load w pf (some (t, v)) (some o) = .ok ⟨some e, i2, .LoadDefaultIntoStruct :: calls⟩ ∧
    Call.envconfigParse ∉ Call.LoadDefaultIntoStruct :: calls ∧
    (e = .New "config file path empty" ∨ e = .New "config file not found" ∨
      e = .New "file type not impl" ∨ ∃ x, e = .fromCallee x) ∧
    (∀ (i : Interface) (opts : Option LoadOptions) (r : LoadResult),
      Load w pf i opts = .ok r → r.err ≠ none → Call.envconfigParse ∉ r.calls) := by
  have hload : Load w pf (some (t, v)) (some o) = .ok (Load.overlays w d (some o)) := by
    rw [(Load_precondition_checks w pf t v (some o)).2.2 h1 h2, hd]
    rfl
  have hnot : ∀ (d : Interface) (cf : ConfigFile),
      Call.envconfigParse ∉ Call.LoadDefaultIntoStruct :: (Load.configFile w d cf).2.2 := by
    intro d cf hmem
    rcases List.mem_cons.1 hmem with hh | hh
    · cases hh
    · exact (Load.configFile_facts w d cf).1 hh
  refine ⟨?_, ?_, ?_, ?_⟩
  · rw [hload, (Load.overlays_cases w d o).2.1 cf e i2 calls hcf hstep]
  · have := hnot d cf
    rw [hstep] at this
    exact this
  · exact Load.configFile_errors w d cf e (by rw [hstep])
  · intro i opts r hr herr
    rcases Load_ok_cases w pf i opts r hr with rfl | rfl | ⟨d1, _, rfl⟩
    · simp
    · simp
    · cases opts with
      | none => exact absurd rfl herr
      | some o1 =>
        cases hcf1 : o1.ConfigFile with
        | none =>
          rw [(Load.overlays_cases w d1 o1).1 hcf1] at herr
          cases hfe : o1.FromEnv <;> simp [hfe] at herr
        | some cf1 =>
          rcases hs : Load.configFile w d1 cf1 with ⟨_ | e1, j, cs⟩
          · rw [(Load.overlays_cases w d1 o1).2.2 cf1 j cs hcf1 hs] at herr
            cases hfe : o1.FromEnv <;> simp [hfe] at herr
          · rw [(Load.overlays_cases w d1 o1).2.1 cf1 e1 j cs hcf1 hs]
            have := hnot d1 cf1
            rw [hs] at this
            exact this

/-- C16, in the world of the scenario with the environment overlay enabled
and the TOML format: the decoder's error is returned, and the binder, which
would have set `IntKey` to 2000, is not called. -/
theorem Load_file_error_halts_witness :
    Load scenarioWorld noFloat scenarioInput
        (some ⟨some ⟨ConfigFileTypeTOML, "./test/config.json"⟩, true⟩) =
      .ok ⟨some (.fromCallee "toml: parse error"), scenarioTarget 0,
        .LoadDefaultIntoStruct ::
          [.ParsePath "./test/config.json", .CheckExists "./test/config.json",
            .ReadFile "./test/config.json", .tomlUnmarshal [123, 125]]⟩ :=
  (Load_file_error_halts scenarioWorld noFloat (.Ptr recConfig) (.ptr (zeroValue recConfig))
    (scenarioTarget 0) ⟨some ⟨ConfigFileTypeTOML, "./test/config.json"⟩, true⟩
    ⟨ConfigFileTypeTOML, "./test/config.json"⟩ _ _ _ rfl rfl rfl rfl rfl).1

/-- C17: the error of the environment binder is dropped.  The error `Load`
returns, and whether it panics, do not depend on the binder at all: with any
other binder in its place the outcome is the same as far as the error goes.
On a pointer to a record with the environment overlay enabled, when the
defaults are loaded and the file block, if any, ends without an error
leaving the target as `i2`, the call returns nil with the target as the
binder leaves it, whatever the binder returns. -/
theorem Load_env_error_swallowed (w : World) (pf : FloatParser) (t : GoType) (v : Value)
    (d : Interface) (o : LoadOptions) (i2 : Interface) (calls : List Call)
    (h1 : isPtr t = true) (h2 : isStruct (derefType t) = true)
    (hd : LoadDefaultIntoStruct pf (some (t, v)) = .ok d) (henv : o.FromEnv = true)
    (hstep : (match o.ConfigFile with
      | none => ((none : Option GoError), d, ([] : List Call))
      | some cf => Load.configFile w d cf) = (none, i2, calls)) :
    Load w pf (some (t, v)) (some o) =
      .ok ⟨none, (w.envconfigParse i2).1,
        .LoadDefaultIntoStruct :: (calls ++ [.envconfigParse])⟩ ∧
    (∀ (binder : Interface → Interface × Option String) (i : Interface)
        (opts : Option LoadOptions),
      Except.map LoadResult.err (Load { w with envconfigParse := binder } pf i opts) =
        Except.map LoadResult.err (Load w pf i opts)) := by
  have hload : Load w pf (some (t, v)) (some o) = .ok (Load.overlays w d (some o)) := by
    rw [(Load_precondition_checks w pf t v (some o)).2.2 h1 h2, hd]
    rfl
  constructor
  · rw [hload]
    simp only [Load.overlays, hstep, henv]
    rfl
  · intro binder i opts
    have hov : ∀ (d1 : Interface),
        (Load.overlays { w with envconfigParse := binder } d1 opts).err =
          (Load.overlays w d1 opts).err := by
      intro d1
      cases opts with
      | none => rfl
      | some o1 =>
        have hsame : ∀ cf, Load.configFile { w with envconfigParse := binder } d1 cf =
            Load.configFile w d1 cf := fun _ => rfl
        cases hcf1 : o1.ConfigFile with
        | none =>
          simp only [Load.overlays, hcf1]
          cases o1.FromEnv <;> rfl
        | some cf1 =>
          rcases hs : Load.configFile w d1 cf1 with ⟨_ | e1, j, cs⟩
          · simp only [Load.overlays, hcf1, hsame, hs]
            cases o1.FromEnv <;> rfl
          · simp only [Load.overlays, hcf1, hsame, hs]
    cases i with
    | none => rfl
    | some tv =>
      obtain ⟨t1, v1⟩ := tv
      by_cases g1 : isPtr t1 = true
      · by_cases g2 : isStruct (derefType t1) = true
        · rw [(Load_precondition_checks _ pf t1 v1 opts).2.2 g1 g2,
            (Load_precondition_checks w pf t1 v1 opts).2.2 g1 g2]
          cases LoadDefaultIntoStruct pf (some (t1, v1)) with
          | error e => rfl
          | ok d1 =>
            show Except.ok _ = Except.ok _
            rw [hov d1]
        · rw [(Load_precondition_checks _ pf t1 v1 opts).2.1 g1 (by simpa using g2),
            (Load_precondition_checks w pf t1 v1 opts).2.1 g1 (by simpa using g2)]
      · rw [(Load_precondition_checks _ pf t1 v1 opts).1 (by simpa using g1),
          (Load_precondition_checks w pf t1 v1 opts).1 (by simpa using g1)]

/-- C17, on the scenario of the specification with the environment overlay
enabled: the binder sets `IntKey` to 2000 over the 1000 of the file and
returns an error, and `Load` returns nil. -/
theorem Load_env_error_swallowed_witness :
    (scenarioWorld.envconfigParse (scenarioTarget 1000)).2 =
      some "envconfig: parse failure" ∧
    Load scenarioWorld noFloat scenarioInput (some (scenarioOptions true)) =
      .ok ⟨none, scenarioTarget 2000,
        .LoadDefaultIntoStruct ::
          ([.ParsePath "./test/config.json", .CheckExists "./test/config.json",
            .ReadFile "./test/config.json", .jsonUnmarshal [123, 125]] ++
            [.envconfigParse])⟩ :=
  ⟨rfl,
    (Load_env_error_swallowed scenarioWorld noFloat (.Ptr recConfig)
      (.ptr (zeroValue recConfig)) (scenarioTarget 0) (scenarioOptions true)
      (scenarioTarget 1000) _ rfl rfl rfl rfl rfl).1⟩

/-! ## Booleans and strings -/

/-- `ParseBool` against the two lists of the specification. -/
theorem ParseBool_spec (s : String) :
    (s ∈ Spec.truthy → ParseBool s = (true, none)) ∧
    (s ∈ Spec.falsy → ParseBool s = (false, none)) ∧
    (s ∉ Spec.truthy → s ∉ Spec.falsy → ParseBool s = (false, some .ErrSyntax)) := by
  refine ⟨fun h => ?_, fun h => ?_, fun h1 h2 => ?_⟩
  · simp only [Spec.truthy, List.mem_cons, List.mem_singleton, List.not_mem_nil, or_false] at h
    simp only [ParseBool, h, if_true]
  · have hnt : ¬ (s = "1" ∨ s = "t" ∨ s = "T" ∨ s = "TRUE" ∨ s = "true" ∨ s = "True") := by
      simp only [Spec.falsy, List.mem_cons, List.mem_singleton, List.not_mem_nil,
        or_false] at h
      rcases h with h | h | h | h | h | h <;> subst h <;> decide
    simp only [Spec.falsy, List.mem_cons, List.mem_singleton, List.not_mem_nil, or_false] at h
    simp only [ParseBool, hnt, h, if_true, if_false]
  · simp only [Spec.truthy, List.mem_cons, List.mem_singleton, List.not_mem_nil,
      or_false] at h1
    simp only [Spec.falsy, List.mem_cons, List.mem_singleton, List.not_mem_nil, or_false] at h2
    simp only [ParseBool, h1, h2, if_false]

/-- C20: on a settable boolean slot `procValue` stores true when the string
is one of "1", "t", "T", "TRUE", "true", "True", stores false when it is one
of "0", "f", "F", "FALSE", "false", "False", and leaves the slot as it was
for every other string; on a settable string slot it stores the string
itself, whatever it is. -/
theorem procValue_bool_and_string (pf : FloatParser) (v : RValue) (s : String)
    (hset : v.CanSet = true) :
    (v.typ = .Bool →
      (s ∈ Spec.truthy → procValue pf (some v) s = some { v with val := .bool true }) ∧
      (s ∈ Spec.falsy → procValue pf (some v) s = some { v with val := .bool false }) ∧
      (s ∉ Spec.truthy → s ∉ Spec.falsy → procValue pf (some v) s = some v)) ∧
    (v.typ = .String → procValue pf (some v) s = some { v with val := .str s }) := by
  obtain ⟨ht, hf, hn⟩ := ParseBool_spec s
  refine ⟨fun hk => ⟨fun h => ?_, fun h => ?_, fun h1 h2 => ?_⟩, fun hk => ?_⟩
  · simp only [procValue, hset, hk, ht h]
    rfl
  · simp only [procValue, hset, hk, hf h]
    rfl
  · simp only [procValue, hset, hk, hn h1 h2]
    rfl
  · simp only [procValue, hset, hk]
    rfl

/-- C20, at a boolean slot holding false and a string slot holding `"old"`:
`"T"` stores true; `"yes"`, the empty string and `"tRuE"` leave the
boolean; at a boolean slot holding true, `"0"` stores false; the empty
string is stored in the string slot. -/
theorem procValue_bool_and_string_witness :
    procValue noFloat (some ⟨.Bool, .bool false, true, false⟩) "T" =
      some ⟨.Bool, .bool true, true, false⟩ ∧
    procValue noFloat (some ⟨.Bool, .bool true, true, false⟩) "0" =
      some ⟨.Bool, .bool false, true, false⟩ ∧
    procValue noFloat (some ⟨.Bool, .bool true, true, false⟩) "yes" =
      some ⟨.Bool, .bool true, true, false⟩ ∧
    procValue noFloat (some ⟨.Bool, .bool true, true, false⟩) "" =
      some ⟨.Bool, .bool true, true, false⟩ ∧
    procValue noFloat (some ⟨.Bool, .bool true, true, false⟩) "tRuE" =
      some ⟨.Bool, .bool true, true, false⟩ ∧
    procValue noFloat (some ⟨.String, .str "old", true, false⟩) "" =
      some ⟨.String, .str "", true, false⟩ :=
  ⟨((procValue_bool_and_string noFloat ⟨.Bool, .bool false, true, false⟩ "T" rfl).1 rfl).1
      (by decide),
    ((procValue_bool_and_string noFloat ⟨.Bool, .bool true, true, false⟩ "0" rfl).1 rfl).2.1
      (by decide),
    ((procValue_bool_and_string noFloat ⟨.Bool, .bool true, true, false⟩ "yes" rfl).1
      rfl).2.2 (by decide) (by decide),
    ((procValue_bool_and_string noFloat ⟨.Bool, .bool true, true, false⟩ "" rfl).1
      rfl).2.2 (by decide) (by decide),
    ((procValue_bool_and_string noFloat ⟨.Bool, .bool true, true, false⟩ "tRuE" rfl).1
      rfl).2.2 (by decide) (by decide),
    (procValue_bool_and_string noFloat ⟨.String, .str "old", true, false⟩ "" rfl).2 rfl⟩

/-! ## The frame of the walker -/

/-- On a slot that is neither scalar, slice nor struct (a pointer, a map, an
array, ...) `procValue` does nothing. -/
theorem procSlot_not_scalar (pf : FloatParser) (ft : GoType) (v : Value) (a ro : Bool)
    (s : String) (hplain : isPlain ft = true) (hns : isScalar ft = false) :
    procSlot pf ⟨ft, v, a, ro⟩ s = v := by
  cases ft <;> first
    | (simp [isScalar] at hns; done)
    | (simp [isPlain] at hplain; done)
    | (cases a <;> cases ro <;> rfl)

/-- The first field after a completed step of the loop: it holds what it
held, or it is a scalar with a `default` tag, a slice of declared length at
least one, or a nested record. -/
theorem loop_head_frame (pf : FloatParser) (f : StructField) (ft : GoType) (rest : Fields)
    (addr : Bool) (v : Value) (vs out : List Value)
    (h : LoadDefaultIntoStruct.loop pf (.cons f ft rest) addr (v :: vs) = .ok out) :
    out[0]? = some v ∨
      (isScalar ft = true ∧ StructTag.Lookup f.Tag "default" ≠ none) ∨
      (∃ et, ft = .Slice et ∧ 1 ≤ minLen f) ∨ (∃ sfs, ft = .Struct sfs) := by
  rcases shape_cases ft with ⟨et, rfl⟩ | ⟨sfs, rfl⟩ | hplain
  · by_cases hlen : minLen f < 1
    · rw [loop_short_slice pf f et rest addr v vs hlen] at h
      cases h
      exact Or.inl (by simp)
    · exact Or.inr (Or.inr (Or.inl ⟨et, rfl, by omega⟩))
  · exact Or.inr (Or.inr (Or.inr ⟨sfs, rfl⟩))
  · rw [loop_plain pf f ft rest addr v vs hplain, bind_eq_ok] at h
    obtain ⟨vs2, _, h⟩ := h
    cases h
    cases htag : StructTag.Lookup f.Tag "default" with
    | none => exact Or.inl (by simp [procTagged])
    | some s =>
      cases hsc : isScalar ft with
      | true => exact Or.inr (Or.inl ⟨rfl, by simp⟩)
      | false =>
        left
        simp [procTagged, procSlot_not_scalar pf ft v addr (!f.Exported) s hplain hsc]

/-- The frame of the field loop: in a completed run, the field at any
position holds what it held, or it is a scalar with a `default` tag, a slice
of declared length at least one, or a nested record. -/
theorem loop_frame (pf : FloatParser) (fs : Fields) :
    ∀ (addr : Bool) (vs out : List Value) (k : Nat) (f : StructField) (ft : GoType),
      (Fields.toList fs)[k]? = some (f, ft) →
      LoadDefaultIntoStruct.loop pf fs addr vs = .ok out →
      out[k]? = vs[k]? ∨
        (isScalar ft = true ∧ StructTag.Lookup f.Tag "default" ≠ none) ∨
        (∃ et, ft = .Slice et ∧ 1 ≤ minLen f) ∨ (∃ sfs, ft = .Struct sfs) := by
  induction fs using Fields.induction_on with
  | hnil =>
    intro addr vs out k f ft hf
    simp [Fields.toList] at hf
  | hcons g gt rest ih =>
    intro addr vs out k f ft hf h
    cases vs with
    | nil =>
      rw [loop_no_values] at h
      cases h
      exact Or.inl rfl
    | cons v vs =>
      cases k with
      | zero =>
        simp only [Fields.toList, List.getElem?_cons_zero, Option.some.injEq,
          Prod.mk.injEq] at hf
        obtain ⟨rfl, rfl⟩ := hf
        rcases loop_head_frame pf g gt rest addr v vs out h with h0 | h0
        · exact Or.inl (by simpa using h0)
        · exact Or.inr h0
      | succ k =>
        simp only [Fields.toList, List.getElem?_cons_succ] at hf
        rcases loop_cons_ok pf g gt rest addr v vs out h with rfl | ⟨v1, vs1, rfl, hrest⟩
        · exact Or.inl rfl
        · simpa using ih addr vs vs1 k f ft hf hrest

/-- A value whose type does not lead to a struct through pointers is left
as it is by the walker. -/
theorem run_not_record (pf : FloatParser) (t : GoType) :
    isStruct (derefType t) = false →
      ∀ (addr : Bool) (v : Value), LoadDefaultIntoStruct.run pf t addr v = .ok v := by
  refine GoType.rec
    (motive_1 := fun t => isStruct (derefType t) = false →
      ∀ (addr : Bool) (v : Value), LoadDefaultIntoStruct.run pf t addr v = .ok v)
    (motive_2 := fun _ => True) ?_ ?_ ?_ ?_ ?_ ?_ ?_ ?_ ?_ ?_ ?_ ?_ t
  · intro _ _ _; rfl
  · intro _ _ _; rfl
  · intro _ _ _ _; rfl
  · intro _ _ _ _; rfl
  · intro _ _ _; rfl
  · intro _ _ _; rfl
  · intro _ _ _ _ _; rfl
  · intro fs _ h
    simp [derefType, isStruct] at h
  · intro e ih h addr v
    have he : isStruct (derefType e) = false := by simpa [derefType] using h
    cases v with
    | ptr x =>
      rw [run_ptr, ih he true x]
      rfl
    | _ => rfl
  · intro _ _ _ _ _; rfl
  · trivial
  · intro _ _ _ _ _; trivial

/-- C18: the frame of the walker.  In every completed run of the field loop
of a record, at the top or nested, addressable or not, the field at any
position holds exactly what it held before unless it is a scalar with a
`default` tag, a slice of declared length at least one, or a nested record;
so a scalar without a `default` tag is unchanged, and so is a field that is
none of scalar, nested record and slice (a pointer, a map, ...), with or
without a `default` tag.  A completed call on a pointer to a record or on a
record by value is such a run.  An input that is not a record, nor a pointer
leading to one, is returned as it is, and so is the nil interface. -/
theorem walker_frame (pf : FloatParser) (fs : Fields) (vs : List Value) (k : Nat)
    (f : StructField) (ft : GoType) (hf : (Fields.toList fs)[k]? = some (f, ft)) :
    (∀ (addr : Bool) (out : List Value),
      LoadDefaultIntoStruct.loop pf fs addr vs = .ok out →
      (out[k]? = vs[k]? ∨
        (isScalar ft = true ∧ StructTag.Lookup f.Tag "default" ≠ none) ∨
        (∃ et, ft = .Slice et ∧ 1 ≤ minLen f) ∨ (∃ sfs, ft = .Struct sfs)) ∧
      (isScalar ft = true → StructTag.Lookup f.Tag "default" = none → out[k]? = vs[k]?) ∧
      (isScalar ft = false → isPlain ft = true → out[k]? = vs[k]?)) ∧
    (∀ j : Interface,
      LoadDefaultIntoStruct pf (some (.Ptr (.Struct fs), .ptr (.struct vs))) = .ok j →
      ∃ out, j = some (.Ptr (.Struct fs), .ptr (.struct out)) ∧
        LoadDefaultIntoStruct.loop pf fs true vs = .ok out) ∧
    (∀ j : Interface,
      LoadDefaultIntoStruct pf (some (.Struct fs, .struct vs)) = .ok j →
      ∃ out, j = some (.Struct fs, .struct out) ∧
        LoadDefaultIntoStruct.loop pf fs false vs = .ok out) ∧
    (∀ (t : GoType) (v : Value), isStruct (derefType t) = false →
      LoadDefaultIntoStruct pf (some (t, v)) = .ok (some (t, v))) ∧
    LoadDefaultIntoStruct pf none = .ok none := by
  refine ⟨fun addr out h => ?_, fun j hj => ?_, fun j hj => ?_, fun t v ht => ?_, rfl⟩
  · have key := loop_frame pf fs addr vs out k f ft hf h
    refine ⟨key, fun hsc htag => ?_, fun hns hplain => ?_⟩
    · rcases key with h0 | ⟨_, h0⟩ | ⟨et, rfl, _⟩ | ⟨sfs, rfl⟩
      · exact h0
      · exact absurd htag h0
      · simp [isScalar] at hsc
      · simp [isScalar] at hsc
    · rcases key with h0 | ⟨h0, _⟩ | ⟨et, rfl, _⟩ | ⟨sfs, rfl⟩
      · exact h0
      · rw [hns] at h0
        cases h0
      · simp [isPlain] at hplain
      · simp [isPlain] at hplain
  · rw [LoadDefaultIntoStruct_ptr_struct, bind_eq_ok] at hj
    obtain ⟨out, hout, hj⟩ := hj
    cases hj
    exact ⟨out, rfl, hout⟩
  · rw [LoadDefaultIntoStruct_struct, bind_eq_ok] at hj
    obtain ⟨out, hout, hj⟩ := hj
    cases hj
    exact ⟨out, rfl, hout⟩
  · simp only [LoadDefaultIntoStruct, run_not_record pf t ht false v]
    rfl

/-- C18, on `struct { N int; P *int `default:"5"`; S string `default:"s"` }`
holding `N = 7`, `P` pointing to 3 and `S` empty: the run completes with `S`
at its default, and `N` (a scalar without a default) and `P` (a pointer
with a `default` tag) hold what they held. -/
theorem walker_frame_witness :
    LoadDefaultIntoStruct.loop noFloat recFrame.fields true
        [.int 7, .ptr (.int 3), .str ""] =
      .ok [.int 7, .ptr (.int 3), .str "s"] ∧
    [Value.int 7, .ptr (.int 3), .str "s"][0]? = [Value.int 7, .ptr (.int 3), .str ""][0]? ∧
    [Value.int 7, .ptr (.int 3), .str "s"][1]? = [Value.int 7, .ptr (.int 3), .str ""][1]? :=
  ⟨rfl,
    ((walker_frame noFloat recFrame.fields [.int 7, .ptr (.int 3), .str ""] 0
      (exported "N" []) (.Int .Int) rfl).1 true _ rfl).2.1 rfl rfl,
    ((walker_frame noFloat recFrame.fields [.int 7, .ptr (.int 3), .str ""] 1
      (exported "P" [("default", "5")]) (.Ptr (.Int .Int)) rfl).1 true _ rfl).2.2 rfl rfl⟩

/-! ## Counting the invocations of the walker -/

/-- The counted loop over no values. -/
theorem loopCounted_no_values (pf : FloatParser) (f : StructField) (ft : GoType)
    (rest : Fields) (addr : Bool) :
    LoadDefaultIntoStruct.loopCounted pf (.cons f ft rest) addr [] = ⟨.ok [], 0, 0⟩ := by
  cases ft <;> rfl

/-- The slice branch of the counted loop, as written. -/
theorem loopCounted_slice_def (pf : FloatParser) (f : StructField) (et : GoType)
    (rest : Fields) (addr : Bool) (v : Value) (vs : List Value) :
    LoadDefaultIntoStruct.loopCounted pf (.cons f (.Slice et) rest) addr (v :: vs) =
      (if minLen f < 1 then ⟨.ok (v :: vs), 0, 0⟩
      else
        match MakeSlice et (minLen f) with
        | .error p => ⟨.error p, 0, 0⟩
        | .ok _ =>
            let item : Counted Value :=
              match et with
              | .Ptr _ => ⟨.error panicTypeOnZero, 0, 0⟩
              | .Slice _ => ⟨.ok (zeroValue et), 0, 0⟩
              | .Struct efs =>
                ⟨(LoadDefaultIntoStruct.runCounted pf (.Struct efs) true
                    (zeroValue (.Struct efs))).out,
                  1 + (LoadDefaultIntoStruct.runCounted pf (.Struct efs) true
                    (zeroValue (.Struct efs))).calls,
                  1 + (LoadDefaultIntoStruct.runCounted pf (.Struct efs) true
                    (zeroValue (.Struct efs))).depth⟩
              | _ => ⟨.ok (procTagged pf ⟨et, zeroValue et, true, false⟩
                  (StructTag.Lookup f.Tag "default")), 0, 0⟩
            match item.out with
            | .error p => ⟨.error p, item.calls, item.depth⟩
            | .ok x =>
              if !f.Exported then ⟨.error panicSetRO, item.calls, item.depth⟩
              else if !addr then ⟨.error panicSetUnaddr, item.calls, item.depth⟩
              else
                ⟨(LoadDefaultIntoStruct.loopCounted pf rest addr vs).out.map
                    (fun vs1 => .slice (List.replicate (minLen f).toNat x) :: vs1),
                  item.calls + (LoadDefaultIntoStruct.loopCounted pf rest addr vs).calls,
                  max item.depth (LoadDefaultIntoStruct.loopCounted pf rest addr vs).depth⟩) := by
  cases et <;> rfl

/-- The slice branch of the counted loop, unfolded. -/
theorem loopCounted_slice_eq (pf : FloatParser) (f : StructField) (et : GoType)
    (rest : Fields) (addr : Bool) (v : Value) (vs : List Value) :
    LoadDefaultIntoStruct.loopCounted pf (.cons f (.Slice et) rest) addr (v :: vs) =
      (if minLen f < 1 then ⟨.ok (v :: vs), 0, 0⟩
      else if newarray.outOfRange (typeSize et) (minLen f) = true then
        ⟨.error panicAllocRange, 0, 0⟩
      else
        let item : Counted Value :=
          match et with
          | .Ptr _ => ⟨.error panicTypeOnZero, 0, 0⟩
          | .Slice _ => ⟨.ok (zeroValue et), 0, 0⟩
          | .Struct efs =>
            ⟨(LoadDefaultIntoStruct.runCounted pf (.Struct efs) true
                (zeroValue (.Struct efs))).out,
              1 + (LoadDefaultIntoStruct.runCounted pf (.Struct efs) true
                (zeroValue (.Struct efs))).calls,
              1 + (LoadDefaultIntoStruct.runCounted pf (.Struct efs) true
                (zeroValue (.Struct efs))).depth⟩
          | _ => ⟨.ok (procTagged pf ⟨et, zeroValue et, true, false⟩
              (StructTag.Lookup f.Tag "default")), 0, 0⟩
        match item.out with
        | .error p => ⟨.error p, item.calls, item.depth⟩
        | .ok x =>
          if !f.Exported then ⟨.error panicSetRO, item.calls, item.depth⟩
          else if !addr then ⟨.error panicSetUnaddr, item.calls, item.depth⟩
          else
            ⟨(LoadDefaultIntoStruct.loopCounted pf rest addr vs).out.map
                (fun vs1 => .slice (List.replicate (minLen f).toNat x) :: vs1),
              item.calls + (LoadDefaultIntoStruct.loopCounted pf rest addr vs).calls,
              max item.depth (LoadDefaultIntoStruct.loopCounted pf rest addr vs).depth⟩) := by
  rw [loopCounted_slice_def]
  by_cases hlen : minLen f < 1
  · rw [if_pos hlen, if_pos hlen]
  · rw [if_neg hlen, if_neg hlen, MakeSlice_eq et (minLen f) hlen]
    by_cases hr : newarray.outOfRange (typeSize et) (minLen f) = true
    · rw [if_pos hr, if_pos hr]
    · rw [if_neg hr, if_neg hr]
      rfl

/-- The nested-record branch of the counted loop, unfolded. -/
theorem loopCounted_struct (pf : FloatParser) (f : StructField) (sfs rest : Fields)
    (addr : Bool) (v : Value) (vs : List Value) :
    LoadDefaultIntoStruct.loopCounted pf (.cons f (.Struct sfs) rest) addr (v :: vs) =
      (if !addr then ⟨.error panicAddr, 0, 0⟩
      else if !f.Exported then ⟨.error panicInterfaceRO, 0, 0⟩
      else
        match (LoadDefaultIntoStruct.runCounted pf (.Struct sfs) true v).out with
        | .error p =>
          ⟨.error p, 1 + (LoadDefaultIntoStruct.runCounted pf (.Struct sfs) true v).calls,
            1 + (LoadDefaultIntoStruct.runCounted pf (.Struct sfs) true v).depth⟩
        | .ok v1 =>
          ⟨(LoadDefaultIntoStruct.loopCounted pf rest addr vs).out.map (fun vs1 => v1 :: vs1),
            1 + (LoadDefaultIntoStruct.runCounted pf (.Struct sfs) true v).calls +
              (LoadDefaultIntoStruct.loopCounted pf rest addr vs).calls,
            max (1 + (LoadDefaultIntoStruct.runCounted pf (.Struct sfs) true v).depth)
              (LoadDefaultIntoStruct.loopCounted pf rest addr vs).depth⟩) := rfl

/-- The last branch of the counted loop, unfolded. -/
theorem loopCounted_plain (pf : FloatParser) (f : StructField) (ft : GoType) (rest : Fields)
    (addr : Bool) (v : Value) (vs : List Value) (h : isPlain ft = true) :
    LoadDefaultIntoStruct.loopCounted pf (.cons f ft rest) addr (v :: vs) =
      ⟨(LoadDefaultIntoStruct.loopCounted pf rest addr vs).out.map
          (fun vs1 => procTagged pf ⟨ft, v, addr, !f.Exported⟩
            (StructTag.Lookup f.Tag "default") :: vs1),
        (LoadDefaultIntoStruct.loopCounted pf rest addr vs).calls,
        (LoadDefaultIntoStruct.loopCounted pf rest addr vs).depth⟩ := by
  cases ft <;> first | rfl | (simp [isPlain] at h)

/-- One step of the pointer loop, counted. -/
theorem runCounted_ptr (pf : FloatParser) (e : GoType) (addr : Bool) (x : Value) :
    LoadDefaultIntoStruct.runCounted pf (.Ptr e) addr (.ptr x) =
      ⟨(LoadDefaultIntoStruct.runCounted pf e true x).out.map .ptr,
        (LoadDefaultIntoStruct.runCounted pf e true x).calls,
        (LoadDefaultIntoStruct.runCounted pf e true x).depth⟩ := rfl

/-- The counted walk of a struct is the counted field loop. -/
theorem runCounted_struct (pf : FloatParser) (fs : Fields) (addr : Bool) (vs : List Value) :
    LoadDefaultIntoStruct.runCounted pf (.Struct fs) addr (.struct vs) =
      ⟨(LoadDefaultIntoStruct.loopCounted pf fs addr vs).out.map .struct,
        (LoadDefaultIntoStruct.loopCounted pf fs addr vs).calls,
        (LoadDefaultIntoStruct.loopCounted pf fs addr vs).depth⟩ := rfl

/-- A step followed by wrapping its result is the mapped step. -/
theorem bind_pure_eq_map {ε α β : Type} (x : Except ε α) (f : α → β) :
    (x >>= fun a => pure (f a)) = x.map f := by
  cases x <;> rfl

/-- Induction over the shape tree: a property of types and a property of
field lists hold everywhere when they pass through structs, pointers and
field lists; at a field the property is at hand for the field type and, for
a slice, for its element type. -/
theorem shape_induction {P : GoType → Prop} {Q : Fields → Prop}
    (hleaf : ∀ t, (∀ fs, t ≠ .Struct fs) → (∀ e, t ≠ .Ptr e) → P t)
    (hstruct : ∀ fs, Q fs → P (.Struct fs))
    (hptr : ∀ e, P e → P (.Ptr e))
    (hnil : Q .nil)
    (hcons : ∀ f ft rest, P ft → (∀ e, ft = .Slice e → P e) → Q rest →
      Q (.cons f ft rest)) :
    (∀ t, P t) ∧ (∀ fs, Q fs) := by
  have key : ∀ t, P t ∧ ∀ e, t = .Slice e → P e := by
    intro t
    refine GoType.rec (motive_1 := fun t => P t ∧ ∀ e, t = .Slice e → P e)
      (motive_2 := fun fs => Q fs) ?_ ?_ ?_ ?_ ?_ ?_ ?_ ?_ ?_ ?_ ?_ ?_ t
    · exact ⟨hleaf _ (fun _ h => by cases h) (fun _ h => by cases h), fun _ h => by cases h⟩
    · exact ⟨hleaf _ (fun _ h => by cases h) (fun _ h => by cases h), fun _ h => by cases h⟩
    · intro k
      exact ⟨hleaf _ (fun _ h => by cases h) (fun _ h => by cases h), fun _ h => by cases h⟩
    · intro k
      exact ⟨hleaf _ (fun _ h => by cases h) (fun _ h => by cases h), fun _ h => by cases h⟩
    · exact ⟨hleaf _ (fun _ h => by cases h) (fun _ h => by cases h), fun _ h => by cases h⟩
    · exact ⟨hleaf _ (fun _ h => by cases h) (fun _ h => by cases h), fun _ h => by cases h⟩
    · intro e ih
      refine ⟨hleaf _ (fun _ h => by cases h) (fun _ h => by cases h), fun e1 h => ?_⟩
      cases h
      exact ih.1
    · intro fs ih
      exact ⟨hstruct fs ih, fun _ h => by cases h⟩
    · intro e ih
      exact ⟨hptr e ih.1, fun _ h => by cases h⟩
    · intro _ _
      exact ⟨hleaf _ (fun _ h => by cases h) (fun _ h => by cases h), fun _ h => by cases h⟩
    · exact hnil
    · intro f ft rest iht ihr
      exact hcons f ft rest iht.1 iht.2 ihr
  refine ⟨fun t => (key t).1, fun fs => ?_⟩
  induction fs using Fields.induction_on with
  | hnil => exact hnil
  | hcons f ft rest ih => exact hcons f ft rest (key ft).1 (key ft).2 ih

/-- The counted loop has the outcome of the loop, one more field in front. -/
theorem loopCounted_out_cons (pf : FloatParser) (f : StructField) (ft : GoType)
    (rest : Fields)
    (hrun : ∀ (sfs : Fields) (addr : Bool) (v : Value),
      ft = .Struct sfs ∨ ft = .Slice (.Struct sfs) →
      (LoadDefaultIntoStruct.runCounted pf (.Struct sfs) addr v).out =
        LoadDefaultIntoStruct.run pf (.Struct sfs) addr v)
    (hrest : ∀ (addr : Bool) (vs : List Value),
      (LoadDefaultIntoStruct.loopCounted pf rest addr vs).out =
        LoadDefaultIntoStruct.loop pf rest addr vs)
    (addr : Bool) (vs : List Value) :
    (LoadDefaultIntoStruct.loopCounted pf (.cons f ft rest) addr vs).out =
      LoadDefaultIntoStruct.loop pf (.cons f ft rest) addr vs := by
  cases vs with
  | nil => rw [loopCounted_no_values, loop_no_values]
  | cons v vs =>
    rcases shape_cases ft with ⟨et, rfl⟩ | ⟨sfs, rfl⟩ | hplain
    · rw [loopCounted_slice_eq, loop_slice_eq]
      by_cases hlen : minLen f < 1
      · rw [if_pos hlen, if_pos hlen]
        rfl
      · rw [if_neg hlen, if_neg hlen]
        by_cases hr : newarray.outOfRange (typeSize et) (minLen f) = true
        · rw [if_pos hr, if_pos hr]
          rfl
        · rw [if_neg hr, if_neg hr]
          cases et with
          | Struct efs =>
            have h := hrun efs true (zeroValue (.Struct efs)) (Or.inr rfl)
            simp only [h]
            cases LoadDefaultIntoStruct.run pf (.Struct efs) true
                (zeroValue (.Struct efs)) with
            | error p => rfl
            | ok x =>
              cases hexp : f.Exported <;> cases addr <;>
                simp only [hrest, Bool.not_true, Bool.not_false,
                  Bool.false_eq_true, if_true, if_false] <;>
                rfl
          | _ =>
            cases hexp : f.Exported <;> cases addr <;>
              simp only [hrest, Bool.not_true, Bool.not_false,
                Bool.false_eq_true, if_true, if_false] <;>
              rfl
    · rw [loopCounted_struct, loop_struct, hrun sfs true v (Or.inl rfl), hrest]
      cases addr <;> cases hexp : f.Exported <;>
        simp only [Bool.not_true, Bool.not_false, Bool.false_eq_true, if_true, if_false] <;>
        first
          | rfl
          | (cases LoadDefaultIntoStruct.run pf (.Struct sfs) true v <;> rfl)
    · rw [loopCounted_plain pf f ft rest addr v vs hplain,
        loop_plain pf f ft rest addr v vs hplain, hrest, ← bind_pure_eq_map]

/-- Counting changes nothing: the counted walker and the counted loop have
the outcome of the walker and of the loop. -/
theorem counted_out (pf : FloatParser) :
    (∀ (t : GoType) (addr : Bool) (v : Value),
      (LoadDefaultIntoStruct.runCounted pf t addr v).out =
        LoadDefaultIntoStruct.run pf t addr v) ∧
    (∀ (fs : Fields) (addr : Bool) (vs : List Value),
      (LoadDefaultIntoStruct.loopCounted pf fs addr vs).out =
        LoadDefaultIntoStruct.loop pf fs addr vs) := by
  refine shape_induction ?_ ?_ ?_ ?_ ?_
  · intro t hs hp addr v
    cases t with
    | Struct fs => exact absurd rfl (hs fs)
    | Ptr e => exact absurd rfl (hp e)
    | _ => rfl
  · intro fs ih addr v
    cases v with
    | struct vs =>
      rw [runCounted_struct, run_struct, ← ih addr vs, bind_pure_eq_map]
    | _ => rfl
  · intro e ih addr v
    cases v with
    | ptr x =>
      rw [runCounted_ptr, run_ptr, ← ih true x, bind_pure_eq_map]
    | _ => rfl
  · intro addr vs
    rfl
  · intro f ft rest iht ihe ihr addr vs
    refine loopCounted_out_cons pf f ft rest ?_ ihr addr vs
    intro sfs addr1 v1 h
    rcases h with h | h
    · subst h
      exact iht addr1 v1
    · exact ihe _ h addr1 v1

/-- The calls made from within a walk of a type that leads to a record, and
from within a field loop, stay within the record-shaped nodes of the shape,
and their nesting within its depth. -/
theorem counted_bounds (pf : FloatParser) :
    (∀ (t : GoType) (addr : Bool) (v : Value), isStruct (derefType t) = true →
      1 + (LoadDefaultIntoStruct.runCounted pf t addr v).calls ≤ recordNodes t ∧
      1 + (LoadDefaultIntoStruct.runCounted pf t addr v).depth ≤ shapeDepth t) ∧
    (∀ (fs : Fields) (addr : Bool) (vs : List Value),
      (LoadDefaultIntoStruct.loopCounted pf fs addr vs).calls ≤ recordNodesOfFields fs ∧
      (LoadDefaultIntoStruct.loopCounted pf fs addr vs).depth ≤ shapeDepthOfFields fs) := by
  refine shape_induction ?_ ?_ ?_ ?_ ?_
  · intro t hs hp addr v h
    cases t with
    | Struct fs => exact absurd rfl (hs fs)
    | Ptr e => exact absurd rfl (hp e)
    | _ => simp [isStruct, derefType] at h
  · intro fs ih addr v _
    cases v with
    | struct vs =>
      have := ih addr vs
      rw [runCounted_struct]
      simp only [recordNodes, shapeDepth]
      omega
    | _ =>
      simp only [LoadDefaultIntoStruct.runCounted, recordNodes, shapeDepth]
      omega
  · intro e ih addr v h
    have h1 : isStruct (derefType e) = true := by simpa [derefType] using h
    cases v with
    | ptr x =>
      have := ih true x h1
      rw [runCounted_ptr]
      simp only [recordNodes, shapeDepth]
      omega
    | _ =>
      have := ih true .nil h1
      simp only [LoadDefaultIntoStruct.runCounted, recordNodes, shapeDepth]
      omega
  · intro addr vs
    simp [LoadDefaultIntoStruct.loopCounted]
  · intro f ft rest iht ihe ihr addr vs
    cases vs with
    | nil =>
      rw [loopCounted_no_values]
      simp
    | cons v vs =>
      have hr := ihr addr vs
      rcases shape_cases ft with ⟨et, rfl⟩ | ⟨sfs, rfl⟩ | hplain
      · rw [loopCounted_slice_eq]
        by_cases hlen : minLen f < 1
        · rw [if_pos hlen]
          simp
        · rw [if_neg hlen]
          cases et with
          | Struct efs =>
            have hb := ihe _ rfl true (zeroValue (.Struct efs)) rfl
            simp only [recordNodes, shapeDepth, recordNodesOfFields, shapeDepthOfFields] at hb ⊢
            repeat' split
            all_goals constructor <;> (try simp only []) <;> omega
          | _ =>
            simp only [recordNodes, shapeDepth, recordNodesOfFields, shapeDepthOfFields]
            repeat' split
            all_goals constructor <;> (try simp only []) <;> omega
      · rw [loopCounted_struct]
        have hb := iht true v rfl
        simp only [recordNodes, shapeDepth, recordNodesOfFields, shapeDepthOfFields] at hb ⊢
        repeat' split
        all_goals constructor <;> (try simp only []) <;> omega
      · rw [loopCounted_plain pf f ft rest addr v vs hplain]
        simp only [recordNodesOfFields, shapeDepthOfFields]
        constructor <;> omega

/-- The zero value of a record conforms to its fields. -/
theorem conforms_zeroFields (fs : Fields) : conforms fs (zeroFields fs) = true := by
  have key := shape_induction
    (P := fun t => ∀ sfs, t = .Struct sfs → conforms sfs (zeroFields sfs) = true)
    (Q := fun fs => conforms fs (zeroFields fs) = true)
    (fun t hs _ sfs h => absurd h (hs sfs))
    (fun fs ih sfs h => by cases h; exact ih)
    (fun e _ sfs h => by cases h)
    rfl
    (fun f ft rest iht _ ihr => by
      cases ft with
      | Struct sfs => simp [zeroFields, zeroValue, conforms, iht sfs rfl, ihr]
      | _ => simpa [zeroFields, zeroValue, conforms] using ihr)
  exact key.2 fs

/-- In a record that is walked in full, reached through a pointer, the field
loop completes and makes one call for each record-shaped node below it. -/
theorem counted_exact (pf : FloatParser) (fs : Fields) (vs : List Value)
    (hw : walkedInFull fs = true) (hc : conforms fs vs = true) :
    (∃ vs1, (LoadDefaultIntoStruct.loopCounted pf fs true vs).out = .ok vs1) ∧
      (LoadDefaultIntoStruct.loopCounted pf fs true vs).calls = recordNodesOfFields fs := by
  have key := shape_induction
    (P := fun t => ∀ sfs, t = .Struct sfs → ∀ vs, walkedInFull sfs = true →
      conforms sfs vs = true →
      (∃ vs1, (LoadDefaultIntoStruct.loopCounted pf sfs true vs).out = .ok vs1) ∧
        (LoadDefaultIntoStruct.loopCounted pf sfs true vs).calls = recordNodesOfFields sfs)
    (Q := fun fs => ∀ vs, walkedInFull fs = true → conforms fs vs = true →
      (∃ vs1, (LoadDefaultIntoStruct.loopCounted pf fs true vs).out = .ok vs1) ∧
        (LoadDefaultIntoStruct.loopCounted pf fs true vs).calls = recordNodesOfFields fs)
    (fun t hs _ sfs h => absurd h (hs sfs))
    (fun fs ih sfs h => by cases h; exact ih)
    (fun e _ sfs h => by cases h)
    (fun vs _ _ => ⟨⟨vs, rfl⟩, rfl⟩)
    ?_
  · exact key.2 fs vs hw hc
  · intro f ft rest iht ihe ihr vs hw hc
    cases vs with
    | nil => cases ft <;> simp [conforms] at hc
    | cons v vs =>
      rcases shape_cases ft with ⟨et, rfl⟩ | ⟨sfs, rfl⟩ | hplain
      · rw [loopCounted_slice_eq]
        cases et with
        | Struct efs =>
          simp only [walkedInFull, Bool.and_eq_true, decide_eq_true_eq] at hw
          obtain ⟨⟨⟨⟨hexp, hlen⟩, hmk⟩, hwe⟩, hwr⟩ := hw
          have hcr : conforms rest vs = true := by simpa [conforms] using hc
          obtain ⟨⟨vs1, hvs1⟩, hcalls⟩ := ihr vs hwr hcr
          obtain ⟨⟨es1, hes1⟩, hecalls⟩ :=
            ihe _ rfl efs rfl (zeroFields efs) hwe (conforms_zeroFields efs)
          have hlen1 : ¬ minLen f < 1 := by omega
          have hrange := (MakeSlice_ok_iff _ _ hlen1).1 ((MakeSlice_returns_iff _ _).1 hmk)
          rw [if_neg hlen1, if_neg hrange]
          simp only [zeroValue, runCounted_struct, hes1, hecalls, hexp, hvs1, hcalls,
            Except.map, Bool.not_true, Bool.false_eq_true, if_false, recordNodesOfFields,
            recordNodes]
          exact ⟨⟨_, rfl⟩, trivial⟩
        | Ptr e => simp [walkedInFull, isScalar] at hw
        | Slice e => simp [walkedInFull, isScalar] at hw
        | Other size align => simp [walkedInFull, isScalar] at hw
        | _ =>
          simp only [walkedInFull, Bool.and_eq_true, decide_eq_true_eq] at hw
          obtain ⟨⟨⟨⟨hexp, hlen⟩, hmk⟩, _⟩, hwr⟩ := hw
          have hcr : conforms rest vs = true := by simpa [conforms] using hc
          obtain ⟨⟨vs1, hvs1⟩, hcalls⟩ := ihr vs hwr hcr
          have hlen1 : ¬ minLen f < 1 := by omega
          have hrange := (MakeSlice_ok_iff _ _ hlen1).1 ((MakeSlice_returns_iff _ _).1 hmk)
          rw [if_neg hlen1, if_neg hrange]
          simp only [hexp, hvs1, hcalls, Except.map, Bool.not_true, Bool.false_eq_true,
            if_false, recordNodesOfFields, recordNodes, pure, Except.pure]
          exact ⟨⟨_, rfl⟩, trivial⟩
      · simp only [walkedInFull, Bool.and_eq_true] at hw
        obtain ⟨⟨hexp, hws⟩, hwr⟩ := hw
        cases v with
        | struct ws =>
          simp only [conforms, Bool.and_eq_true] at hc
          obtain ⟨hcs, hcr⟩ := hc
          obtain ⟨⟨vs1, hvs1⟩, hcalls⟩ := ihr vs hwr hcr
          obtain ⟨⟨ws1, hws1⟩, hscalls⟩ := iht sfs rfl ws hws hcs
          rw [loopCounted_struct]
          simp only [runCounted_struct, hws1, hscalls, hexp, hvs1, hcalls,
            Except.map, Bool.not_true, Bool.false_eq_true, if_false, recordNodesOfFields,
            recordNodes]
          exact ⟨⟨_, rfl⟩, trivial⟩
        | _ => simp [conforms] at hc
      · have hsc : isScalar ft = true ∧ walkedInFull rest = true := by
          cases ft <;> simp_all [walkedInFull, isPlain, isScalar]
        have hcr : conforms rest vs = true := by
          cases ft <;> simp_all [conforms, isPlain]
        obtain ⟨⟨vs1, hvs1⟩, hcalls⟩ := ihr vs hsc.2 hcr
        have hn : recordNodes ft = 0 := by
          cases ft <;> simp_all [recordNodes, isScalar]
        rw [loopCounted_plain pf f ft rest true v vs hplain]
        simp only [hvs1, hcalls, Except.map, recordNodesOfFields, hn]
        exact ⟨⟨_, rfl⟩, by omega⟩

/-- C19, as stated, fails: `struct { A []Sub }` has two record-shaped nodes,
the record and the element record `Sub` of the slice `A`.  `A` declares no
length, so no template is built for it, and a call on a pointer to the
record completes with one invocation of the walker, not two. -/
theorem walker_skips_record_without_template :
    LoadDefaultIntoStruct noFloat
        (some (.Ptr recShortRecordSlice, .ptr (zeroValue recShortRecordSlice))) =
      .ok (some (.Ptr recShortRecordSlice, .ptr (zeroValue recShortRecordSlice))) ∧
    LoadDefaultIntoStruct.invocations noFloat
        (some (.Ptr recShortRecordSlice, .ptr (zeroValue recShortRecordSlice))) = 1 ∧
    recordNodes (.Ptr recShortRecordSlice) = 2 ∧
    LoadDefaultIntoStruct.invocations noFloat
        (some (.Ptr recShortRecordSlice, .ptr (zeroValue recShortRecordSlice))) ≠
      recordNodes (.Ptr recShortRecordSlice) :=
  ⟨rfl, rfl, rfl, by decide⟩

/-- C19, amended: shapes are finite trees, the walker is a total function on
them by recursion on the shape, and counting its invocations does not change
its outcome.  For a call on a value whose type leads through pointers to a
record, the walker is invoked at most once per record-shaped node of the
shape tree, and the invocations nest no deeper than the records of the shape.
When the call is on a pointer to a record in which every nested-record field
and every slice field is exported, every slice field has a declared length of
at least one for which `reflect.MakeSlice` returns and scalar or record
elements, and every other field is a scalar, the call completes and the
walker is invoked exactly once per record-shaped node: once for the template
of a slice of records, not once per slot. -/
theorem walker_invocations (pf : FloatParser) (t : GoType) (v : Value)
    (ht : isStruct (derefType t) = true) :
    (LoadDefaultIntoStruct.runCounted pf t false v).out =
        LoadDefaultIntoStruct.run pf t false v ∧
      LoadDefaultIntoStruct.invocations pf (some (t, v)) ≤ recordNodes t ∧
      LoadDefaultIntoStruct.nesting pf (some (t, v)) ≤ shapeDepth t ∧
      ∀ fs vs, t = .Ptr (.Struct fs) → v = .ptr (.struct vs) →
        walkedInFull fs = true → conforms fs vs = true →
        (∃ r, LoadDefaultIntoStruct pf (some (t, v)) = .ok r) ∧
          LoadDefaultIntoStruct.invocations pf (some (t, v)) = recordNodes t := by
  refine ⟨(counted_out pf).1 t false v, ((counted_bounds pf).1 t false v ht).1,
    ((counted_bounds pf).1 t false v ht).2, ?_⟩
  intro fs vs hT hV hw hc
  subst hT
  subst hV
  obtain ⟨⟨vs1, hvs1⟩, hcalls⟩ := counted_exact pf fs vs hw hc
  have hloop : LoadDefaultIntoStruct.loop pf fs true vs = .ok vs1 := by
    rw [← (counted_out pf).2 fs true vs, hvs1]
  refine ⟨⟨some (.Ptr (.Struct fs), .ptr (.struct vs1)), ?_⟩, ?_⟩
  · simp only [LoadDefaultIntoStruct, run_ptr, run_struct, hloop]
    rfl
  · simp only [LoadDefaultIntoStruct.invocations, runCounted_ptr, runCounted_struct, hcalls,
      recordNodes]

/-- The amended C19 at Go `struct { A []Sub `length:"3"`; B Sub }`: three
record-shaped nodes, three invocations, though `A` gets three slots.  At
`struct { SL2 []ArrStruct `length:"9223372036854775807"` }`, which is not
walked in full because `reflect.MakeSlice` panics, the bound holds with one
invocation for two nodes. -/
theorem walker_invocations_witness :
    isStruct (derefType (.Ptr recThreeRecords)) = true ∧
      recordNodes (.Ptr recThreeRecords) = 3 ∧
      LoadDefaultIntoStruct.invocations noFloat
        (some (.Ptr recThreeRecords, .ptr (zeroValue recThreeRecords))) = 3 ∧
      LoadDefaultIntoStruct.nesting noFloat
        (some (.Ptr recThreeRecords, .ptr (zeroValue recThreeRecords))) ≤ 2 ∧
      walkedInFull recHugeRecordSlice.fields = false ∧
      LoadDefaultIntoStruct.invocations noFloat
        (some (.Ptr recHugeRecordSlice, .ptr (zeroValue recHugeRecordSlice))) = 1 ∧
      LoadDefaultIntoStruct.invocations noFloat
          (some (.Ptr recHugeRecordSlice, .ptr (zeroValue recHugeRecordSlice))) ≤
        recordNodes (.Ptr recHugeRecordSlice) :=
  ⟨rfl, rfl,
    ((walker_invocations noFloat (.Ptr recThreeRecords) (.ptr (zeroValue recThreeRecords))
      rfl).2.2.2 _ _ rfl rfl rfl rfl).2,
    (walker_invocations noFloat (.Ptr recThreeRecords) (.ptr (zeroValue recThreeRecords))
      rfl).2.2.1,
    rfl, rfl,
    (walker_invocations noFloat (.Ptr recHugeRecordSlice)
      (.ptr (zeroValue recHugeRecordSlice)) rfl).2.1⟩

/-! ## Nested records -/

/-- A path that goes on past the first field of a record goes on in the
remaining fields. -/
theorem fieldAt_cons_succ (f : StructField) (ft : GoType) (rest : Fields) (k : Nat)
    (p : List Nat) :
    fieldAt (.cons f ft rest) ((k + 1) :: p) = fieldAt rest (k :: p) := by
  cases p <;> simp [fieldAt, Fields.toList]

/-- No path leads through a first field that is not a record. -/
theorem fieldAt_cons_zero_plain (f : StructField) (ft : GoType) (rest : Fields) (k : Nat)
    (p : List Nat) (h : isPlain ft = true) :
    fieldAt (.cons f ft rest) (0 :: k :: p) = none := by
  cases ft <;> simp [fieldAt, Fields.toList, isPlain] at h ⊢

/-- A path that goes on past the first value goes on in the remaining values. -/
theorem valueAt_cons_succ (v : Value) (vs : List Value) (k : Nat) (p : List Nat) :
    valueAt (v :: vs) ((k + 1) :: p) = valueAt vs (k :: p) := by
  cases p <;> simp [valueAt]

/-- In a record of scalars and exported nested records passed by pointer the
field loop completes, and a scalar field at the end of any path ends with
what `procValue` makes of its prior contents when it has a default, and with
its prior contents otherwise. -/
theorem loop_plainRecord (pf : FloatParser) (fs : Fields) (vs : List Value)
    (hp : plainRecord fs = true) (hc : conforms fs vs = true) :
    ∃ out, LoadDefaultIntoStruct.loop pf fs true vs = .ok out ∧
      ∀ p f ft x, fieldAt fs p = some (f, ft) → isScalar ft = true →
        valueAt vs p = some x →
        valueAt out p = some (procTagged pf ⟨ft, x, true, !f.Exported⟩
          (StructTag.Lookup f.Tag "default")) := by
  have key := shape_induction
    (P := fun t => ∀ sfs, t = .Struct sfs → ∀ vs, plainRecord sfs = true →
      conforms sfs vs = true →
      ∃ out, LoadDefaultIntoStruct.loop pf sfs true vs = .ok out ∧
        ∀ p f ft x, fieldAt sfs p = some (f, ft) → isScalar ft = true →
          valueAt vs p = some x →
          valueAt out p = some (procTagged pf ⟨ft, x, true, !f.Exported⟩
            (StructTag.Lookup f.Tag "default")))
    (Q := fun fs => ∀ vs, plainRecord fs = true → conforms fs vs = true →
      ∃ out, LoadDefaultIntoStruct.loop pf fs true vs = .ok out ∧
        ∀ p f ft x, fieldAt fs p = some (f, ft) → isScalar ft = true →
          valueAt vs p = some x →
          valueAt out p = some (procTagged pf ⟨ft, x, true, !f.Exported⟩
            (StructTag.Lookup f.Tag "default")))
    (fun t hs _ sfs h => absurd h (hs sfs))
    (fun fs ih sfs h => by cases h; exact ih)
    (fun e _ sfs h => by cases h)
    ?_ ?_
  · exact key.2 fs vs hp hc
  · intro vs _ _
    refine ⟨vs, rfl, ?_⟩
    intro p f ft x hf
    cases p with
    | nil => simp [fieldAt] at hf
    | cons k p => cases p <;> simp [fieldAt, Fields.toList] at hf
  · intro g gt rest iht _ ihr vs hp hc
    cases vs with
    | nil => cases gt <;> simp [conforms] at hc
    | cons v vs =>
      rcases shape_cases gt with ⟨et, rfl⟩ | ⟨sfs, rfl⟩ | hplain
      · simp [plainRecord, isScalar] at hp
      · simp only [plainRecord, Bool.and_eq_true] at hp
        obtain ⟨⟨hexp, hps⟩, hpr⟩ := hp
        cases v with
        | struct ws =>
          simp only [conforms, Bool.and_eq_true] at hc
          obtain ⟨hcs, hcr⟩ := hc
          obtain ⟨ws1, hws1, hsub⟩ := iht sfs rfl ws hps hcs
          obtain ⟨out, hout, hrest⟩ := ihr vs hpr hcr
          refine ⟨.struct ws1 :: out, ?_, ?_⟩
          · rw [loop_struct]
            simp only [hexp, Bool.not_true, Bool.false_eq_true, if_false, run_struct, hws1,
              hout]
            rfl
          · intro p f ft x hf hs hx
            cases p with
            | nil => simp [fieldAt] at hf
            | cons k p =>
              cases k with
              | zero =>
                cases p with
                | nil =>
                  simp only [fieldAt, Fields.toList, List.getElem?_cons_zero,
                    Option.some.injEq, Prod.mk.injEq] at hf
                  obtain ⟨_, rfl⟩ := hf
                  simp [isScalar] at hs
                | cons k2 p =>
                  have hf2 : fieldAt sfs (k2 :: p) = some (f, ft) := by
                    simpa [fieldAt, Fields.toList] using hf
                  have hx2 : valueAt ws (k2 :: p) = some x := by
                    simpa [valueAt] using hx
                  have := hsub (k2 :: p) f ft x hf2 hs hx2
                  simpa [valueAt] using this
              | succ k =>
                rw [fieldAt_cons_succ] at hf
                rw [valueAt_cons_succ] at hx
                rw [valueAt_cons_succ]
                exact hrest (k :: p) f ft x hf hs hx
        | _ => simp [conforms] at hc
      · have hsc : isScalar gt = true ∧ plainRecord rest = true := by
          cases gt <;> simp_all [plainRecord, isPlain, isScalar]
        have hcr : conforms rest vs = true := by
          cases gt <;> simp_all [conforms, isPlain]
        obtain ⟨out, hout, hrest⟩ := ihr vs hsc.2 hcr
        refine ⟨procTagged pf ⟨gt, v, true, !g.Exported⟩
          (StructTag.Lookup g.Tag "default") :: out, ?_, ?_⟩
        · rw [loop_plain pf g gt rest true v vs hplain, hout]
          rfl
        · intro p f ft x hf hs hx
          cases p with
          | nil => simp [fieldAt] at hf
          | cons k p =>
            cases k with
            | zero =>
              cases p with
              | nil =>
                simp only [fieldAt, Fields.toList, List.getElem?_cons_zero,
                  Option.some.injEq, Prod.mk.injEq] at hf
                obtain ⟨rfl, rfl⟩ := hf
                simp only [valueAt, List.getElem?_cons_zero, Option.some.injEq] at hx
                subst hx
                simp [valueAt]
              | cons k2 p =>
                rw [fieldAt_cons_zero_plain g gt rest k2 p hplain] at hf
                cases hf
            | succ k =>
              rw [fieldAt_cons_succ] at hf
              rw [valueAt_cons_succ] at hx
              rw [valueAt_cons_succ]
              exact hrest (k :: p) f ft x hf hs hx

/-- Nested records, any depth: one call on a pointer to a record of scalars
and exported nested records completes, and an exported scalar field with a
default, at the end of any path into the nested records, ends with what
`procValue` makes of the default on a settable slot of its type (for a
`float32` that is its prior contents). -/
theorem nested_scalar_default (pf : FloatParser) (fs : Fields) (vs : List Value)
    (p : List Nat) (f : StructField) (ft : GoType) (x : Value) (s : String)
    (hp : plainRecord fs = true) (hc : conforms fs vs = true)
    (hf : fieldAt fs p = some (f, ft)) (hs : isScalar ft = true)
    (hexp : f.Exported = true) (htag : StructTag.Lookup f.Tag "default" = some s)
    (hx : valueAt vs p = some x) :
    ∃ out, LoadDefaultIntoStruct pf (some (.Ptr (.Struct fs), .ptr (.struct vs))) =
        .ok (some (.Ptr (.Struct fs), .ptr (.struct out))) ∧
      valueAt out p = some (procSlot pf ⟨ft, x, true, false⟩ s) := by
  obtain ⟨out, hout, hall⟩ := loop_plainRecord pf fs vs hp hc
  refine ⟨out, ?_, ?_⟩
  · rw [LoadDefaultIntoStruct_ptr_struct, hout]
    rfl
  · have := hall p f ft x hf hs hx
    simpa [htag, hexp, procTagged] using this

/-- C11 (defect, the one of C4): in `struct { SS struct { S string
`default:"sss"`; F float32 `default:"1.5"` } }` one call on a pointer to the
record walks the nested record in place and sets `SS.S` to `"sss"`, but
leaves `SS.F` at its prior contents `x`, for every float parser: `procValue`
does nothing on a `float32`. -/
theorem nested_float32_field_unchanged (pf : FloatParser) (s x : Value) :
    LoadDefaultIntoStruct pf (some (.Ptr recNestedFloat32, .ptr (.struct [.struct [s, x]]))) =
        .ok (some (.Ptr recNestedFloat32, .ptr (.struct [.struct [.str "sss", x]]))) ∧
      fieldAt (.cons (exported "SS" [])
        (.Struct (.cons (exported "S" [("default", "sss")]) .String
          (.cons (exported "F" [("default", "1.5")]) .Float32 .nil))) .nil) [0, 1] =
        some (exported "F" [("default", "1.5")], .Float32) ∧
      valueAt [.struct [.str "sss", x]] [0, 1] = some x :=
  ⟨rfl, rfl, by simp [valueAt]⟩

end ConfLoader
